import Mathlib

/-!
# Portal visibility engine: scheduler and cluster assembler

A shallow embedding of the scheduler (`GetNextPortal`, `UpdateMightsee`,
`PortalCompleted`, `LeafThread`, `CalcPortalVis`), of the cluster assembler
(`ClusterFlow`) and of the portal graph construction (`LoadPortals`) of
`vis/vis.cc`, with the properties the specification claims about them.

Conventions of the embedding:
* the global arrays `portals` and `leafs` are lists, a pointer into one of them
  is its index;
* a read through an index that is out of range (undefined behaviour in the
  source) finds nothing and the step that needed it is skipped; a write
  through such an index changes nothing;
* `uint32_t` values are naturals below `2 ^ 32`, `int` values are integers.
-/

namespace Vis

/-! ## Bit sets -/

/-- Modelled from the spec: the class `leafbits_t` (vis/leafbits.hh) is not among
the sources. It is the bit set with one bit per leaf; the code reads it bit by bit
through `operator[]` and block by block through `data()`, combining the blocks as
`uint32_t`, so a bit set is the list of its 32-bit blocks. -/
abbrev leafbits_t := List Nat

/-- The constant `leafbits_t::shift`: a block index is `bit >> shift`. -/
def leafbits_shift : Nat := 5

/-- The constant `leafbits_t::mask`: a position inside a block is `bit & mask`. -/
def leafbits_mask : Nat := 31

/-- The single-bit mask `nth_bit(n)`, that is `1 << n`. -/
def nth_bit (n : Nat) : Nat := 1 <<< n

/-- Bitwise complement `~x` of a `uint32_t`. -/
def not32 (x : Nat) : Nat := (2 ^ 32 - 1) ^^^ (x % 2 ^ 32)

/-- The builtin `ffsl`: one plus the index of the least significant set bit of a
(64-bit) `long`, and zero when no bit is set. -/
def ffsl (x : Nat) : Nat :=
  match (List.range 64).find? (fun i => x.testBit i) with
  | some i => i + 1
  | none => 0

/-- Block `j` of a bit set, `bits.data()[j]`. -/
def getBlock (bits : leafbits_t) (j : Nat) : Nat := bits.getD j 0

/-- Reading `bits[i]`: bit `i & mask` of block `i >> shift`. -/
def testLeafBit (bits : leafbits_t) (i : Nat) : Bool :=
  (getBlock bits (i >>> leafbits_shift)).testBit (i &&& leafbits_mask)

/-- Writing `bits[i] = value`: the block is or-ed with the bit's mask, or and-ed
with the complement of the mask. -/
def setLeafBit (bits : leafbits_t) (i : Nat) (value : Bool) : leafbits_t :=
  let j := i >>> leafbits_shift
  let m := nth_bit (i &&& leafbits_mask)
  if value then bits.set j (getBlock bits j ||| m)
  else bits.set j (getBlock bits j &&& not32 m)

/-- A bit set with room for `n` bits, all clear: `leafbits_t(n)`, and what
`clear()` leaves. -/
def leafbits_zero (n : Nat) : leafbits_t :=
  List.replicate ((n + leafbits_mask) >>> leafbits_shift) 0

/-- Number of set bits of a bit set (the popcount of the specification). -/
def popcount (bits : leafbits_t) : Nat :=
  (List.range (32 * bits.length)).countP (fun i => testLeafBit bits i)

/-- One bit set is included in another: every bit of the first is a bit of the
second. -/
def leafbits_subset (a b : leafbits_t) : Prop :=
  ∀ i, testLeafBit a i = true → testLeafBit b i = true

/-! ## Geometry carried by a portal -/

/-- A point or vector with three coordinates (`qvec3d`); coordinates are exact
rationals. -/
structure qvec3d where
  x : ℚ
  y : ℚ
  z : ℚ
  deriving DecidableEq, Repr

/-- A plane (`qplane3d`): a normal and a distance. -/
structure qplane3d where
  normal : qvec3d
  dist : ℚ
  deriving DecidableEq, Repr

/-- The negated plane `-plane`: normal and distance change sign. -/
def qplane3d.neg (p : qplane3d) : qplane3d :=
  { normal := { x := -p.normal.x, y := -p.normal.y, z := -p.normal.z }, dist := -p.dist }

/-! ## Portals, leaves and the global state -/

/-- Processing status of a directed portal (`pstatus_t`). -/
inductive pstatus_t where
  | pstat_none
  | pstat_working
  | pstat_done
  deriving DecidableEq, Repr

open pstatus_t

/-- Modelled from the spec: the declaration of `visportal_t` (vis/vis.hh) is not
among the sources. A directed portal: its plane, the leaf it leads to (`leaf`),
its winding, its status, the two bit sets and the count of `mightsee` bits. -/
structure visportal_t where
  plane : qplane3d := { normal := { x := 0, y := 0, z := 0 }, dist := 0 }
  leaf : Nat := 0
  winding : List qvec3d := []
  status : pstatus_t := pstat_none
  visbits : leafbits_t := []
  mightsee : leafbits_t := []
  nummightsee : Int := 0
  deriving DecidableEq, Repr

/-- Modelled from the spec: the declaration of `leaf_t` (vis/vis.hh) is not among
the sources. A leaf: the number of its portals and the array of pointers to them. -/
structure leaf_t where
  numportals : Nat := 0
  portals : List Nat := []
  deriving DecidableEq, Repr

/-- The globals of vis.cc that the scheduler reads and writes. -/
structure State where
  numportals : Nat := 0
  portalleafs : Nat := 0
  portals : List visportal_t := []
  leafs : List leaf_t := []
  c_mightseeupdate : Nat := 0
  deriving DecidableEq, Repr

/-- The value `INT_MAX`. -/
def INT_MAX : Nat := 2147483647

/-- Conversion of an `int` to `uint32_t`, as in the comparison and the assignment
of `GetNextPortal`. -/
def toU32 (x : Int) : Nat := (x % 4294967296).toNat

/-- The leaf `leafs[n]`; a leaf without portals when `n` is out of range. -/
def leafAt (s : State) (n : Nat) : leaf_t := s.leafs.getD n {}

/-- The number of blocks the block loops run over:
`(portalleafs + leafbits_t::mask) >> leafbits_t::shift`. -/
def numblocks (s : State) : Nat := (s.portalleafs + leafbits_mask) >>> leafbits_shift

/-! ## GetNextPortal -/

/-- The scan of `GetNextPortal`: `i` is the index of the portal at the head of the
list, `ret` and `min` are the locals of the source. -/
def GetNextPortal_scan : List visportal_t → Nat → Option Nat → Nat → Option Nat
  | [], _, ret, _ => ret
  | p :: rest, i, ret, min =>
    if toU32 p.nummightsee < min ∧ p.status = pstat_none then
      GetNextPortal_scan rest (i + 1) (some i) (toU32 p.nummightsee)
    else
      GetNextPortal_scan rest (i + 1) ret min

/-- Assignment `portals[p].status = st`. -/
def setStatus (s : State) (p : Nat) (st : pstatus_t) : State :=
  match s.portals[p]? with
  | some q => { s with portals := s.portals.set p { q with status := st } }
  | none => s

/-- The function `GetNextPortal`: the portal found by the scan, marked as being
worked on. -/
def GetNextPortal (s : State) : Option Nat × State :=
  match GetNextPortal_scan s.portals 0 none INT_MAX with
  | some p => (some p, setStatus s p pstat_working)
  | none => (none, s)

/-! ## UpdateMightsee and PortalCompleted -/

/-- Body of the loop of `UpdateMightsee` for the portal `p` of the source leaf. -/
def UpdateMightsee_portal (leafnum : Nat) (s : State) (p : Nat) : State :=
  match s.portals[p]? with
  | none => s
  | some q =>
    if q.status ≠ pstat_none then s
    else if testLeafBit q.mightsee leafnum then
      { s with
        portals := s.portals.set p
          { q with mightsee := setLeafBit q.mightsee leafnum false,
                   nummightsee := q.nummightsee - 1 },
        c_mightseeupdate := s.c_mightseeupdate + 1 }
    else s

/-- The function `UpdateMightsee(source, dest)`, the two leaves given by their
indices in `leafs`. -/
def UpdateMightsee (s : State) (source dest : Nat) : State :=
  let src := leafAt s source
  (List.range src.numportals).foldl
    (fun st i =>
      match src.portals[i]? with
      | some p => UpdateMightsee_portal dest st p
      | none => st)
    s

/-- Inner loop of `PortalCompleted` over the other portals `k` of the leaf: bits
still visible from another portal are removed from `changed`; the loop stops
as soon as `changed` is empty. -/
def PortalCompleted_others (s : State) (myleaf : leaf_t) (i j : Nat) : List Nat → Nat → Nat
  | [], changed => changed
  | k :: ks, changed =>
    if k = i then PortalCompleted_others s myleaf i j ks changed
    else
      let changed1 :=
        match myleaf.portals[k]? with
        | none => changed
        | some p2 =>
          match s.portals[p2]? with
          | none => changed
          | some q2 =>
            if q2.status = pstat_done then changed &&& not32 (getBlock q2.visbits j)
            else changed &&& not32 (getBlock q2.mightsee j)
      if changed1 = 0 then changed1
      else PortalCompleted_others s myleaf i j ks changed1

/-- The `while (changed)` loop of `PortalCompleted`; `fuel` bounds the number of
iterations (32 are enough for a `uint32_t`, see `PortalCompleted_update_fuel`). -/
def PortalCompleted_update (leafnum_of_myleaf j : Nat) : Nat → Nat → State → State
  | 0, _, s => s
  | fuel + 1, changed, s =>
    if changed = 0 then s
    else
      let bit := ffsl changed - 1
      let leafnum := (j <<< leafbits_shift) + bit
      PortalCompleted_update leafnum_of_myleaf j fuel (changed &&& not32 (nth_bit bit))
        (UpdateMightsee s leafnum leafnum_of_myleaf)

/-- Body of the block loop of `PortalCompleted` for the done portal `p` (entry `i`
of the leaf) and block `j`. -/
def PortalCompleted_block (myleaf : leaf_t) (leafnum_of_myleaf i p : Nat) (s : State)
    (j : Nat) : State :=
  match s.portals[p]? with
  | none => s
  | some q =>
    let changed := getBlock q.mightsee j &&& not32 (getBlock q.visbits j)
    if changed = 0 then s
    else
      PortalCompleted_update leafnum_of_myleaf j 32
        (PortalCompleted_others s myleaf i j (List.range myleaf.numportals) changed) s

/-- Body of the outer loop of `PortalCompleted` for entry `i` of the leaf. -/
def PortalCompleted_portal (myleaf : leaf_t) (leafnum_of_myleaf : Nat) (s : State)
    (i : Nat) : State :=
  match myleaf.portals[i]? with
  | none => s
  | some p =>
    match s.portals[p]? with
    | none => s
    | some q =>
      if q.status ≠ pstat_done then s
      else (List.range (numblocks s)).foldl (PortalCompleted_block myleaf leafnum_of_myleaf i p) s

/-- The leaf whose portals `PortalCompleted` examines: `leafs[completed->leaf]`. -/
def PortalCompleted_leafnum (s : State) (completed : Nat) : Nat :=
  match s.portals[completed]? with
  | some q => q.leaf
  | none => 0

/-- The function `PortalCompleted`. -/
def PortalCompleted (s : State) (completed : Nat) : State :=
  let s1 := setStatus s completed pstat_done
  let leafnum := PortalCompleted_leafnum s1 completed
  let myleaf := leafAt s1 leafnum
  (List.range myleaf.numportals).foldl (PortalCompleted_portal myleaf leafnum) s1

/-! ## LeafThread and CalcPortalVis -/

/-- Modelled from the spec: `PortalFlow` (vis/flow.cc) is not among the sources.
The full pass resolves one portal and leaves the result in its `visbits`; the
bit set it computes is the parameter `flow`, and the step stores it in the portal. -/
def PortalFlow (flow : State → Nat → leafbits_t) (s : State) (p : Nat) : State :=
  match s.portals[p]? with
  | some q => { s with portals := s.portals.set p { q with visbits := flow s p } }
  | none => s

/-- The function `LeafThread`, one unit of work: select a portal, resolve it,
complete it. The result carries the selected portal. -/
def LeafThread (flow : State → Nat → leafbits_t) (s : State) : Option Nat × State :=
  match GetNextPortal s with
  | (some p, s1) => (some p, PortalCompleted (PortalFlow flow s1 p) p)
  | (none, s1) => (none, s1)

/-- The units of work of `parallel_for`, run one after another: `n` calls of
`LeafThread`. The result lists the portals the calls selected, in order. -/
def LeafThread_run (flow : State → Nat → leafbits_t) : Nat → State → List Nat × State
  | 0, s => ([], s)
  | n + 1, s =>
    match LeafThread flow s with
    | (some p, s1) => (p :: (LeafThread_run flow n s1).1, (LeafThread_run flow n s1).2)
    | (none, s1) => LeafThread_run flow n s1

/-- The branch of `CalcPortalVis` taken in fast mode: every portal gets its
`mightsee` as `visbits` and is marked done. -/
def CalcPortalVis_fast (s : State) : State :=
  { s with portals := s.portals.map (fun p => { p with visbits := p.mightsee, status := pstat_done }) }

/-- The count of already completed portals, `startcount` of `CalcPortalVis`. -/
def CalcPortalVis_startcount (s : State) : Nat :=
  s.portals.countP (fun p => decide (p.status = pstat_done))

/-- The function `CalcPortalVis`; `fast` is the option `vis_options.fast`. -/
def CalcPortalVis (fast : Bool) (flow : State → Nat → leafbits_t) (s : State) : State :=
  if fast then CalcPortalVis_fast s
  else (LeafThread_run flow (s.numportals * 2 - CalcPortalVis_startcount s) s).2

/-! ## ClusterFlow -/

/-- The fields of a leaf of the bsp (`bsp->dleafs[i]`) that `ClusterFlow` uses. -/
structure dleaf_t where
  cluster : Int := 0
  visofs : Int := 0
  deriving DecidableEq, Repr

/-- The globals of vis.cc and the fields of the bsp that `ClusterFlow` reads and
writes; `q2` is the test `bsp->loadversion->game->id == GAME_QUAKE_II`. -/
structure Assembler where
  q2 : Bool := false
  portalleafs_real : Nat := 0
  leafbytes : Nat := 0
  leafbytes_real : Nat := 0
  uncompressed : List Nat := []
  totalvis : Int := 0
  compressed : List Nat := []
  vismap : List Nat := []
  bit_offsets : List Int := []
  dleafs : List dleaf_t := []
  deriving DecidableEq, Repr

/-- Conversion of an `int` to the `size_t` index of `operator[]`. -/
def toSize (x : Int) : Nat := (x % 18446744073709551616).toNat

/-- Conversion of a `size_t` to `int32_t`, as in `int32_t visofs = vismap.size()`. -/
def toI32 (n : Nat) : Int := ((n + 2147483648) % 4294967296 : Nat) - 2147483648

/-- The cluster of leaf `i` of the bsp, `bsp->dleafs[i].cluster`. -/
def clusterOf (a : Assembler) (i : Nat) : Int := (a.dleafs.getD i {}).cluster

/-- The loop `buffer.data()[j] |= p->visbits.data()[j]` over the blocks. -/
def ClusterFlow_or (nblocks : Nat) (buffer visbits : leafbits_t) : leafbits_t :=
  (List.range nblocks).foldl
    (fun b j => b.set j (getBlock b j ||| getBlock visbits j)) buffer

/-- The loop of `ClusterFlow` over the entries of the leaf that collects the
visible bits of its portals; it fails on a portal that is not done. -/
def ClusterFlow_collect (s : State) (leaf : leaf_t) :
    List Nat → leafbits_t → Except String leafbits_t
  | [], buffer => .ok buffer
  | i :: rest, buffer =>
    match leaf.portals[i]? with
    | none => ClusterFlow_collect s leaf rest buffer
    | some p =>
      match s.portals[p]? with
      | none => ClusterFlow_collect s leaf rest buffer
      | some q =>
        if q.status ≠ pstat_done then .error "portal not done"
        else ClusterFlow_collect s leaf rest (ClusterFlow_or (numblocks s) buffer q.visbits)

/-- First part of `ClusterFlow`: the bits of all portals of the cluster, then
`buffer[clusternum] = true`. -/
def ClusterFlow_accumulate (s : State) (clusternum : Nat) (buffer : leafbits_t) :
    Except String leafbits_t :=
  match ClusterFlow_collect s (leafAt s clusternum)
      (List.range (leafAt s clusternum).numportals) buffer with
  | .error e => .error e
  | .ok b => .ok (setLeafBit b clusternum true)

/-- Bit `i` of the byte row that starts at byte `base` of `bytes`. -/
def testRowBit (bytes : List Nat) (base i : Nat) : Bool :=
  (bytes.getD (base + (i >>> 3)) 0).testBit (i &&& 7)

/-- The statement `outbuffer[i >> 3] |= nth_bit(i & 7)`, `outbuffer` starting at
byte `base` of `uncompressed`. -/
def setRowBit (bytes : List Nat) (base i : Nat) : List Nat :=
  bytes.set (base + (i >>> 3)) (bytes.getD (base + (i >>> 3)) 0 ||| nth_bit (i &&& 7))

/-- The expansion loops of `ClusterFlow`: for `i` below `n`, bit `i` of the row is
set and `numvis` incremented when `visible i`. The state of the loop is the pair
of `uncompressed` and `numvis`. -/
def ClusterFlow_expand (visible : Nat → Bool) (base n : Nat) (bytes : List Nat) :
    List Nat × Nat :=
  (List.range n).foldl
    (fun (st : List Nat × Nat) i =>
      if visible i then (setRowBit st.1 base i, st.2 + 1) else st)
    (bytes, 0)

/-- The loop that adds `numvis` to `totalvis` once for every real leaf of the
cluster. -/
def ClusterFlow_totalvis (a : Assembler) (clusternum : Nat) (numvis : Nat) : Int :=
  (List.range a.portalleafs_real).foldl
    (fun t i => if clusterOf a (i + 1) = (clusternum : Int) then t + (numvis : Int) else t)
    a.totalvis

/-- The loop that records `visofs` in every real leaf of the cluster. -/
def ClusterFlow_visofs (a : Assembler) (clusternum : Nat) (visofs : Int) : List dleaf_t :=
  (List.range a.portalleafs_real).foldl
    (fun d i =>
      match d[i + 1]? with
      | some l => if l.cluster = (clusternum : Int) then d.set (i + 1) { l with visofs := visofs } else d
      | none => d)
    a.dleafs

/-- The position of the output row of the cluster in `uncompressed`:
`clusternum * leafbytes` for Quake II, `clusternum * leafbytes_real` otherwise. -/
def ClusterFlow_base (a : Assembler) (clusternum : Nat) : Nat :=
  if a.q2 then clusternum * a.leafbytes else clusternum * a.leafbytes_real

/-- The number of bits the expansion loop runs over: `portalleafs` for Quake II,
`portalleafs_real` otherwise. -/
def ClusterFlow_rowbits (s : State) (a : Assembler) : Nat :=
  if a.q2 then s.portalleafs else a.portalleafs_real

/-- The test of the expansion loop for bit `i`: `buffer[i]` for Quake II,
`buffer[bsp->dleafs[i + 1].cluster]` otherwise. -/
def ClusterFlow_visible (a : Assembler) (buf : leafbits_t) (i : Nat) : Bool :=
  if a.q2 then testLeafBit buf i else testLeafBit buf (toSize (clusterOf a (i + 1)))

/-- The expansion of the accumulated row `buf` of the cluster: the new contents
of `uncompressed` and the value of `numvis`. -/
def ClusterFlow_out (s : State) (a : Assembler) (clusternum : Nat) (buf : leafbits_t) :
    List Nat × Nat :=
  ClusterFlow_expand (ClusterFlow_visible a buf) (ClusterFlow_base a clusternum)
    (ClusterFlow_rowbits s a) a.uncompressed

/-- The function `ClusterFlow`. `CompressRow` (not among the sources) is a
parameter: the compressed form of a byte row. The result is the accumulator
`buffer` and the assembler state after the call. -/
def ClusterFlow (CompressRow : List Nat → List Nat) (s : State) (a : Assembler)
    (clusternum : Nat) (buffer : leafbits_t) : Except String (leafbits_t × Assembler) :=
  match ClusterFlow_accumulate s clusternum buffer with
  | .error e => .error e
  | .ok buf =>
    let out := ClusterFlow_out s a clusternum buf
    let numvis := out.2
    let totalvis :=
      if a.q2 then a.totalvis + (numvis : Int) else ClusterFlow_totalvis a clusternum numvis
    let compressed :=
      CompressRow ((out.1.drop (ClusterFlow_base a clusternum)).take
        ((ClusterFlow_rowbits s a + 7) >>> 3))
    let visofs : Int := toI32 a.vismap.length
    .ok (buf,
      { a with
        uncompressed := out.1,
        totalvis := totalvis,
        compressed := compressed,
        bit_offsets := a.bit_offsets.set clusternum visofs,
        dleafs := if a.q2 then a.dleafs else ClusterFlow_visofs a clusternum visofs,
        vismap := a.vismap ++ compressed })

/-- The member `clear()` of a bit set: all blocks zero. -/
def leafbits_clear (bits : leafbits_t) : leafbits_t := bits.map (fun _ => 0)

/-- The assembling loop of `CalcVis`: `ClusterFlow` for the clusters of the list,
the accumulator cleared after each call. -/
def CalcVis_assemble (CompressRow : List Nat → List Nat) (s : State) :
    List Nat → leafbits_t → Assembler → Except String Assembler
  | [], _, a => .ok a
  | i :: rest, buffer, a =>
    match ClusterFlow CompressRow s a i buffer with
    | .error e => .error e
    | .ok (buf, a1) => CalcVis_assemble CompressRow s rest (leafbits_clear buf) a1

/-! ## LoadPortals -/

/-- A portal of the portal file: its winding and the two leaves it joins. -/
structure prtfile_portal_t where
  winding : List qvec3d := []
  leafnums : Nat × Nat := (0, 0)
  deriving DecidableEq, Repr

/-- The statements `l.portals[l.numportals] = &p; l.numportals++` on leaf
`leafnum`, after the capacity check; `cap` is `MAX_PORTALS_ON_LEAF`. The entries
of the array that were never written are not represented, so writing entry
`numportals` of a leaf with `numportals` entries appends. -/
def LoadPortals_register (cap : Nat) (s : State) (leafnum p : Nat) : Except String State :=
  match s.leafs[leafnum]? with
  | none => .ok s
  | some l =>
    if l.numportals = cap then .error "Leaf with too many portals"
    else
      .ok { s with
        leafs := s.leafs.set leafnum
          { numportals := l.numportals + 1,
            portals := if l.numportals < l.portals.length then l.portals.set l.numportals p
                       else l.portals ++ [p] } }

/-- Assignment of winding, plane and leaf to the portal `portals[p]`. -/
def LoadPortals_fill (s : State) (p : Nat) (w : List qvec3d) (pl : qplane3d) (leaf : Nat) :
    State :=
  match s.portals[p]? with
  | none => s
  | some q => { s with portals := s.portals.set p { q with winding := w, plane := pl, leaf := leaf } }

/-- Body of the loop of `LoadPortals` for one portal of the file; `dest` is the
position of `dest_portal_it`. `plane_of` is `winding.plane()` (not among the
sources); `flip()` reverses the order of the points. -/
def LoadPortals_portal (cap : Nat) (plane_of : List qvec3d → qplane3d)
    (st : Nat × State) (sourceportal : prtfile_portal_t) : Except String (Nat × State) :=
  let dest := st.1
  let s := st.2
  let plane := plane_of sourceportal.winding
  match LoadPortals_register cap s sourceportal.leafnums.1 dest with
  | .error e => .error e
  | .ok s1 =>
    let s2 := LoadPortals_fill s1 dest sourceportal.winding plane.neg sourceportal.leafnums.2
    match LoadPortals_register cap s2 sourceportal.leafnums.2 (dest + 1) with
    | .error e => .error e
    | .ok s3 =>
      .ok (dest + 2,
        LoadPortals_fill s3 (dest + 1) sourceportal.winding.reverse plane sourceportal.leafnums.1)

/-- The loop of `LoadPortals` over the portals of the file. -/
def LoadPortals_loop (cap : Nat) (plane_of : List qvec3d → qplane3d) :
    List prtfile_portal_t → Nat × State → Except String (Nat × State)
  | [], st => .ok st
  | sp :: rest, st =>
    match LoadPortals_portal cap plane_of st sp with
    | .error e => .error e
    | .ok st1 => LoadPortals_loop cap plane_of rest st1

/-- The part of `LoadPortals` that builds the portal graph: `numportals` is the
number of portals of the file, `portals` is resized to twice that, `leafs` to
`portalleafs`, and the loop fills them. -/
def LoadPortals (cap : Nat) (plane_of : List qvec3d → qplane3d) (portalleafs : Nat)
    (prt : List prtfile_portal_t) : Except String State :=
  let s0 : State :=
    { numportals := prt.length,
      portalleafs := portalleafs,
      portals := List.replicate (prt.length * 2) {},
      leafs := List.replicate portalleafs {} }
  match LoadPortals_loop cap plane_of prt (0, s0) with
  | .error e => .error e
  | .ok st => .ok st.2

/-! ## The run-length codec of the visibility rows -/

/-- Modelled from the spec: `CompressRow` is not among the sources. A run of zero
bytes is written as a zero byte followed by a repeat count byte (so a run longer
than 255 is written as several such pairs); every other byte is written as it is.
The second argument is the length of the run of zero bytes read so far. -/
def CompressRow_run : List Nat → Nat → List Nat
  | [], 0 => []
  | [], rep + 1 => [0, rep + 1]
  | b :: rest, 0 => if b = 0 then CompressRow_run rest 1 else b :: CompressRow_run rest 0
  | b :: rest, rep + 1 =>
    if b = 0 then
      if rep + 1 < 255 then CompressRow_run rest (rep + 2)
      else 0 :: (rep + 1) :: CompressRow_run rest 1
    else 0 :: (rep + 1) :: b :: CompressRow_run rest 0

/-- Modelled from the spec: the run-length encoding of a byte row (`CompressRow`,
not among the sources). -/
def CompressRow (row : List Nat) : List Nat := CompressRow_run row 0

/-- Modelled from the spec: the decoding of a compressed row (`DecompressRow`, not
among the sources): the byte stream is read until `numbytes` bytes are
reconstructed; a zero byte is followed by the number of zero bytes it stands for,
every other byte stands for itself. The last argument is the row decoded so far. -/
def DecompressRow (numbytes : Nat) : List Nat → List Nat → List Nat
  | [], out => out
  | b :: rest, out =>
    if numbytes ≤ out.length then out
    else if b = 0 then
      match rest with
      | [] => out
      | c :: rest2 => DecompressRow numbytes rest2 (out ++ List.replicate c 0)
    else DecompressRow numbytes rest (out ++ [b])

/-- The limits `STACK_WINDINGS`, `MAX_WINDING`, `MAX_WINDING_FIXED` and the
tolerance `VIS_ON_EPSILON`. They are declared in vis/vis.hh, which is not among
the sources, so the functions below take them as a parameter. -/
structure vis_limits where
  STACK_WINDINGS : Nat
  MAX_WINDING : Nat
  MAX_WINDING_FIXED : Nat
  VIS_ON_EPSILON : ℚ
  deriving DecidableEq, Repr

/-- A winding (`viswinding_t`): the cached origin and radius of its bounding
sphere and its points. -/
structure viswinding_t where
  origin : qvec3d := { x := 0, y := 0, z := 0 }
  radius : ℚ := 0
  points : List qvec3d := []
  deriving DecidableEq, Repr

/-- The scratch pool of a `pstack_t`: the array `windings` and the flags
`windings_used`. `overrun` records that a flag was written at a position that
is not in the flag array. -/
structure pstack_t where
  windings : List viswinding_t := []
  windings_used : List Bool := []
  overrun : Bool := false
  deriving DecidableEq, Repr

/-- A pointer to a winding: `slot i` is `&stack.windings[i]` (for
`i = STACK_WINDINGS` the position one past the last slot); `other w` points to a
winding `w` that is not in the array of this stack (a winding of a portal or of
another stack). -/
inductive winding_ptr where
  | slot (i : Nat)
  | other (w : viswinding_t)
  deriving DecidableEq, Repr

/-- The winding a pointer points to. -/
def winding_at (stack : pstack_t) : winding_ptr → viswinding_t
  | .slot i => stack.windings.getD i {}
  | .other w => w

/-- The sides of a plane: `SIDE_FRONT`, `SIDE_BACK`, `SIDE_ON` (the values of the
enumeration of the common headers, which index `counts`). -/
def SIDE_FRONT : Nat := 0

def SIDE_BACK : Nat := 1

def SIDE_ON : Nat := 2

/-- The signed distance `split.distance_to(p)`: `dot(normal, p) - dist`. -/
def qplane3d.distance_to (split : qplane3d) (p : qvec3d) : ℚ :=
  split.normal.x * p.x + split.normal.y * p.y + split.normal.z * p.z - split.dist

/-- Conversion of an `int` value to the range of `int`, for `c_noclip++`. -/
def wrapI32 (x : Int) : Int := (x + 2147483648) % 4294967296 - 2147483648

/-- The function `AllocStackWinding`: the first slot below `STACK_WINDINGS` whose
flag is clear is cleared of its points and marked used; `FError("failed")` when
there is none. The result is the index of the slot and the pool. -/
def AllocStackWinding (L : vis_limits) (stack : pstack_t) : Except String (Nat × pstack_t) :=
  match (List.range L.STACK_WINDINGS).find? (fun i => !(stack.windings_used.getD i true)) with
  | none => .error "failed"
  | some i =>
    .ok (i, { stack with
      windings := stack.windings.set i { stack.windings.getD i {} with points := [] },
      windings_used := stack.windings_used.set i true })

/-- The function `FreeStackWinding`: when the pointer lies between
`stack.windings` and `&stack.windings[STACK_WINDINGS]` (both included) the flag at
its index is cleared and the pointer becomes null; otherwise nothing happens.
The result is the pointer after the call (`none` is null) and the pool. -/
def FreeStackWinding (L : vis_limits) (w : winding_ptr) (stack : pstack_t) :
    Option winding_ptr × pstack_t :=
  match w with
  | .slot i =>
    if i ≤ L.STACK_WINDINGS then
      (none, { stack with
        windings_used := stack.windings_used.set i false,
        overrun := stack.overrun || decide (stack.windings_used.length ≤ i) })
    else (some w, stack)
  | .other _ => (some w, stack)

/-- The classification of a point at signed distance `dot`. -/
def ClipStackWinding_side (L : vis_limits) (dot : ℚ) : Nat :=
  if dot > L.VIS_ON_EPSILON then SIDE_FRONT
  else if dot < -L.VIS_ON_EPSILON then SIDE_BACK
  else SIDE_ON

/-- One coordinate of a split point: `split.dist` when the component of the
normal is 1, `-split.dist` when it is -1, the interpolated value otherwise. -/
def ClipStackWinding_coord (n dist a b fraction : ℚ) : ℚ :=
  if n = 1 then dist
  else if n = -1 then -dist
  else a + fraction * (b - a)

/-- The split point `mid` of the edge from `p1` to `p2`, whose distances to the
plane are `d1` and `d2`. -/
def ClipStackWinding_mid (split : qplane3d) (p1 p2 : qvec3d) (d1 d2 : ℚ) : qvec3d :=
  let fraction := d1 / (d1 - d2)
  { x := ClipStackWinding_coord split.normal.x split.dist p1.x p2.x fraction,
    y := ClipStackWinding_coord split.normal.y split.dist p1.y p2.y fraction,
    z := ClipStackWinding_coord split.normal.z split.dist p1.z p2.z fraction }

/-- The statements `if (neww->size() == MAX_WINDING_FIXED) goto noclip;
neww->push_back(p)`: the points of `neww` afterwards, and whether the jump was
taken. -/
def ClipStackWinding_push (L : vis_limits) (neww : List qvec3d) (p : qvec3d) :
    List qvec3d × Bool :=
  if neww.length = L.MAX_WINDING_FIXED then (neww, true) else (neww ++ [p], false)

/-- Body of the point loop of `ClipStackWinding` for index `i`; `pts` are the
points of `in`, `sides` and `dists` the arrays filled by the classification
(with the entry `n` copied from entry 0). The state is the points of `neww` and
whether `goto noclip` was taken. -/
def ClipStackWinding_step (L : vis_limits) (split : qplane3d) (pts : List qvec3d)
    (sides : List Nat) (dists : List ℚ) (st : List qvec3d × Bool) (i : Nat) :
    List qvec3d × Bool :=
  if st.2 then st
  else
    let p1 := pts.getD i { x := 0, y := 0, z := 0 }
    if sides.getD i SIDE_ON = SIDE_ON then ClipStackWinding_push L st.1 p1
    else
      let st1 :=
        if sides.getD i SIDE_ON = SIDE_FRONT then ClipStackWinding_push L st.1 p1
        else (st.1, false)
      if st1.2 then st1
      else if sides.getD (i + 1) SIDE_ON = SIDE_ON ∨ sides.getD (i + 1) SIDE_ON = sides.getD i SIDE_ON
      then st1
      else
        let p2 := pts.getD ((i + 1) % pts.length) { x := 0, y := 0, z := 0 }
        let mid := ClipStackWinding_mid split p1 p2 (dists.getD i 0) (dists.getD (i + 1) 0)
        ClipStackWinding_push L st1.1 mid

/-- The point loop of `ClipStackWinding`, for `i` from 0 to `in->size() - 1`. -/
def ClipStackWinding_loop (L : vis_limits) (split : qplane3d) (pts : List qvec3d)
    (sides : List Nat) (dists : List ℚ) : List qvec3d × Bool :=
  (List.range pts.length).foldl (ClipStackWinding_step L split pts sides dists) ([], false)

/-- The array `dists` after the classification loop: the distances of the
points, followed by a copy of the first entry. -/
def ClipStackWinding_dists (split : qplane3d) (pts : List qvec3d) : List ℚ :=
  pts.map split.distance_to ++ [(pts.map split.distance_to).getD 0 0]

/-- The array `sides` after the classification loop: the sides of the points,
followed by a copy of the first entry. -/
def ClipStackWinding_sides (L : vis_limits) (split : qplane3d) (pts : List qvec3d) : List Nat :=
  pts.map (fun p => ClipStackWinding_side L (split.distance_to p)) ++
    [(pts.map (fun p => ClipStackWinding_side L (split.distance_to p))).getD 0 SIDE_ON]

/-- The entry `counts[k]` after the classification loop. -/
def ClipStackWinding_count (L : vis_limits) (split : qplane3d) (pts : List qvec3d) (k : Nat) :
    Nat :=
  (pts.map (fun p => ClipStackWinding_side L (split.distance_to p))).count k

/-- The part of `ClipStackWinding` after the three early returns: a winding is
taken from the pool, the point loop fills it, and either the input is freed and
the new winding returned, or (label `noclip`) the new winding is freed,
`c_noclip` incremented and the input returned. The points of `in` are read
after the allocation, as the source does. -/
def ClipStackWinding_clip (L : vis_limits) (inp : winding_ptr) (stack : pstack_t)
    (split : qplane3d) (c_noclip : Int) (sides : List Nat) (dists : List ℚ) :
    Except String (Option winding_ptr × pstack_t × Int) :=
  match AllocStackWinding L stack with
  | .error e => .error e
  | .ok (k, stack1) =>
    let w := winding_at stack1 inp
    let out := ClipStackWinding_loop L split w.points sides dists
    let stack2 : pstack_t :=
      { stack1 with
        windings := stack1.windings.set k { origin := w.origin, radius := w.radius, points := out.1 } }
    if out.2 then
      .ok (some inp, (FreeStackWinding L (.slot k) stack2).2, wrapI32 (c_noclip + 1))
    else
      .ok (some (.slot k), (FreeStackWinding L inp stack2).2, c_noclip)

/-- The function `ClipStackWinding`. The result is the returned pointer (`none`
is null), the pool and the counter `c_noclip` after the call; an `FError` is
`.error`. -/
def ClipStackWinding (L : vis_limits) (inp : winding_ptr) (stack : pstack_t)
    (split : qplane3d) (c_noclip : Int) : Except String (Option winding_ptr × pstack_t × Int) :=
  let w := winding_at stack inp
  let dot := split.distance_to w.origin
  if dot < -w.radius then .ok (none, (FreeStackWinding L inp stack).2, c_noclip)
  else if dot > w.radius then .ok (some inp, stack, c_noclip)
  else if w.points.length > L.MAX_WINDING then .error "in->numpoints > MAX_WINDING"
  else if ClipStackWinding_count L split w.points SIDE_ON = w.points.length then
    .ok (some inp, stack, c_noclip)
  else if ClipStackWinding_count L split w.points 0 = 0 then
    .ok (none, (FreeStackWinding L inp stack).2, c_noclip)
  else if ClipStackWinding_count L split w.points 1 = 0 then .ok (some inp, stack, c_noclip)
  else
    ClipStackWinding_clip L inp stack split c_noclip (ClipStackWinding_sides L split w.points)
      (ClipStackWinding_dists split w.points)

/-- The points one iteration of the point loop pushes when no capacity check
stops it: the point itself when it is on or in front, then the split point when
the next point is on the other side. -/
def ClipStackWinding_emit (split : qplane3d) (pts : List qvec3d) (sides : List Nat)
    (dists : List ℚ) (i : Nat) : List qvec3d :=
  let p1 := pts.getD i { x := 0, y := 0, z := 0 }
  if sides.getD i SIDE_ON = SIDE_ON then [p1]
  else
    (if sides.getD i SIDE_ON = SIDE_FRONT then [p1] else []) ++
    (if sides.getD (i + 1) SIDE_ON = SIDE_ON ∨ sides.getD (i + 1) SIDE_ON = sides.getD i SIDE_ON
      then []
      else [ClipStackWinding_mid split p1
        (pts.getD ((i + 1) % pts.length) { x := 0, y := 0, z := 0 })
        (dists.getD i 0) (dists.getD (i + 1) 0)])

/-- The points of the clipped polygon: what the point loop pushes over all
indices when no capacity check stops it. -/
def ClipStackWinding_wanted (L : vis_limits) (split : qplane3d) (pts : List qvec3d) :
    List qvec3d :=
  (List.range pts.length).flatMap
    (ClipStackWinding_emit split pts (ClipStackWinding_sides L split pts)
      (ClipStackWinding_dists split pts))

/-- Pushing the points of a list one after another, each push behind the
capacity check of `ClipStackWinding_push`; once the jump to `noclip` is taken
nothing more is pushed. -/
def ClipStackWinding_pushes (L : vis_limits) : List qvec3d × Bool → List qvec3d →
    List qvec3d × Bool
  | st, [] => st
  | st, e :: rest =>
    if st.2 then st else ClipStackWinding_pushes L (ClipStackWinding_push L st.1 e) rest

/-! ## Predicates and examples for the winding clipper -/

/-- The input winding with its points replaced by `pts`: the pointer and the pool
that hold it. -/
def winding_with_points (inp : winding_ptr) (stack : pstack_t) (pts : List qvec3d) :
    winding_ptr × pstack_t :=
  match inp with
  | .slot i =>
    (.slot i, { stack with
      windings := stack.windings.set i { stack.windings.getD i {} with points := pts } })
  | .other w => (.other { w with points := pts }, stack)

/-- First case of ownership: the result is the input and no flag changed. -/
def owns_input (inp : winding_ptr) (stack : pstack_t) (r : Option winding_ptr)
    (st : pstack_t) : Prop :=
  r = some inp ∧ st.windings_used = stack.windings_used

/-- Second case of ownership: the result is a slot that was free and is now used,
it is not the input, the slot of the input (if it has one) is now free, and no
other flag changed. -/
def owns_new (inp : winding_ptr) (stack : pstack_t) (r : Option winding_ptr)
    (st : pstack_t) : Prop :=
  ∃ k, r = some (.slot k) ∧ winding_ptr.slot k ≠ inp ∧
    stack.windings_used[k]? = some false ∧ st.windings_used[k]? = some true ∧
    (∀ i, inp = .slot i → st.windings_used[i]? = some false) ∧
    (∀ j, j ≠ k → inp ≠ .slot j → st.windings_used[j]? = stack.windings_used[j]?)

/-- Third case of ownership: the result is null, the slot of the input (if it has
one) is now free, and no other flag changed. -/
def owns_null (inp : winding_ptr) (stack : pstack_t) (r : Option winding_ptr)
    (st : pstack_t) : Prop :=
  r = none ∧ (∀ i, inp = .slot i → st.windings_used[i]? = some false) ∧
    (∀ j, inp ≠ .slot j → st.windings_used[j]? = stack.windings_used[j]?)

/-- Limits for the examples: three slots, windings of at most 64 points, clipped
windings of at most 24 points, tolerance one tenth. -/
def demo_limits : vis_limits :=
  { STACK_WINDINGS := 3, MAX_WINDING := 64, MAX_WINDING_FIXED := 24, VIS_ON_EPSILON := 1 / 10 }

/-- The same limits with clipped windings of at most three points. -/
def tight_limits : vis_limits :=
  { STACK_WINDINGS := 3, MAX_WINDING := 64, MAX_WINDING_FIXED := 3, VIS_ON_EPSILON := 1 / 10 }

/-- A square of side 2 in the plane `z = 0`, with its centre and a bounding
radius of 3/2. -/
def demo_square : viswinding_t :=
  { origin := { x := 1, y := 1, z := 0 }, radius := 3 / 2,
    points := [{ x := 0, y := 0, z := 0 }, { x := 2, y := 0, z := 0 },
               { x := 2, y := 2, z := 0 }, { x := 0, y := 2, z := 0 }] }

/-- A pool of three slots: the square in slot 0 (used), the others free. -/
def demo_stack : pstack_t :=
  { windings := [demo_square, {}, {}], windings_used := [true, false, false] }

/-- The plane `x = d`, facing the positive x axis. -/
def plane_x (d : ℚ) : qplane3d := { normal := { x := 1, y := 0, z := 0 }, dist := d }

/-- The plane `z = 0`, facing the positive z axis. -/
def plane_z : qplane3d := { normal := { x := 0, y := 0, z := 1 }, dist := 0 }

/-- The half of the square in front of the plane `x = 1`. -/
def demo_half : List qvec3d :=
  [{ x := 1, y := 0, z := 0 }, { x := 2, y := 0, z := 0 },
   { x := 2, y := 2, z := 0 }, { x := 1, y := 2, z := 0 }]

/-- The pool after the square of slot 0 was clipped to the plane `x = 1`: the
half square in slot 1, slot 0 free again. -/
def demo_clipped : pstack_t :=
  { windings := [demo_square, { origin := { x := 1, y := 1, z := 0 }, radius := 3 / 2,
                                points := demo_half }, {}],
    windings_used := [false, true, false] }

/-! ## The registrations of LoadPortals -/

/-- The directed portals the loop of `LoadPortals` registers in leaf `X`, in the
order of the registrations, when `dest` is the position of `dest_portal_it` at
the start: portal `dest + 2k` for every portal `k` of the file whose first leaf
is `X`, and portal `dest + 2k + 1` for every one whose second leaf is `X`. -/
def LoadPortals_expected : List prtfile_portal_t → Nat → Nat → List Nat
  | [], _, _ => []
  | sp :: rest, dest, X =>
    (if sp.leafnums.1 = X then [dest] else []) ++
      ((if sp.leafnums.2 = X then [dest + 1] else []) ++ LoadPortals_expected rest (dest + 2) X)

/-- A portal file with one portal, the square, joining leaves 0 and 1. -/
def square_prt : List prtfile_portal_t :=
  [{ winding := demo_square.points, leafnums := (0, 1) }]

/-- A portal file with two portals that both join leaves 0 and 1. -/
def double_prt : List prtfile_portal_t :=
  [{ winding := demo_square.points, leafnums := (0, 1) },
   { winding := demo_square.points.reverse, leafnums := (1, 0) }]

/-! ## The effect of UpdateMightsee on one portal -/

/-- The portal `q` after the statements `p->mightsee[leafnum] = false;
p->nummightsee--` of `UpdateMightsee`. -/
def UpdateMightsee_cleared (leafnum : Nat) (q : visportal_t) : visportal_t :=
  { q with mightsee := setLeafBit q.mightsee leafnum false, nummightsee := q.nummightsee - 1 }

/-! ## Predicates used by the statements -/

/-- The invariant of the data model: the `visbits` of every portal are among its
`mightsee`. -/
def visbits_subset_mightsee (s : State) : Prop :=
  ∀ q ∈ s.portals, leafbits_subset q.visbits q.mightsee

/-- No unprocessed portal has a bit in `visbits`. -/
def unprocessed_visbits_empty (s : State) : Prop :=
  ∀ q ∈ s.portals, q.status = pstat_none → ∀ i, testLeafBit q.visbits i = false

/-- Position of a status in the order unprocessed, in progress, done. -/
def pstatus_t.rank : pstatus_t → Nat
  | pstat_none => 0
  | pstat_working => 1
  | pstat_done => 2

/-- The status of portal `p`, when there is such a portal. -/
def statusAt (s : State) (p : Nat) : Option pstatus_t :=
  (s.portals[p]?).map (fun q => q.status)

/-- The relation `Shrink L s t`: state `t` differs from `s` at most in bit `L` of
the `mightsee` sets (and in the counts) of unprocessed portals, where the bit was
cleared. -/
def Shrink (L : Nat) (s t : State) : Prop :=
  t.leafs = s.leafs ∧ t.portalleafs = s.portalleafs ∧ t.numportals = s.numportals ∧
  t.portals.length = s.portals.length ∧
  ∀ (r : Nat) (q : visportal_t), s.portals[r]? = some q → ∃ q2 : visportal_t, t.portals[r]? = some q2 ∧
    q2.status = q.status ∧ q2.visbits = q.visbits ∧ q2.leaf = q.leaf ∧
    q2.plane = q.plane ∧ q2.winding = q.winding ∧
    q2.mightsee.length = q.mightsee.length ∧
    (q.status ≠ pstat_none → q2 = q) ∧
    (∀ k, k ≠ L → testLeafBit q2.mightsee k = testLeafBit q.mightsee k) ∧
    (testLeafBit q2.mightsee L = true → testLeafBit q.mightsee L = true)

/-- The relation `Mono s t`: from `s` to `t` no portal appears or disappears, no
status moves backwards and no `mightsee` gains a bit. -/
def Mono (s t : State) : Prop :=
  t.portals.length = s.portals.length ∧
  ∀ (r : Nat) (q : visportal_t), s.portals[r]? = some q → ∃ q2 : visportal_t, t.portals[r]? = some q2 ∧
    q.status.rank ≤ q2.status.rank ∧
    q2.mightsee.length = q.mightsee.length ∧
    leafbits_subset q2.mightsee q.mightsee

/-- Portal `r` is one of the portals of leaf `X`: some entry of the leaf below its
`numportals` points to it. -/
def onLeaf (s : State) (X r : Nat) : Prop :=
  ∃ k, k < (leafAt s X).numportals ∧ (leafAt s X).portals[k]? = some r

/-- No portal of leaf `L` has confirmed or may still see leaf `X`: every done portal
of `L` has bit `X` clear in `visbits`, every other portal of `L` has bit `X` clear in
`mightsee`, and some done portal of `L` has bit `X` in `mightsee` but not in
`visbits`. -/
def nobody_sees (s : State) (L X : Nat) : Prop :=
  (∀ (k p : Nat) (q : visportal_t), k < (leafAt s L).numportals →
    (leafAt s L).portals[k]? = some p → s.portals[p]? = some q →
      (q.status = pstat_done → testLeafBit q.visbits X = false) ∧
      (q.status ≠ pstat_done → testLeafBit q.mightsee X = false)) ∧
  (∃ (k p : Nat) (q : visportal_t), k < (leafAt s L).numportals ∧
    (leafAt s L).portals[k]? = some p ∧ s.portals[p]? = some q ∧
    q.status = pstat_done ∧ testLeafBit q.mightsee X = true ∧ testLeafBit q.visbits X = false)

/-- The relation `Touched X L s t`: from `s` to `t` bit `L` was cleared in some
`mightsee` sets, and every portal that changed is an unprocessed portal of leaf
`X` that had bit `L` set. -/
def Touched (X L : Nat) (s t : State) : Prop :=
  Shrink L s t ∧
  ∀ (r : Nat) (q q2 : visportal_t), s.portals[r]? = some q → t.portals[r]? = some q2 → q2 ≠ q →
    onLeaf s X r ∧ q.status = pstat_none ∧ testLeafBit q.mightsee L = true

/-- The invariant of the loops of `PortalCompleted` examining leaf `L` from state
`s1`: only bit `L` of unprocessed portals was cleared, and every portal that
changed is on a leaf that no portal of `L` sees. -/
def Eliminated (L : Nat) (s1 t : State) : Prop :=
  Shrink L s1 t ∧
  ∀ (r : Nat) (q q2 : visportal_t), s1.portals[r]? = some q → t.portals[r]? = some q2 → q2 ≠ q →
    q.status = pstat_none ∧ ∃ X, onLeaf s1 X r ∧ nobody_sees s1 L X

/-- Every leaf has as many entries as its `numportals` says. -/
def leafs_wf (s : State) : Prop :=
  ∀ (X : Nat) (l : leaf_t), s.leafs[X]? = some l → l.numportals = l.portals.length


/-! ## Concrete states

A chain of three leaves joined by two portals of the portal file, in the layout
`LoadPortals` builds: directed portals 0 and 1 between leaves 0 and 1, directed
portals 2 and 3 between leaves 1 and 2. -/

/-- Portal 0: in the list of leaf 0, leading to leaf 1; done, it might see leaves 1
and 2 and does see leaf 1. -/
def chain_portal0 : visportal_t :=
  { leaf := 1, status := pstat_done, mightsee := [6], visbits := [2], nummightsee := 2 }

/-- Portal 1: in the list of leaf 1, leading to leaf 0; being worked on. -/
def chain_portal1 : visportal_t :=
  { leaf := 0, status := pstat_working, mightsee := [1], visbits := [1], nummightsee := 1 }

/-- Portal 2: in the list of leaf 1, leading to leaf 2; unprocessed. -/
def chain_portal2 : visportal_t :=
  { leaf := 2, status := pstat_none, mightsee := [4], visbits := [0], nummightsee := 1 }

/-- Portal 3: in the list of leaf 2, leading to leaf 1; unprocessed, it might see
leaves 0 and 1. -/
def chain_portal3 : visportal_t :=
  { leaf := 1, status := pstat_none, mightsee := [3], visbits := [0], nummightsee := 2 }

/-- The leaves of the chain. -/
def chain_leafs : List leaf_t :=
  [{ numportals := 1, portals := [0] }, { numportals := 2, portals := [1, 2] },
   { numportals := 1, portals := [3] }]

/-- The chain, portal 1 about to complete. -/
def chain_state : State :=
  { numportals := 2, portalleafs := 3,
    portals := [chain_portal0, chain_portal1, chain_portal2, chain_portal3],
    leafs := chain_leafs }

/-- The chain with an unprocessed portal 3 that already has leaf 0 in `visbits`. -/
def chain_state_visbits : State :=
  { numportals := 2, portalleafs := 3,
    portals := [chain_portal0, chain_portal1, chain_portal2, { chain_portal3 with visbits := [1] }],
    leafs := chain_leafs }

/-- A portal file with one portal, joining leaves 0 and 1. -/
def one_portal_prt : List prtfile_portal_t := [{ winding := [], leafnums := (0, 1) }]

/-- A stand-in for `winding.plane()`. -/
def flat_plane_of : List qvec3d → qplane3d :=
  fun _ => { normal := { x := 0, y := 0, z := 1 }, dist := 0 }

/-- The graph `LoadPortals` builds from `one_portal_prt`. -/
def one_portal_state : State :=
  { numportals := 1, portalleafs := 2,
    portals := [{ plane := (flat_plane_of []).neg, leaf := 1 }, { plane := flat_plane_of [], leaf := 0 }],
    leafs := [{ numportals := 1, portals := [0] }, { numportals := 1, portals := [1] }] }

/-- The chain after all four portals are done. -/
def chain_done : State :=
  { numportals := 2, portalleafs := 3,
    portals := [{ leaf := 1, status := pstat_done, mightsee := [6], visbits := [2], nummightsee := 2 },
                { leaf := 0, status := pstat_done, mightsee := [1], visbits := [1], nummightsee := 1 },
                { leaf := 2, status := pstat_done, mightsee := [4], visbits := [4], nummightsee := 1 },
                { leaf := 1, status := pstat_done, mightsee := [2], visbits := [2], nummightsee := 1 }],
    leafs := chain_leafs }

/-- An assembler state in clustered mode for the chain: four real leaves (leaf 1
in cluster 0, leaves 2 and 3 in cluster 1, leaf 4 in cluster 2), rows of eight
bytes, `uncompressed` sized and zeroed as `vis_main` does. -/
def chain_assembler : Assembler :=
  { q2 := false, portalleafs_real := 4, leafbytes := 8, leafbytes_real := 8,
    uncompressed := List.replicate 24 0,
    bit_offsets := [0, 0, 0],
    dleafs := [{ cluster := 0 }, { cluster := 0 }, { cluster := 1 }, { cluster := 1 },
               { cluster := 2 }] }

/-- The result of `ClusterFlow` for cluster 1 of the finished chain (rows stored
uncompressed). -/
def chain_cluster1 : leafbits_t × Assembler :=
  match ClusterFlow id chain_done chain_assembler 1 [0] with
  | .ok r => r
  | .error _ => ([], chain_assembler)

/-- Three leaves without any portal. -/
def isolated_state : State :=
  { numportals := 0, portalleafs := 3, portals := [], leafs := [{}, {}, {}] }

/-- The graph `LoadPortals` builds from `square_prt` with `flat_plane_of`. -/
def square_state : State :=
  { numportals := 1, portalleafs := 2,
    portals := [{ winding := demo_square.points, plane := (flat_plane_of demo_square.points).neg,
                  leaf := 1 },
                { winding := demo_square.points.reverse, plane := flat_plane_of demo_square.points,
                  leaf := 0 }],
    leafs := [{ numportals := 1, portals := [0] }, { numportals := 1, portals := [1] }] }

/-! ## Predicates and states for the scheduler and the merged rows -/

/-- Every unprocessed portal carries in `nummightsee` the number of set bits of
its `mightsee`, a number below `INT_MAX`. -/
def counts_exact (s : State) : Prop :=
  ∀ (r : Nat) (q : visportal_t), s.portals[r]? = some q → q.status = pstat_none →
    q.nummightsee = (popcount q.mightsee : Int) ∧ popcount q.mightsee < INT_MAX

/-- The number of unprocessed portals. -/
def unprocessed_count (s : State) : Nat :=
  (List.range s.portals.length).countP (fun r => decide (statusAt s r = some pstat_none))

/-- Some portal entered in the portal list of leaf `A` has leaf `B` in its
`visbits`. -/
def leaf_sees (s : State) (A B : Nat) : Prop :=
  ∃ (i p : Nat) (q : visportal_t), i < (leafAt s A).numportals ∧
    (leafAt s A).portals[i]? = some p ∧ s.portals[p]? = some q ∧ testLeafBit q.visbits B = true

/-- The chain before the full pass: all four portals unprocessed, with the
`mightsee` sets and counts of the base pass. -/
def chain_fresh : State :=
  { numportals := 2, portalleafs := 3,
    portals := [{ leaf := 1, mightsee := [6], visbits := [0], nummightsee := 2 },
                { leaf := 0, mightsee := [1], visbits := [0], nummightsee := 1 },
                { leaf := 2, mightsee := [4], visbits := [0], nummightsee := 1 },
                { leaf := 1, mightsee := [3], visbits := [0], nummightsee := 2 }],
    leafs := chain_leafs }

/-- A stand-in for the full pass: every portal sees what it might see. -/
def flow_all : State → Nat → leafbits_t :=
  fun s p => (s.portals.getD p {}).mightsee

/-- The row `CalcVis` gets for cluster `A`: what `ClusterFlow` accumulates in the
cleared accumulator (no row when `ClusterFlow` fails). -/
def CalcVis_row (s : State) (A : Nat) : leafbits_t :=
  match ClusterFlow_accumulate s A (leafbits_zero s.portalleafs) with
  | .ok row => row
  | .error _ => []

/-! ## qbsp: the option parser and the area portals -/

namespace Qbsp

/-- The versions `options.target_version` is pointed to by `ParseOptions`, and
`bspver_q1` for the version `options` starts with. -/
inductive bspversion_t where
  | bspver_q1
  | bspver_q2
  | bspver_qbism
  | bspver_hl
  | bspver_bsp2
  | bspver_bsp2rmq
  | bspver_h2
  | bspver_h2bsp2
  | bspver_h2bsp2rmq
  deriving DecidableEq, Repr

/-- The game ids that `ParseOptions` reads: the id `GAME_QUAKE_II` and the id of the
game of every version, `version->game->id`. They are declared in
common/bspfile.hh, which is not among the sources, so the functions below take
them as a parameter. -/
structure gamedefs where
  GAME_QUAKE_II : Nat
  game_of : bspversion_t → Nat

/-- The fields of `options` that the Quake II logic of `ParseOptions` reads and
writes; `target_game` is the id of the game `options.target_game` points to. The
other fields of `options_t` are not represented. -/
structure options_t where
  fNoclip : Bool := false
  fbspx_brushes : Bool := false
  target_version : bspversion_t := .bspver_q1
  target_game : Nat := 0
  deriving DecidableEq, Repr

/-- The locals of `ParseOptions` next to `options`: the flag `hexen2` and the
count of file names. -/
structure ParseOptions_state where
  options : options_t
  hexen2 : Bool := false
  NameCount : Nat := 0
  deriving DecidableEq, Repr

/-- Modelled from the spec: `Q_strcasecmp` (common/cmdlib) is not among the
sources. The test `!Q_strcasecmp(szTok, name)`: the token and the name are the
same string when case is disregarded. -/
def Q_strcaseeq (tok : List Char) (name : String) : Bool :=
  tok.map Char.toLower == name.data.map Char.toLower

/-- What the chain of tests of `ParseOptions` does with an option token (the token
without its dash). -/
inductive ParseOptions_kind where
  | plain (st : ParseOptions_state)
  | with_argument (valid : List Char → Bool) (st : ParseOptions_state)
  | help
  | unknown

/-- The arguments that `-convert` accepts. -/
def ParseOptions_convert (arg : List Char) : Bool :=
  Q_strcaseeq arg "quake" || Q_strcaseeq arg "quake2" || Q_strcaseeq arg "valve" ||
    Q_strcaseeq arg "bp"

/-- The chain of tests of `ParseOptions` on an option token, in the order of the
source. An option that writes only fields that are not represented leaves the
state as it is. -/
def ParseOptions_option (st : ParseOptions_state) (t : List Char) : ParseOptions_kind :=
  if Q_strcaseeq t "nofill" then .plain st
  else if Q_strcaseeq t "noclip" then .plain { st with options := { st.options with fNoclip := true } }
  else if Q_strcaseeq t "noskip" then .plain st
  else if Q_strcaseeq t "nodetail" then .plain st
  else if Q_strcaseeq t "onlyents" then .plain st
  else if Q_strcaseeq t "verbose" then .plain st
  else if Q_strcaseeq t "splitspecial" then .plain st
  else if Q_strcaseeq t "splitsky" then .plain st
  else if Q_strcaseeq t "splitturb" then .plain st
  else if Q_strcaseeq t "notranswater" then .plain st
  else if Q_strcaseeq t "transwater" then .plain st
  else if Q_strcaseeq t "transsky" then .plain st
  else if Q_strcaseeq t "notex" then .plain st
  else if Q_strcaseeq t "oldaxis" then .plain st
  else if Q_strcaseeq t "nooldaxis" then .plain st
  else if Q_strcaseeq t "forcegoodtree" then .plain st
  else if Q_strcaseeq t "noverbose" then .plain st
  else if Q_strcaseeq t "nopercent" then .plain st
  else if Q_strcaseeq t "hexen2" then .plain { st with hexen2 := true }
  else if Q_strcaseeq t "q2bsp" then
    .plain { st with options := { st.options with target_version := .bspver_q2 } }
  else if Q_strcaseeq t "qbism" then
    .plain { st with options := { st.options with target_version := .bspver_qbism } }
  else if Q_strcaseeq t "wrbrushes" || Q_strcaseeq t "bspx" then
    .plain { st with options := { st.options with fbspx_brushes := true } }
  else if Q_strcaseeq t "wrbrushesonly" || Q_strcaseeq t "bspxonly" then
    .plain { st with options := { st.options with fbspx_brushes := true, fNoclip := true } }
  else if Q_strcaseeq t "hlbsp" then
    .plain { st with options := { st.options with target_version := .bspver_hl } }
  else if Q_strcaseeq t "bsp2" then
    .plain { st with options := { st.options with target_version := .bspver_bsp2 } }
  else if Q_strcaseeq t "2psb" then
    .plain { st with options := { st.options with target_version := .bspver_bsp2rmq } }
  else if Q_strcaseeq t "leakdist" then .with_argument (fun _ => true) st
  else if Q_strcaseeq t "subdivide" then .with_argument (fun _ => true) st
  else if Q_strcaseeq t "wadpath" || Q_strcaseeq t "xwadpath" then
    .with_argument (fun _ => true) st
  else if Q_strcaseeq t "oldrottex" then .plain st
  else if Q_strcaseeq t "maxnodesize" then .with_argument (fun _ => true) st
  else if Q_strcaseeq t "midsplitsurffraction" then .with_argument (fun _ => true) st
  else if Q_strcaseeq t "epsilon" then .with_argument (fun _ => true) st
  else if Q_strcaseeq t "worldextent" then .with_argument (fun _ => true) st
  else if Q_strcaseeq t "objexport" then .plain st
  else if Q_strcaseeq t "omitdetail" then .plain st
  else if Q_strcaseeq t "omitdetailwall" then .plain st
  else if Q_strcaseeq t "omitdetailillusionary" then .plain st
  else if Q_strcaseeq t "omitdetailfence" then .plain st
  else if Q_strcaseeq t "convert" then .with_argument ParseOptions_convert st
  else if Q_strcaseeq t "forceprt1" then .plain st
  else if Q_strcaseeq t "expand" then .plain st
  else if Q_strcaseeq t "leaktest" then .plain st
  else if Q_strcaseeq t "contenthack" then .plain st
  else if Q_strcaseeq t "nothreads" then .plain st
  else if Q_strcaseeq t "?" || Q_strcaseeq t "help" then .help
  else .unknown

/-- The token loop of `ParseOptions`, over the tokens that `GetTok` cuts from the
option string. A token that does not start with a dash is a file name (a third one is
an error); an option with an argument takes the next token. `PrintOptions`
ends the program, which is reported as an error here. -/
def ParseOptions_loop : List (List Char) → ParseOptions_state → Except String ParseOptions_state
  | [], st => .ok st
  | tok :: rest, st =>
    if tok.head? ≠ some '-' then
      if st.NameCount = 0 ∨ st.NameCount = 1 then
        ParseOptions_loop rest { st with NameCount := st.NameCount + 1 }
      else .error "Unknown option"
    else
      match ParseOptions_option st tok.tail with
      | .plain st1 => ParseOptions_loop rest st1
      | .with_argument valid st1 =>
        match rest with
        | [] => .error "Invalid argument to option"
        | arg :: rest2 =>
          if valid arg then ParseOptions_loop rest2 st1
          else .error "-convert requires one of: quake,quake2,valve,bp"
      | .help => .error "exit"
      | .unknown => .error "Unknown option"

/-- The statements of `ParseOptions` after the token loop, in the order of the
source: the update for `-hexen2`, the flags forced for Quake II, the update of
the target game. -/
def ParseOptions_finish (G : gamedefs) (st : ParseOptions_state) : options_t :=
  let o1 : options_t :=
    if st.hexen2 then
      if st.options.target_version = .bspver_bsp2 then
        { st.options with target_version := .bspver_h2bsp2 }
      else if st.options.target_version = .bspver_bsp2rmq then
        { st.options with target_version := .bspver_h2bsp2rmq }
      else { st.options with target_version := .bspver_h2 }
    else st.options
  let o2 : options_t :=
    if o1.target_game = G.GAME_QUAKE_II then { o1 with fNoclip := true } else o1
  { o2 with target_game := G.game_of o2.target_version }

/-- The white space that `GetTok` skips and that ends a token. -/
def GetTok_space (c : Char) : Bool :=
  c = ' ' || c = '\n' || c = '\t' || c = '\r'

/-- The double quote character. -/
def GetTok_quote : Char := Char.ofNat 34

/-- The characters that end a quoted token of `GetTok`. -/
def GetTok_quote_end (c : Char) : Bool :=
  c = GetTok_quote || c = '\n' || c = '\r'

/-- The function `GetTok` on the characters from `szBuf` to the end of the option
string: the token, and the characters after the one that ended it (where the
caller looks for the next token). `none` is the null pointer. -/
def GetTok (szBuf : List Char) : Option (List Char × List Char) :=
  match szBuf.dropWhile GetTok_space with
  | [] => none
  | c :: r =>
    if c = GetTok_quote then
      some (r.takeWhile (fun x => !GetTok_quote_end x),
        (r.dropWhile (fun x => !GetTok_quote_end x)).tail)
    else
      some ((c :: r).takeWhile (fun x => !GetTok_space x),
        ((c :: r).dropWhile (fun x => !GetTok_space x)).tail)

/-- The tokens that the calls of `GetTok` in `ParseOptions` return one after another;
`fuel` bounds the number of calls. -/
def GetTok_all : Nat → List Char → List (List Char)
  | 0, _ => []
  | fuel + 1, szBuf =>
    match GetTok szBuf with
    | none => []
    | some (tok, rest) => tok :: GetTok_all fuel rest

/-- The function `ParseOptions` on the option string; `options` is the global before
the call, the result is the global after it. Every call of `GetTok` takes at
least one character, so the length of the string is enough fuel. -/
def ParseOptions (G : gamedefs) (options : options_t) (szOptions : List Char) :
    Except String options_t :=
  match ParseOptions_loop (GetTok_all szOptions.length szOptions) { options := options } with
  | .error e => .error e
  | .ok st => .ok (ParseOptions_finish G st)

/-- Game ids for the examples: Quake II is game 3 and the game of the versions
`bspver_q2` and `bspver_qbism`. -/
def demo_games : gamedefs :=
  { GAME_QUAKE_II := 3,
    game_of := fun v =>
      match v with
      | .bspver_q2 => 3
      | .bspver_qbism => 3
      | .bspver_hl => 2
      | .bspver_h2 => 1
      | .bspver_h2bsp2 => 1
      | .bspver_h2bsp2rmq => 1
      | _ => 0 }

end Qbsp

/-! ## Lemmas on bit sets -/

theorem shiftRight_shift (i : Nat) : i >>> leafbits_shift = i / 32 := by
  simp [leafbits_shift, Nat.shiftRight_eq_div_pow]

theorem and_mask (i : Nat) : i &&& leafbits_mask = i % 32 := by
  have h := Nat.and_pow_two_sub_one_eq_mod i 5
  simpa [leafbits_mask] using h

theorem testLeafBit_eq (bits : leafbits_t) (i : Nat) :
    testLeafBit bits i = (getBlock bits (i / 32)).testBit (i % 32) := by
  simp [testLeafBit, shiftRight_shift, and_mask]

theorem testBit_not32 (x t : Nat) :
    (not32 x).testBit t = (decide (t < 32) && !x.testBit t) := by
  unfold not32
  rw [Nat.testBit_xor, Nat.testBit_two_pow_sub_one, Nat.testBit_mod_two_pow]
  by_cases h : t < 32 <;> simp [h]

theorem testBit_nth_bit (n t : Nat) : (nth_bit n).testBit t = decide (n = t) := by
  simp [nth_bit, Nat.one_shiftLeft, Nat.testBit_two_pow]

theorem getBlock_of_le (bits : leafbits_t) (j : Nat) (h : bits.length ≤ j) :
    getBlock bits j = 0 := by
  simp [getBlock, List.getD_eq_getElem?_getD, List.getElem?_eq_none h]

theorem getBlock_set (bits : leafbits_t) (j j2 v : Nat) :
    getBlock (bits.set j v) j2 = if j = j2 ∧ j < bits.length then v else getBlock bits j2 := by
  simp only [getBlock, List.getD_eq_getElem?_getD, List.getElem?_set]
  by_cases h : j = j2
  · subst h
    by_cases h2 : j < bits.length
    · simp [h2]
    · simp [h2, List.getElem?_eq_none (not_lt.1 h2)]
  · simp [h]

theorem block_index_eq (i k : Nat) : (i / 32 = k / 32 ∧ i % 32 = k % 32) ↔ i = k := by
  constructor
  · rintro ⟨h1, h2⟩
    have a := Nat.div_add_mod i 32
    have b := Nat.div_add_mod k 32
    omega
  · rintro rfl; exact ⟨rfl, rfl⟩

theorem testLeafBit_setLeafBit_false (bits : leafbits_t) (i k : Nat) :
    testLeafBit (setLeafBit bits i false) k = (testLeafBit bits k && decide (k ≠ i)) := by
  simp only [testLeafBit_eq, setLeafBit, shiftRight_shift, and_mask, getBlock_set,
    Bool.false_eq_true, if_false]
  by_cases h1 : i / 32 = k / 32
  · by_cases h2 : i / 32 < bits.length
    · rw [if_pos ⟨h1, h2⟩, Nat.testBit_and, testBit_not32, testBit_nth_bit, ← h1]
      have hlt : k % 32 < 32 := Nat.mod_lt _ (by norm_num)
      by_cases h3 : i % 32 = k % 32
      · have : i = k := (block_index_eq i k).1 ⟨h1, h3⟩
        simp [h3, this]
      · have : k ≠ i := fun e => h3 (by rw [e])
        simp [h3, this, hlt]
    · rw [if_neg (fun h => h2 h.2), ← h1, getBlock_of_le _ _ (not_lt.1 h2)]
      simp
  · have : k ≠ i := fun e => h1 (by rw [e])
    rw [if_neg (fun h => h1 h.1)]
    simp [this]

theorem length_setLeafBit (bits : leafbits_t) (i : Nat) (v : Bool) :
    (setLeafBit bits i v).length = bits.length := by
  unfold setLeafBit; split <;> simp

theorem testLeafBit_setLeafBit_true (bits : leafbits_t) (i k : Nat)
    (h : i / 32 < bits.length) :
    testLeafBit (setLeafBit bits i true) k = (testLeafBit bits k || decide (k = i)) := by
  simp only [testLeafBit_eq, setLeafBit, shiftRight_shift, and_mask, getBlock_set,
    if_true]
  by_cases h1 : i / 32 = k / 32
  · rw [if_pos ⟨h1, h⟩, Nat.testBit_or, testBit_nth_bit, ← h1]
    by_cases h3 : i % 32 = k % 32
    · have : i = k := (block_index_eq i k).1 ⟨h1, h3⟩
      simp [h3, this]
    · have : k ≠ i := fun e => h3 (by rw [e])
      simp [h3, this]
  · have : k ≠ i := fun e => h1 (by rw [e])
    rw [if_neg (fun h => h1 h.1)]
    simp [this]

/-! ## Effect of the elimination step on the portals -/

theorem Shrink_refl (L : Nat) (s : State) : Shrink L s s :=
  ⟨rfl, rfl, rfl, rfl, fun _ q h => ⟨q, h, rfl, rfl, rfl, rfl, rfl, rfl, fun _ => rfl,
    fun _ _ => rfl, id⟩⟩

theorem Shrink_trans {L : Nat} {s t u : State} (h1 : Shrink L s t) (h2 : Shrink L t u) :
    Shrink L s u := by
  obtain ⟨a1, a2, a3, a4, a5⟩ := h1
  obtain ⟨b1, b2, b3, b4, b5⟩ := h2
  refine ⟨b1.trans a1, b2.trans a2, b3.trans a3, b4.trans a4, ?_⟩
  intro r q hq
  obtain ⟨q2, hq2, c1, c2, c3, c4, c5, c6, c7, c8, c9⟩ := a5 r q hq
  obtain ⟨q3, hq3, d1, d2, d3, d4, d5, d6, d7, d8, d9⟩ := b5 r q2 hq2
  refine ⟨q3, hq3, d1.trans c1, d2.trans c2, d3.trans c3, d4.trans c4, d5.trans c5,
    d6.trans c6, ?_, ?_, ?_⟩
  · intro hn
    have e := c7 hn
    subst e
    exact d7 hn
  · intro k hk
    rw [d8 k hk, c8 k hk]
  · intro h
    exact c9 (d9 h)

theorem Shrink_UpdateMightsee_portal (L : Nat) (s : State) (p : Nat) :
    Shrink L s (UpdateMightsee_portal L s p) := by
  unfold UpdateMightsee_portal
  split
  · exact Shrink_refl L s
  · rename_i q hq
    split
    · exact Shrink_refl L s
    · rename_i hst
      split
      · rename_i hbit
        refine ⟨rfl, rfl, rfl, by simp, ?_⟩
        intro r q0 hr
        simp only [List.getElem?_set]
        by_cases hpr : p = r
        · subst hpr
          have hlt : p < s.portals.length := by
            rcases List.getElem?_eq_some_iff.1 hq with ⟨h, _⟩
            exact h
          have e : q0 = q := by rw [hq] at hr; exact (Option.some.inj hr).symm
          subst e
          simp only [if_true, hlt]
          refine ⟨_, rfl, rfl, rfl, rfl, rfl, rfl, length_setLeafBit q0.mightsee L false, ?_, ?_, ?_⟩
          · intro hn; exact absurd hn hst
          · intro k hk
            simp [testLeafBit_setLeafBit_false, hk]
          · intro _; exact hbit
        · simp only [hpr, if_false]
          exact ⟨q0, hr, rfl, rfl, rfl, rfl, rfl, rfl, fun _ => rfl, fun _ _ => rfl, id⟩
      · exact Shrink_refl L s

theorem foldl_rel {σ α : Type} (R : σ → σ → Prop) (hrefl : ∀ s, R s s)
    (htrans : ∀ a b c, R a b → R b c → R a c) (f : σ → α → σ) (hf : ∀ s x, R s (f s x))
    (l : List α) (s : σ) : R s (l.foldl f s) := by
  induction l generalizing s with
  | nil => exact hrefl s
  | cons x xs ih => exact htrans _ _ _ (hf s x) (ih (f s x))

theorem Shrink_UpdateMightsee (s : State) (source dest : Nat) :
    Shrink dest s (UpdateMightsee s source dest) := by
  unfold UpdateMightsee
  apply foldl_rel (Shrink dest) (Shrink_refl dest) (fun _ _ _ => Shrink_trans)
  intro st i
  split
  · exact Shrink_UpdateMightsee_portal dest st _
  · exact Shrink_refl dest st

theorem Shrink_PortalCompleted_update (L j : Nat) (fuel changed : Nat) (s : State) :
    Shrink L s (PortalCompleted_update L j fuel changed s) := by
  induction fuel generalizing changed s with
  | zero => exact Shrink_refl L s
  | succ n ih =>
    unfold PortalCompleted_update
    split
    · exact Shrink_refl L s
    · exact Shrink_trans (Shrink_UpdateMightsee s _ L) (ih _ _)

theorem Shrink_PortalCompleted_block (myleaf : leaf_t) (L i p : Nat) (s : State) (j : Nat) :
    Shrink L s (PortalCompleted_block myleaf L i p s j) := by
  unfold PortalCompleted_block
  split
  · exact Shrink_refl L s
  · dsimp only
    split
    · exact Shrink_refl L s
    · exact Shrink_PortalCompleted_update L j 32 _ s

theorem Shrink_PortalCompleted_portal (myleaf : leaf_t) (L : Nat) (s : State) (i : Nat) :
    Shrink L s (PortalCompleted_portal myleaf L s i) := by
  unfold PortalCompleted_portal
  split
  · exact Shrink_refl L s
  · split
    · exact Shrink_refl L s
    · split
      · exact Shrink_refl L s
      · exact foldl_rel (Shrink L) (Shrink_refl L) (fun _ _ _ => Shrink_trans) _
          (fun st j => Shrink_PortalCompleted_block myleaf L i _ st j) _ s

theorem Shrink_PortalCompleted (s : State) (completed : Nat) :
    Shrink (PortalCompleted_leafnum (setStatus s completed pstat_done) completed)
      (setStatus s completed pstat_done) (PortalCompleted s completed) := by
  unfold PortalCompleted
  exact foldl_rel (Shrink _) (Shrink_refl _) (fun _ _ _ => Shrink_trans) _
    (fun st i => Shrink_PortalCompleted_portal _ _ st i) _ _

/-! ## Status assignments and the selection scan -/

theorem getElem?_lt {α : Type} {l : List α} {i : Nat} {a : α} (h : l[i]? = some a) :
    i < l.length := by
  rcases List.getElem?_eq_some_iff.1 h with ⟨h, _⟩
  exact h

theorem setStatus_getElem? (s : State) (p : Nat) (st : pstatus_t) (r : Nat) :
    (setStatus s p st).portals[r]? =
      if r = p then (s.portals[p]?).map (fun q => { q with status := st }) else s.portals[r]? := by
  unfold setStatus
  split
  · rename_i q hq
    simp only [List.getElem?_set]
    by_cases h : r = p
    · subst h
      simp [hq, getElem?_lt hq]
    · have h2 : ¬ p = r := fun e => h e.symm
      simp [h, h2]
  · rename_i hq
    by_cases h : r = p
    · subst h; simp [hq]
    · simp [h]

theorem setStatus_frame (s : State) (p : Nat) (st : pstatus_t) :
    (setStatus s p st).leafs = s.leafs ∧ (setStatus s p st).portalleafs = s.portalleafs ∧
    (setStatus s p st).numportals = s.numportals ∧
    (setStatus s p st).portals.length = s.portals.length := by
  unfold setStatus
  split <;> simp

theorem PortalFlow_getElem? (flow : State → Nat → leafbits_t) (s : State) (p r : Nat) :
    (PortalFlow flow s p).portals[r]? =
      if r = p then (s.portals[p]?).map (fun q => { q with visbits := flow s p })
      else s.portals[r]? := by
  unfold PortalFlow
  split
  · rename_i q hq
    simp only [List.getElem?_set]
    by_cases h : r = p
    · subst h
      simp [hq, getElem?_lt hq]
    · have h2 : ¬ p = r := fun e => h e.symm
      simp [h, h2]
  · rename_i hq
    by_cases h : r = p
    · subst h; simp [hq]
    · simp [h]

theorem PortalFlow_length (flow : State → Nat → leafbits_t) (s : State) (p : Nat) :
    (PortalFlow flow s p).portals.length = s.portals.length := by
  unfold PortalFlow
  split <;> simp

/-- What the scan of `GetNextPortal` returns: either the incoming `ret`, when no
unprocessed portal of the list has a count below `min`, or the first portal of
the list with the least count among its unprocessed portals. -/
theorem GetNextPortal_scan_spec (ps : List visportal_t) (i : Nat) (ret : Option Nat) (min : Nat) :
    (GetNextPortal_scan ps i ret min = ret ∧
      ∀ q ∈ ps, q.status = pstat_none → min ≤ toU32 q.nummightsee) ∨
    (∃ (k : Nat) (q : visportal_t), ps[k]? = some q ∧
      GetNextPortal_scan ps i ret min = some (i + k) ∧ q.status = pstat_none ∧
      toU32 q.nummightsee < min ∧
      ∀ (k2 : Nat) (q2 : visportal_t), ps[k2]? = some q2 → q2.status = pstat_none →
        toU32 q.nummightsee ≤ toU32 q2.nummightsee ∧
        (k2 < k → toU32 q.nummightsee < toU32 q2.nummightsee)) := by
  induction ps generalizing i ret min with
  | nil => left; exact ⟨rfl, by simp⟩
  | cons p rest ih =>
    unfold GetNextPortal_scan
    split
    · rename_i hsel
      obtain ⟨hlt, hst⟩ := hsel
      rcases ih (i + 1) (some i) (toU32 p.nummightsee) with ⟨h1, h2⟩ | ⟨k, q, hk, h1, h2, h3, h4⟩
      · right
        refine ⟨0, p, List.getElem?_cons_zero, by simpa using h1, hst, hlt, ?_⟩
        intro k2 q2 hk2 hq2
        cases k2 with
        | zero =>
          simp at hk2; subst hk2
          exact ⟨le_refl _, fun h => absurd h (lt_irrefl 0)⟩
        | succ k3 =>
          simp at hk2
          exact ⟨h2 q2 (List.getElem?_mem hk2) hq2, fun h => absurd h (Nat.not_lt_zero _)⟩
      · right
        refine ⟨k + 1, q, by simpa using hk, ?_, h2, lt_trans h3 hlt, ?_⟩
        · rw [h1]; congr 1; omega
        · intro k2 q2 hk2 hq2
          cases k2 with
          | zero =>
            simp at hk2; subst hk2
            exact ⟨le_of_lt h3, fun _ => h3⟩
          | succ k3 =>
            simp at hk2
            obtain ⟨a, b⟩ := h4 k3 q2 hk2 hq2
            exact ⟨a, fun h => b (by omega)⟩
    · rename_i hsel
      have hhead : p.status = pstat_none → min ≤ toU32 p.nummightsee := by
        intro hst
        by_contra hc
        exact hsel ⟨not_le.1 hc, hst⟩
      rcases ih (i + 1) ret min with ⟨h1, h2⟩ | ⟨k, q, hk, h1, h2, h3, h4⟩
      · left
        refine ⟨h1, ?_⟩
        intro q hq hst
        rcases List.mem_cons.1 hq with rfl | hq
        · exact hhead hst
        · exact h2 q hq hst
      · right
        refine ⟨k + 1, q, by simpa using hk, ?_, h2, h3, ?_⟩
        · rw [h1]; congr 1; omega
        · intro k2 q2 hk2 hq2
          cases k2 with
          | zero =>
            simp at hk2; subst hk2
            have := hhead hq2
            exact ⟨by omega, fun _ => by omega⟩
          | succ k3 =>
            simp at hk2
            obtain ⟨a, b⟩ := h4 k3 q2 hk2 hq2
            exact ⟨a, fun h => b (by omega)⟩

/-- The portal `GetNextPortal` returns was unprocessed. -/
theorem GetNextPortal_some (s : State) (p : Nat) (h : (GetNextPortal s).1 = some p) :
    (∃ q, s.portals[p]? = some q ∧ q.status = pstat_none) ∧
    (GetNextPortal s).2 = setStatus s p pstat_working := by
  unfold GetNextPortal at h ⊢
  rcases GetNextPortal_scan_spec s.portals 0 none INT_MAX with ⟨h1, _⟩ | ⟨k, q, hk, h1, h2, _, _⟩
  · rw [h1] at h; simp at h
  · rw [h1] at h ⊢
    simp only [Option.some.injEq] at h
    subst h
    simp only [Nat.zero_add]
    exact ⟨⟨q, hk, h2⟩, trivial⟩

theorem GetNextPortal_none (s : State) (h : (GetNextPortal s).1 = none) :
    (GetNextPortal s).2 = s := by
  unfold GetNextPortal at h ⊢
  split
  · rename_i p hp; rw [hp] at h; simp at h
  · rfl


/-! ## Monotonicity of the scheduler operations -/

theorem leafbits_subset_refl (a : leafbits_t) : leafbits_subset a a := fun _ h => h

theorem Mono_refl (s : State) : Mono s s :=
  ⟨rfl, fun _ q h => ⟨q, h, le_refl _, rfl, leafbits_subset_refl _⟩⟩

theorem Mono_trans {s t u : State} (h1 : Mono s t) (h2 : Mono t u) : Mono s u := by
  obtain ⟨a1, a2⟩ := h1
  obtain ⟨b1, b2⟩ := h2
  refine ⟨b1.trans a1, ?_⟩
  intro r q hq
  obtain ⟨q2, hq2, c1, c2, c3⟩ := a2 r q hq
  obtain ⟨q3, hq3, d1, d2, d3⟩ := b2 r q2 hq2
  exact ⟨q3, hq3, le_trans c1 d1, d2.trans c2, fun i h => c3 i (d3 i h)⟩

theorem Mono_of_Shrink {L : Nat} {s t : State} (h : Shrink L s t) : Mono s t := by
  obtain ⟨_, _, _, a4, a5⟩ := h
  refine ⟨a4, ?_⟩
  intro r q hq
  obtain ⟨q2, hq2, c1, _, _, _, _, c6, _, c8, c9⟩ := a5 r q hq
  refine ⟨q2, hq2, by rw [c1], c6, ?_⟩
  intro i hi
  by_cases hiL : i = L
  · subst hiL; exact c9 hi
  · rw [← c8 i hiL]; exact hi

theorem Mono_setStatus (s : State) (p : Nat) (st : pstatus_t)
    (h : ∀ q, s.portals[p]? = some q → q.status.rank ≤ st.rank) :
    Mono s (setStatus s p st) := by
  refine ⟨(setStatus_frame s p st).2.2.2, ?_⟩
  intro r q hq
  rw [setStatus_getElem?]
  by_cases hr : r = p
  · subst hr
    simp only [if_true, hq, Option.map_some']
    exact ⟨_, rfl, h q hq, rfl, leafbits_subset_refl _⟩
  · simp only [hr, if_false]
    exact ⟨q, hq, le_refl _, rfl, leafbits_subset_refl _⟩

theorem Mono_PortalFlow (flow : State → Nat → leafbits_t) (s : State) (p : Nat) :
    Mono s (PortalFlow flow s p) := by
  refine ⟨PortalFlow_length flow s p, ?_⟩
  intro r q hq
  rw [PortalFlow_getElem?]
  by_cases hr : r = p
  · subst hr
    simp only [if_true, hq, Option.map_some']
    exact ⟨_, rfl, le_refl _, rfl, leafbits_subset_refl _⟩
  · simp only [hr, if_false]
    exact ⟨q, hq, le_refl _, rfl, leafbits_subset_refl _⟩

theorem rank_le_done (st : pstatus_t) : st.rank ≤ pstat_done.rank := by
  cases st <;> decide

theorem Mono_GetNextPortal (s : State) : Mono s (GetNextPortal s).2 := by
  cases h : (GetNextPortal s).1 with
  | none => rw [GetNextPortal_none s h]; exact Mono_refl s
  | some p =>
    obtain ⟨⟨q, hq, hst⟩, h2⟩ := GetNextPortal_some s p h
    rw [h2]
    apply Mono_setStatus
    intro q2 hq2
    rw [hq] at hq2
    cases hq2
    rw [hst]; decide

theorem Mono_PortalCompleted (s : State) (completed : Nat) :
    Mono s (PortalCompleted s completed) :=
  Mono_trans (Mono_setStatus s completed pstat_done (fun q _ => rank_le_done q.status))
    (Mono_of_Shrink (Shrink_PortalCompleted s completed))

theorem Mono_LeafThread (flow : State → Nat → leafbits_t) (s : State) :
    Mono s (LeafThread flow s).2 := by
  unfold LeafThread
  have h := Mono_GetNextPortal s
  rcases hg : GetNextPortal s with ⟨_ | p, s1⟩
  · rw [hg] at h; exact h
  · rw [hg] at h
    exact Mono_trans h (Mono_trans (Mono_PortalFlow flow s1 p) (Mono_PortalCompleted _ p))

theorem Mono_LeafThread_run (flow : State → Nat → leafbits_t) (n : Nat) (s : State) :
    Mono s (LeafThread_run flow n s).2 := by
  induction n generalizing s with
  | zero => exact Mono_refl s
  | succ n ih =>
    unfold LeafThread_run
    have h := Mono_LeafThread flow s
    rcases hg : LeafThread flow s with ⟨_ | p, s1⟩
    · rw [hg] at h; exact Mono_trans h (ih s1)
    · rw [hg] at h; exact Mono_trans h (ih s1)

theorem CalcPortalVis_fast_getElem? (s : State) (r : Nat) :
    (CalcPortalVis_fast s).portals[r]? =
      (s.portals[r]?).map (fun p => { p with visbits := p.mightsee, status := pstat_done }) := by
  simp [CalcPortalVis_fast, List.getElem?_map]

theorem Mono_CalcPortalVis (fast : Bool) (flow : State → Nat → leafbits_t) (s : State) :
    Mono s (CalcPortalVis fast flow s) := by
  unfold CalcPortalVis
  split
  · refine ⟨by simp [CalcPortalVis_fast], ?_⟩
    intro r q hq
    rw [CalcPortalVis_fast_getElem?, hq]
    exact ⟨_, rfl, rank_le_done q.status, rfl, leafbits_subset_refl _⟩
  · exact Mono_LeafThread_run flow _ s

theorem popcount_mono {a b : leafbits_t} (hlen : a.length = b.length) (h : leafbits_subset a b) :
    popcount a ≤ popcount b := by
  unfold popcount
  rw [hlen]
  exact List.countP_mono_left (fun i _ hi => by simpa using h i (by simpa using hi))


/-! ## The invariant `visbits ⊆ mightsee` -/

theorem inv_of_Shrink {L : Nat} {s t : State} (h : Shrink L s t)
    (h1 : visbits_subset_mightsee s) (h2 : unprocessed_visbits_empty s) :
    visbits_subset_mightsee t ∧ unprocessed_visbits_empty t := by
  obtain ⟨_, _, _, a4, a5⟩ := h
  have key : ∀ q2 ∈ t.portals, ∃ q ∈ s.portals, q2.status = q.status ∧ q2.visbits = q.visbits ∧
      (q.status ≠ pstat_none → q2 = q) := by
    intro q2 hq2
    obtain ⟨r, hr⟩ := List.mem_iff_getElem?.1 hq2
    have hlt : r < s.portals.length := a4 ▸ getElem?_lt hr
    obtain ⟨q3, hq3, c1, c2, _, _, _, _, c7, _, _⟩ := a5 r (s.portals[r]) (List.getElem?_eq_getElem hlt)
    rw [hr] at hq3
    cases hq3
    exact ⟨_, List.getElem_mem hlt, c1, c2, c7⟩
  constructor
  · intro q2 hq2 i hi
    obtain ⟨q, hq, c1, c2, c7⟩ := key q2 hq2
    by_cases hst : q.status = pstat_none
    · rw [c2, h2 q hq hst i] at hi
      exact absurd hi (by simp)
    · rw [c7 hst] at hi ⊢
      exact h1 q hq i hi
  · intro q2 hq2 hst i
    obtain ⟨q, hq, c1, c2, _⟩ := key q2 hq2
    rw [c2]
    exact h2 q hq (c1 ▸ hst) i

theorem mem_setStatus {s : State} {p : Nat} {st : pstatus_t} {q2 : visportal_t}
    (h : q2 ∈ (setStatus s p st).portals) :
    q2 ∈ s.portals ∨ ∃ q ∈ s.portals, q2 = { q with status := st } := by
  obtain ⟨r, hr⟩ := List.mem_iff_getElem?.1 h
  rw [setStatus_getElem?] at hr
  by_cases hrp : r = p
  · subst hrp
    simp only [if_true] at hr
    cases hq : s.portals[r]? with
    | none => rw [hq] at hr; simp at hr
    | some q =>
      rw [hq] at hr
      simp only [Option.map_some', Option.some.injEq] at hr
      exact Or.inr ⟨q, List.getElem?_mem hq, hr.symm⟩
  · simp only [hrp, if_false] at hr
    exact Or.inl (List.getElem?_mem hr)

theorem inv_setStatus (s : State) (p : Nat) (st : pstatus_t) (hst : st ≠ pstat_none)
    (h1 : visbits_subset_mightsee s) (h2 : unprocessed_visbits_empty s) :
    visbits_subset_mightsee (setStatus s p st) ∧ unprocessed_visbits_empty (setStatus s p st) := by
  constructor
  · intro q2 hq2
    rcases mem_setStatus hq2 with h | ⟨q, hq, rfl⟩
    · exact h1 q2 h
    · exact h1 q hq
  · intro q2 hq2 hs
    rcases mem_setStatus hq2 with h | ⟨q, hq, rfl⟩
    · exact h2 q2 h hs
    · exact absurd hs hst

theorem inv_GetNextPortal (s : State)
    (h1 : visbits_subset_mightsee s) (h2 : unprocessed_visbits_empty s) :
    visbits_subset_mightsee (GetNextPortal s).2 ∧ unprocessed_visbits_empty (GetNextPortal s).2 := by
  cases h : (GetNextPortal s).1 with
  | none => rw [GetNextPortal_none s h]; exact ⟨h1, h2⟩
  | some p =>
    rw [(GetNextPortal_some s p h).2]
    exact inv_setStatus s p _ (by decide) h1 h2

theorem inv_PortalCompleted (s : State) (completed : Nat)
    (h1 : visbits_subset_mightsee s) (h2 : unprocessed_visbits_empty s) :
    visbits_subset_mightsee (PortalCompleted s completed) ∧
      unprocessed_visbits_empty (PortalCompleted s completed) := by
  obtain ⟨a, b⟩ := inv_setStatus s completed pstat_done (by decide) h1 h2
  exact inv_of_Shrink (Shrink_PortalCompleted s completed) a b

theorem inv_CalcPortalVis_fast (s : State) :
    visbits_subset_mightsee (CalcPortalVis_fast s) ∧
      unprocessed_visbits_empty (CalcPortalVis_fast s) := by
  constructor
  · intro q2 hq2
    simp only [CalcPortalVis_fast, List.mem_map] at hq2
    obtain ⟨q, _, rfl⟩ := hq2
    exact leafbits_subset_refl _
  · intro q2 hq2 hst
    simp only [CalcPortalVis_fast, List.mem_map] at hq2
    obtain ⟨q, _, rfl⟩ := hq2
    simp at hst

/-- C1 (as amended): if the visbits of every portal are among its mightsee and no
unprocessed portal has a bit in visbits, then both hold again after GetNextPortal,
after PortalCompleted (with its UpdateMightsee calls), after a single
UpdateMightsee and after CalcPortalVis in fast mode. -/
theorem C1_visbits_subset_mightsee_preserved (s : State)
    (h1 : visbits_subset_mightsee s) (h2 : unprocessed_visbits_empty s) :
    (visbits_subset_mightsee (GetNextPortal s).2 ∧
      unprocessed_visbits_empty (GetNextPortal s).2) ∧
    (∀ completed, visbits_subset_mightsee (PortalCompleted s completed) ∧
      unprocessed_visbits_empty (PortalCompleted s completed)) ∧
    (∀ source dest, visbits_subset_mightsee (UpdateMightsee s source dest) ∧
      unprocessed_visbits_empty (UpdateMightsee s source dest)) ∧
    (∀ flow, visbits_subset_mightsee (CalcPortalVis true flow s) ∧
      unprocessed_visbits_empty (CalcPortalVis true flow s)) :=
  ⟨inv_GetNextPortal s h1 h2, fun c => inv_PortalCompleted s c h1 h2,
    fun a b => inv_of_Shrink (Shrink_UpdateMightsee s a b) h1 h2,
    fun _ => inv_CalcPortalVis_fast s⟩

/-- C2: across GetNextPortal, PortalCompleted, UpdateMightsee, CalcPortalVis (in
either mode) and any number of units of work, every portal is still there, its
mightsee after the operation is a subset of its mightsee before it, and the
popcount of its mightsee has not grown. -/
theorem C2_mightsee_only_shrinks (s : State) (r : Nat) (q : visportal_t)
    (hq : s.portals[r]? = some q) (t : State)
    (ht : t = (GetNextPortal s).2 ∨ (∃ completed, t = PortalCompleted s completed) ∨
      (∃ source dest, t = UpdateMightsee s source dest) ∨
      (∃ fast flow, t = CalcPortalVis fast flow s) ∨
      (∃ flow n, t = (LeafThread_run flow n s).2)) :
    ∃ q2, t.portals[r]? = some q2 ∧ leafbits_subset q2.mightsee q.mightsee ∧
      popcount q2.mightsee ≤ popcount q.mightsee := by
  have hm : Mono s t := by
    rcases ht with rfl | ⟨c, rfl⟩ | ⟨a, b, rfl⟩ | ⟨fast, flow, rfl⟩ | ⟨flow, n, rfl⟩
    · exact Mono_GetNextPortal s
    · exact Mono_PortalCompleted s c
    · exact Mono_of_Shrink (Shrink_UpdateMightsee s a b)
    · exact Mono_CalcPortalVis fast flow s
    · exact Mono_LeafThread_run flow n s
  obtain ⟨q2, hq2, _, c2, c3⟩ := hm.2 r q hq
  exact ⟨q2, hq2, c3, popcount_mono c2 c3⟩

/-- C7: in fast mode CalcPortalVis leaves every portal with visbits equal to its
mightsee and status done, and changes no mightsee and no mightsee count (nor the
leaves or the update counter). -/
theorem C7_fast_mode (flow : State → Nat → leafbits_t) (s : State) :
    (∀ q2 ∈ (CalcPortalVis true flow s).portals,
      q2.visbits = q2.mightsee ∧ q2.status = pstat_done) ∧
    (CalcPortalVis true flow s).portals.map (fun p => (p.mightsee, p.nummightsee)) =
      s.portals.map (fun p => (p.mightsee, p.nummightsee)) ∧
    (CalcPortalVis true flow s).leafs = s.leafs ∧
    (CalcPortalVis true flow s).c_mightseeupdate = s.c_mightseeupdate := by
  refine ⟨?_, ?_, rfl, rfl⟩
  · intro q2 hq2
    simp only [CalcPortalVis, CalcPortalVis_fast, if_true, List.mem_map] at hq2
    obtain ⟨q, _, rfl⟩ := hq2
    exact ⟨rfl, rfl⟩
  · simp [CalcPortalVis, CalcPortalVis_fast, List.map_map, Function.comp_def]


/-! ## The status of a portal across the units of work -/

theorem statusAt_setStatus (s : State) (p : Nat) (st : pstatus_t) (r : Nat) :
    statusAt (setStatus s p st) r =
      if r = p then (statusAt s p).map (fun _ => st) else statusAt s r := by
  unfold statusAt
  rw [setStatus_getElem?]
  by_cases h : r = p
  · subst h
    cases s.portals[r]? <;> simp
  · simp [h]

theorem statusAt_PortalFlow (flow : State → Nat → leafbits_t) (s : State) (p r : Nat) :
    statusAt (PortalFlow flow s p) r = statusAt s r := by
  unfold statusAt
  rw [PortalFlow_getElem?]
  by_cases h : r = p
  · subst h
    cases s.portals[r]? <;> simp
  · simp [h]

theorem statusAt_of_Shrink {L : Nat} {s t : State} (h : Shrink L s t) (r : Nat) :
    statusAt t r = statusAt s r := by
  obtain ⟨_, _, _, a4, a5⟩ := h
  unfold statusAt
  cases hq : s.portals[r]? with
  | none =>
    have : t.portals[r]? = none := by
      rw [List.getElem?_eq_none_iff] at hq ⊢
      omega
    rw [this]
  | some q =>
    obtain ⟨q2, hq2, c1, _⟩ := a5 r q hq
    rw [hq2]; simp [c1]

theorem statusAt_PortalCompleted (s : State) (p r : Nat) :
    statusAt (PortalCompleted s p) r =
      if r = p then (statusAt s p).map (fun _ => pstat_done) else statusAt s r := by
  rw [statusAt_of_Shrink (Shrink_PortalCompleted s p), statusAt_setStatus]

theorem statusAt_GetNextPortal (s : State) (p : Nat) (h : (GetNextPortal s).1 = some p) :
    statusAt s p = some pstat_none ∧
    ∀ r, statusAt (GetNextPortal s).2 r = if r = p then some pstat_working else statusAt s r := by
  obtain ⟨⟨q, hq, hst⟩, h2⟩ := GetNextPortal_some s p h
  have h0 : statusAt s p = some pstat_none := by simp [statusAt, hq, hst]
  refine ⟨h0, ?_⟩
  intro r
  rw [h2, statusAt_setStatus, h0]
  rfl

theorem LeafThread_none (flow : State → Nat → leafbits_t) (s : State)
    (h : (LeafThread flow s).1 = none) : (LeafThread flow s).2 = s := by
  unfold LeafThread at h ⊢
  rcases hg : GetNextPortal s with ⟨_ | p, s1⟩
  · have := GetNextPortal_none s (by rw [hg])
    rw [hg] at this
    simpa using this
  · rw [hg] at h; simp at h

theorem statusAt_LeafThread (flow : State → Nat → leafbits_t) (s : State) (p : Nat)
    (h : (LeafThread flow s).1 = some p) :
    statusAt s p = some pstat_none ∧
    ∀ r, statusAt (LeafThread flow s).2 r = if r = p then some pstat_done else statusAt s r := by
  unfold LeafThread at h ⊢
  rcases hg : GetNextPortal s with ⟨_ | p2, s1⟩
  · rw [hg] at h; simp at h
  · rw [hg] at h
    simp only [Option.some.injEq] at h
    subst h
    obtain ⟨h0, h1⟩ := statusAt_GetNextPortal s p2 (by rw [hg])
    rw [hg] at h1
    simp only at h1
    refine ⟨h0, ?_⟩
    intro r
    simp only
    rw [statusAt_PortalCompleted, statusAt_PortalFlow, statusAt_PortalFlow, h1 p2, h1 r]
    by_cases hr : r = p2 <;> simp [hr]

theorem LeafThread_run_spec (flow : State → Nat → leafbits_t) (n : Nat) (s : State) :
    (LeafThread_run flow n s).1.Nodup ∧
    (∀ p ∈ (LeafThread_run flow n s).1, statusAt s p = some pstat_none ∧
      statusAt (LeafThread_run flow n s).2 p = some pstat_done) ∧
    (∀ r, r ∉ (LeafThread_run flow n s).1 →
      statusAt (LeafThread_run flow n s).2 r = statusAt s r) := by
  induction n generalizing s with
  | zero => simp [LeafThread_run]
  | succ n ih =>
    unfold LeafThread_run
    rcases hg : LeafThread flow s with ⟨_ | p, s1⟩
    · have e : s1 = s := by
        have := LeafThread_none flow s (by rw [hg])
        rw [hg] at this; exact this
      subst e
      exact ih s1
    · obtain ⟨h0, h1⟩ := statusAt_LeafThread flow s p (by rw [hg])
      rw [hg] at h1
      simp only at h1
      obtain ⟨i1, i2, i3⟩ := ih s1
      have hp : p ∉ (LeafThread_run flow n s1).1 := by
        intro hmem
        have := (i2 p hmem).1
        rw [h1 p] at this
        simp at this
      refine ⟨List.nodup_cons.2 ⟨hp, i1⟩, ?_, ?_⟩
      · intro r hr
        rcases List.mem_cons.1 hr with rfl | hr
        · refine ⟨h0, ?_⟩
          rw [i3 r hp, h1 r]; simp
        · have hne : r ≠ p := fun e => hp (e ▸ hr)
          obtain ⟨j1, j2⟩ := i2 r hr
          rw [h1 r] at j1
          simp only [hne, if_false] at j1
          exact ⟨j1, j2⟩
      · intro r hr
        simp only [List.mem_cons, not_or] at hr
        rw [i3 r hr.2, h1 r]
        simp [hr.1]

/-- C3: GetNextPortal returns only a portal that was unprocessed and marks it in
progress (changing no other status); PortalCompleted marks its portal done
(changing no other status); over any number of units of work no status moves
backwards, no portal is selected twice, and every selected portal was
unprocessed before the units and is done after them. -/
theorem C3_status_transitions (flow : State → Nat → leafbits_t) :
    (∀ s p, (GetNextPortal s).1 = some p →
      statusAt s p = some pstat_none ∧ statusAt (GetNextPortal s).2 p = some pstat_working ∧
      ∀ r, r ≠ p → statusAt (GetNextPortal s).2 r = statusAt s r) ∧
    (∀ s p, p < s.portals.length →
      statusAt (PortalCompleted s p) p = some pstat_done ∧
      ∀ r, r ≠ p → statusAt (PortalCompleted s p) r = statusAt s r) ∧
    (∀ n s r st, statusAt s r = some st →
      ∃ st2, statusAt (LeafThread_run flow n s).2 r = some st2 ∧ st.rank ≤ st2.rank) ∧
    (∀ n s, (LeafThread_run flow n s).1.Nodup ∧
      ∀ p ∈ (LeafThread_run flow n s).1, statusAt s p = some pstat_none ∧
        statusAt (LeafThread_run flow n s).2 p = some pstat_done) := by
  refine ⟨?_, ?_, ?_, ?_⟩
  · intro s p h
    obtain ⟨h0, h1⟩ := statusAt_GetNextPortal s p h
    refine ⟨h0, by rw [h1 p]; simp, ?_⟩
    intro r hr
    rw [h1 r]; simp [hr]
  · intro s p hp
    constructor
    · rw [statusAt_PortalCompleted]
      simp [statusAt, List.getElem?_eq_getElem hp]
    · intro r hr
      rw [statusAt_PortalCompleted]; simp [hr]
  · intro n s r st h
    obtain ⟨_, hm⟩ := Mono_LeafThread_run flow n s
    unfold statusAt at h ⊢
    cases hq : s.portals[r]? with
    | none => rw [hq] at h; simp at h
    | some q =>
      rw [hq] at h
      simp only [Option.map_some', Option.some.injEq] at h
      obtain ⟨q2, hq2, c1, _⟩ := hm r q hq
      rw [hq2]
      exact ⟨q2.status, rfl, h ▸ c1⟩
  · intro n s
    obtain ⟨a, b, _⟩ := LeafThread_run_spec flow n s
    exact ⟨a, b⟩

theorem toU32_of_range (x : Int) (h0 : 0 ≤ x) (h1 : x < 2147483647) :
    (toU32 x : Int) = x := by
  unfold toU32
  omega

/-- C4: when the count of every unprocessed portal is a count of bits below
INT_MAX, GetNextPortal returns, whenever some portal is unprocessed, an
unprocessed portal whose count is the least among the unprocessed portals, the
lowest-indexed one with that count; and it returns no portal exactly when no
portal is unprocessed. -/
theorem C4_selection_policy (s : State)
    (hrange : ∀ q ∈ s.portals, q.status = pstat_none →
      0 ≤ q.nummightsee ∧ q.nummightsee < (INT_MAX : Int)) :
    ((∃ q ∈ s.portals, q.status = pstat_none) →
      ∃ p q, (GetNextPortal s).1 = some p ∧ s.portals[p]? = some q ∧ q.status = pstat_none ∧
        ∀ p2 q2, s.portals[p2]? = some q2 → q2.status = pstat_none →
          q.nummightsee ≤ q2.nummightsee ∧ (q2.nummightsee = q.nummightsee → p ≤ p2)) ∧
    ((GetNextPortal s).1 = none ↔ ∀ q ∈ s.portals, q.status ≠ pstat_none) := by
  have hu : ∀ q ∈ s.portals, q.status = pstat_none →
      (toU32 q.nummightsee : Int) = q.nummightsee ∧ toU32 q.nummightsee < INT_MAX := by
    intro q hq hst
    obtain ⟨a, b⟩ := hrange q hq hst
    have b2 : q.nummightsee < 2147483647 := by simpa [INT_MAX] using b
    have e : (toU32 q.nummightsee : Int) = q.nummightsee := toU32_of_range _ a b2
    refine ⟨e, ?_⟩
    have : (toU32 q.nummightsee : Int) < 2147483647 := by rw [e]; exact b2
    unfold INT_MAX
    omega
  have hsel : (GetNextPortal s).1 = GetNextPortal_scan s.portals 0 none INT_MAX := by
    unfold GetNextPortal
    split <;> simp [*]
  rcases GetNextPortal_scan_spec s.portals 0 none INT_MAX with
    ⟨h1, h2⟩ | ⟨k, q, hk, h1, h2, h3, h4⟩
  · have hnone : ∀ q ∈ s.portals, q.status ≠ pstat_none := by
      intro q hq hst
      have := h2 q hq hst
      have := (hu q hq hst).2
      omega
    refine ⟨?_, ?_⟩
    · rintro ⟨q, hq, hst⟩
      exact absurd hst (hnone q hq)
    · rw [hsel, h1]
      exact ⟨fun _ => hnone, fun _ => rfl⟩
  · rw [Nat.zero_add] at h1
    refine ⟨?_, ?_⟩
    · intro _
      refine ⟨k, q, by rw [hsel, h1], hk, h2, ?_⟩
      intro p2 q2 hp2 hq2
      obtain ⟨a, b⟩ := h4 p2 q2 hp2 hq2
      have e1 := (hu q (List.getElem?_mem hk) h2).1
      have e2 := (hu q2 (List.getElem?_mem hp2) hq2).1
      constructor
      · rw [← e1, ← e2]; exact_mod_cast a
      · intro heq
        by_contra hc
        have := b (not_le.1 hc)
        have : (toU32 q.nummightsee : Int) < (toU32 q2.nummightsee : Int) := by exact_mod_cast this
        rw [e1, e2, heq] at this
        exact lt_irrefl _ this
    · rw [hsel, h1]
      constructor
      · intro h; simp at h
      · intro h
        exact absurd h2 (h q (List.getElem?_mem hk))


/-! ## Soundness of the elimination step -/

theorem Shrink_rev {L : Nat} {s t : State} (h : Shrink L s t) {r : Nat} {q2 : visportal_t}
    (hq2 : t.portals[r]? = some q2) :
    ∃ q, s.portals[r]? = some q ∧ q2.status = q.status ∧ q2.visbits = q.visbits ∧
      (q.status ≠ pstat_none → q2 = q) ∧
      (∀ k, k ≠ L → testLeafBit q2.mightsee k = testLeafBit q.mightsee k) ∧
      (testLeafBit q2.mightsee L = true → testLeafBit q.mightsee L = true) := by
  obtain ⟨_, _, _, a4, a5⟩ := h
  have hlt : r < s.portals.length := a4 ▸ getElem?_lt hq2
  obtain ⟨q3, hq3, c1, c2, _, _, _, _, c7, c8, c9⟩ :=
    a5 r (s.portals[r]) (List.getElem?_eq_getElem hlt)
  rw [hq2] at hq3
  cases hq3
  exact ⟨_, List.getElem?_eq_getElem hlt, c1, c2, c7, c8, c9⟩

theorem leafAt_of_Shrink {L : Nat} {s t : State} (h : Shrink L s t) (X : Nat) :
    leafAt t X = leafAt s X := by
  unfold leafAt; rw [h.1]

theorem Touched_refl (X L : Nat) (s : State) : Touched X L s s :=
  ⟨Shrink_refl L s, fun r q q2 h1 h2 h3 => by rw [h1] at h2; cases h2; exact absurd rfl h3⟩

theorem onLeaf_of_leafs {s t : State} (h : t.leafs = s.leafs) (X r : Nat) :
    onLeaf t X r ↔ onLeaf s X r := by
  unfold onLeaf leafAt; rw [h]

theorem Touched_trans {X L : Nat} {s t u : State} (h1 : Touched X L s t) (h2 : Touched X L t u) :
    Touched X L s u := by
  refine ⟨Shrink_trans h1.1 h2.1, ?_⟩
  intro r q q3 hq hq3 hne
  obtain ⟨q2, hq2, c⟩ := h1.1.2.2.2.2 r q hq
  by_cases e : q2 = q
  · subst e
    obtain ⟨a, b, c⟩ := h2.2 r q2 q3 hq2 hq3 hne
    exact ⟨(onLeaf_of_leafs h1.1.1 X r).1 a, b, c⟩
  · exact h1.2 r q q2 hq hq2 e

theorem Touched_UpdateMightsee_portal (X L : Nat) (s : State) (p : Nat) (hp : onLeaf s X p) :
    Touched X L s (UpdateMightsee_portal L s p) := by
  refine ⟨Shrink_UpdateMightsee_portal L s p, ?_⟩
  intro r q q2 hq hq2 hne
  unfold UpdateMightsee_portal at hq2
  split at hq2
  · rw [hq] at hq2; cases hq2; exact absurd rfl hne
  · rename_i q0 hq0
    split at hq2
    · rw [hq] at hq2; cases hq2; exact absurd rfl hne
    · rename_i hst
      split at hq2
      · rename_i hbit
        simp only [List.getElem?_set] at hq2
        by_cases hpr : p = r
        · subst hpr
          rw [hq0] at hq; cases hq
          exact ⟨hp, not_not.1 hst, hbit⟩
        · simp only [hpr, if_false] at hq2
          rw [hq] at hq2; cases hq2; exact absurd rfl hne
      · rw [hq] at hq2; cases hq2; exact absurd rfl hne

theorem foldl_rel_mem {σ α : Type} (R : σ → σ → Prop) (hrefl : ∀ s, R s s)
    (htrans : ∀ a b c, R a b → R b c → R a c) (f : σ → α → σ) (l : List α)
    (hf : ∀ s, ∀ x ∈ l, R s (f s x)) (s : σ) : R s (l.foldl f s) := by
  induction l generalizing s with
  | nil => exact hrefl s
  | cons x xs ih =>
    exact htrans _ _ _ (hf s x (List.mem_cons_self _ _))
      (ih (fun s y hy => hf s y (List.mem_cons_of_mem _ hy)) (f s x))

theorem Touched_UpdateMightsee_aux (X L : Nat) (src : leaf_t) (l : List Nat)
    (hl : ∀ i ∈ l, i < src.numportals) (s0 : State) (hsrc : leafAt s0 X = src) (s : State)
    (hs : s.leafs = s0.leafs) :
    Touched X L s (l.foldl (fun st i =>
      match src.portals[i]? with
      | some p => UpdateMightsee_portal L st p
      | none => st) s) := by
  induction l generalizing s with
  | nil => exact Touched_refl X L s
  | cons i is ih =>
    simp only [List.foldl_cons]
    have hstep : Touched X L s (match src.portals[i]? with
        | some p => UpdateMightsee_portal L s p
        | none => s) := by
      cases hpi : src.portals[i]? with
      | none => exact Touched_refl X L s
      | some p =>
        apply Touched_UpdateMightsee_portal
        refine ⟨i, ?_, ?_⟩
        · have : leafAt s X = src := by unfold leafAt at hsrc ⊢; rw [hs]; exact hsrc
          rw [this]; exact hl i (List.mem_cons_self _ _)
        · have : leafAt s X = src := by unfold leafAt at hsrc ⊢; rw [hs]; exact hsrc
          rw [this]; exact hpi
    exact Touched_trans hstep
      (ih (fun j hj => hl j (List.mem_cons_of_mem _ hj)) _ (hstep.1.1.trans hs))

theorem Touched_UpdateMightsee (s : State) (X L : Nat) :
    Touched X L s (UpdateMightsee s X L) := by
  unfold UpdateMightsee
  exact Touched_UpdateMightsee_aux X L (leafAt s X) _ (fun i hi => List.mem_range.1 hi) s rfl s rfl

theorem nobody_sees_of_Shrink {L : Nat} {s t : State} (h : Shrink L s t) {X : Nat}
    (hns : nobody_sees s L X) : nobody_sees t L X := by
  obtain ⟨n1, k, p, q, hk, hp, hq, hst, hm, hv⟩ := hns
  constructor
  · intro k2 p2 q2 hk2 hp2 hq2
    rw [leafAt_of_Shrink h] at hk2 hp2
    obtain ⟨q0, hq0, c1, c2, c7, c8, c9⟩ := Shrink_rev h hq2
    obtain ⟨a, b⟩ := n1 k2 p2 q0 hk2 hp2 hq0
    constructor
    · intro hd; rw [c2]; exact a (c1 ▸ hd)
    · intro hd
      have hb := b (c1 ▸ hd)
      by_cases hX : X = L
      · subst hX
        by_contra hc
        rw [c9 (by simpa using hc)] at hb
        exact absurd hb (by simp)
      · rw [c8 X hX]; exact hb
  · obtain ⟨q2, hq2, _, _, _, _, _, _, c7, _, _⟩ := h.2.2.2.2 p q hq
    have e : q2 = q := c7 (by rw [hst]; decide)
    subst e
    exact ⟨k, p, q2, by rw [leafAt_of_Shrink h]; exact hk, by rw [leafAt_of_Shrink h]; exact hp,
      hq2, hst, hm, hv⟩

theorem nobody_sees_back {L : Nat} {s t : State} (h : Shrink L s t) {X : Nat} (hX : X ≠ L)
    (hns : nobody_sees t L X) : nobody_sees s L X := by
  obtain ⟨n1, k, p, q2, hk, hp, hq2, hst, hm, hv⟩ := hns
  rw [leafAt_of_Shrink h] at hk hp
  constructor
  · intro k2 p2 q hk2 hp2 hq
    obtain ⟨q3, hq3, c1, c2, _, _, _, _, _, c8, _⟩ := h.2.2.2.2 p2 q hq
    obtain ⟨a, b⟩ := n1 k2 p2 q3 (by rw [leafAt_of_Shrink h]; exact hk2)
      (by rw [leafAt_of_Shrink h]; exact hp2) hq3
    constructor
    · intro hd; rw [← c2]; exact a (c1.symm ▸ hd)
    · intro hd; rw [← c8 X hX]; exact b (c1.symm ▸ hd)
  · obtain ⟨q, hq, c1, c2, c7, c8, _⟩ := Shrink_rev h hq2
    exact ⟨k, p, q, hk, hp, hq, c1 ▸ hst, by rw [← c8 X hX]; exact hm, by rw [← c2]; exact hv⟩

theorem Eliminated_refl (L : Nat) (s : State) : Eliminated L s s :=
  ⟨Shrink_refl L s, fun r q q2 h1 h2 h3 => by rw [h1] at h2; cases h2; exact absurd rfl h3⟩

/-- One call `UpdateMightsee(leafs[X], myleaf)` made for a leaf `X` that no portal of
the examined leaf sees keeps the invariant. -/
theorem Eliminated_UpdateMightsee {L : Nat} {s1 t : State} (hJ : Eliminated L s1 t) {X : Nat}
    (hns : nobody_sees t L X) : Eliminated L s1 (UpdateMightsee t X L) := by
  have hT := Touched_UpdateMightsee t X L
  refine ⟨Shrink_trans hJ.1 hT.1, ?_⟩
  intro r q q3 hq hq3 hne
  obtain ⟨q2, hq2, c1, _⟩ := hJ.1.2.2.2.2 r q hq
  by_cases e : q2 = q
  · subst e
    obtain ⟨hon, hst, hbit⟩ := hT.2 r q2 q3 hq2 hq3 hne
    have hon1 : onLeaf s1 X r := (onLeaf_of_leafs hJ.1.1 X r).1 hon
    refine ⟨hst, X, hon1, ?_⟩
    by_cases hX : X = L
    · subst hX
      obtain ⟨k, hk, hp⟩ := hon
      have := (hns.1 k r q2 hk hp hq2).2 (by rw [hst]; decide)
      rw [this] at hbit
      exact absurd hbit (by simp)
    · exact nobody_sees_back hJ.1 hX hns
  · exact hJ.2 r q q2 hq hq2 e

theorem ffsl_testBit (x : Nat) (hx : x ≠ 0) (hlt : ∀ b, x.testBit b = true → b < 32) :
    x.testBit (ffsl x - 1) = true := by
  unfold ffsl
  cases hf : (List.range 64).find? (fun i => x.testBit i) with
  | none =>
    exfalso
    obtain ⟨b, hb⟩ := Nat.ne_zero_implies_bit_true hx
    have := List.find?_eq_none.1 hf b (List.mem_range.2 (lt_trans (hlt b hb) (by norm_num)))
    exact this hb
  | some i =>
    have := List.find?_some hf
    simpa using this

theorem testLeafBit_block (bits : leafbits_t) (j b : Nat) (hb : b < 32) :
    testLeafBit bits ((j <<< leafbits_shift) + b) = (getBlock bits j).testBit b := by
  rw [testLeafBit_eq]
  have e : j <<< leafbits_shift = j * 32 := by simp [leafbits_shift, Nat.shiftLeft_eq]
  rw [e]
  have h1 : (j * 32 + b) / 32 = j := by omega
  have h2 : (j * 32 + b) % 32 = b := by omega
  rw [h1, h2]

theorem Eliminated_PortalCompleted_update (L j : Nat) (s1 : State) (fuel : Nat) :
    ∀ (changed : Nat) (t : State), Eliminated L s1 t →
      (∀ b, changed.testBit b = true → b < 32) →
      (∀ b, changed.testBit b = true → nobody_sees t L ((j <<< leafbits_shift) + b)) →
      Eliminated L s1 (PortalCompleted_update L j fuel changed t) := by
  induction fuel with
  | zero => intro changed t hJ _ _; exact hJ
  | succ n ih =>
    intro changed t hJ hlt hns
    unfold PortalCompleted_update
    split
    · exact hJ
    · rename_i hne
      have hbit := ffsl_testBit changed hne hlt
      apply ih
      · exact Eliminated_UpdateMightsee hJ (hns _ hbit)
      · intro b hb
        rw [Nat.testBit_and] at hb
        exact hlt b (by simp at hb; exact hb.1)
      · intro b hb
        rw [Nat.testBit_and] at hb
        exact nobody_sees_of_Shrink (Shrink_UpdateMightsee t _ L)
          (hns b (by simp at hb; exact hb.1))

theorem PortalCompleted_others_spec (s : State) (myleaf : leaf_t) (i j : Nat) (ks : List Nat) :
    ∀ (changed b : Nat),
      (PortalCompleted_others s myleaf i j ks changed).testBit b = true →
      changed.testBit b = true ∧
      ∀ k ∈ ks, k ≠ i → ∀ (p2 : Nat) (q2 : visportal_t), myleaf.portals[k]? = some p2 →
        s.portals[p2]? = some q2 →
        (q2.status = pstat_done → (getBlock q2.visbits j).testBit b = false) ∧
        (q2.status ≠ pstat_done → (getBlock q2.mightsee j).testBit b = false) := by
  induction ks with
  | nil => intro changed b h; exact ⟨h, by simp⟩
  | cons k ks ih =>
    intro changed b h
    unfold PortalCompleted_others at h
    split at h
    · rename_i hki
      obtain ⟨a, c⟩ := ih changed b h
      refine ⟨a, ?_⟩
      intro k2 hk2 hne
      rcases List.mem_cons.1 hk2 with rfl | hk2
      · exact absurd hki hne
      · exact c k2 hk2 hne
    · rename_i hki
      simp only at h
      split at h
      · rename_i hz
        rw [hz] at h; simp at h
      · obtain ⟨a, c⟩ := ih _ b h
        cases hp : myleaf.portals[k]? with
        | none =>
          rw [hp] at a
          refine ⟨a, ?_⟩
          intro k2 hk2 hne p2 q2 hp2 hq2
          rcases List.mem_cons.1 hk2 with rfl | hk2
          · rw [hp] at hp2; cases hp2
          · exact c k2 hk2 hne p2 q2 hp2 hq2
        | some p =>
          rw [hp] at a
          simp only at a
          cases hq : s.portals[p]? with
          | none =>
            rw [hq] at a
            refine ⟨a, ?_⟩
            intro k2 hk2 hne p2 q2 hp2 hq2
            rcases List.mem_cons.1 hk2 with rfl | hk2
            · rw [hp] at hp2; cases hp2; rw [hq] at hq2; cases hq2
            · exact c k2 hk2 hne p2 q2 hp2 hq2
          | some q =>
            rw [hq] at a
            simp only at a
            by_cases hd : q.status = pstat_done
            · rw [if_pos hd, Nat.testBit_and, testBit_not32] at a
              simp only [Bool.and_eq_true, decide_eq_true_eq, Bool.not_eq_true'] at a
              refine ⟨a.1, ?_⟩
              intro k2 hk2 hne p2 q2 hp2 hq2
              rcases List.mem_cons.1 hk2 with rfl | hk2
              · rw [hp] at hp2; cases hp2; rw [hq] at hq2; cases hq2
                exact ⟨fun _ => a.2.2, fun h => absurd hd h⟩
              · exact c k2 hk2 hne p2 q2 hp2 hq2
            · rw [if_neg hd, Nat.testBit_and, testBit_not32] at a
              simp only [Bool.and_eq_true, decide_eq_true_eq, Bool.not_eq_true'] at a
              refine ⟨a.1, ?_⟩
              intro k2 hk2 hne p2 q2 hp2 hq2
              rcases List.mem_cons.1 hk2 with rfl | hk2
              · rw [hp] at hp2; cases hp2; rw [hq] at hq2; cases hq2
                exact ⟨fun h => absurd h hd, fun _ => a.2.2⟩
              · exact c k2 hk2 hne p2 q2 hp2 hq2


theorem foldl_inv {σ α : Type} (P : σ → Prop) (f : σ → α → σ) (l : List α)
    (hf : ∀ s, ∀ x ∈ l, P s → P (f s x)) (s : σ) (h : P s) : P (l.foldl f s) := by
  induction l generalizing s with
  | nil => exact h
  | cons x xs ih =>
    exact ih (fun s y hy => hf s y (List.mem_cons_of_mem _ hy)) (f s x)
      (hf s x (List.mem_cons_self _ _) h)

theorem Eliminated_PortalCompleted_block (L : Nat) (s1 : State) (i p : Nat)
    (hi : i < (leafAt s1 L).numportals) (hp : (leafAt s1 L).portals[i]? = some p)
    (t : State) (hJ : Eliminated L s1 t) (hdone : ∀ q, t.portals[p]? = some q → q.status = pstat_done)
    (j : Nat) :
    Eliminated L s1 (PortalCompleted_block (leafAt s1 L) L i p t j) := by
  unfold PortalCompleted_block
  cases hq : t.portals[p]? with
  | none => exact hJ
  | some q =>
    simp only
    split
    · exact hJ
    · have hleaf : leafAt t L = leafAt s1 L := leafAt_of_Shrink hJ.1 L
      apply Eliminated_PortalCompleted_update L j s1 32 _ t hJ
      · intro b hb
        obtain ⟨a, _⟩ := PortalCompleted_others_spec t (leafAt s1 L) i j _ _ b hb
        rw [Nat.testBit_and, testBit_not32] at a
        simp only [Bool.and_eq_true, decide_eq_true_eq] at a
        exact a.2.1
      · intro b hb
        obtain ⟨a, c⟩ := PortalCompleted_others_spec t (leafAt s1 L) i j _ _ b hb
        rw [Nat.testBit_and, testBit_not32] at a
        simp only [Bool.and_eq_true, decide_eq_true_eq, Bool.not_eq_true'] at a
        obtain ⟨hm, hb32, hv⟩ := a
        constructor
        · intro k p2 q2 hk hp2 hq2
          rw [hleaf] at hk hp2
          rw [testLeafBit_block _ _ _ hb32, testLeafBit_block _ _ _ hb32]
          by_cases hki : k = i
          · subst hki
            rw [hp] at hp2; cases hp2
            rw [hq] at hq2; cases hq2
            exact ⟨fun _ => hv, fun h => absurd (hdone q hq) h⟩
          · exact c k (List.mem_range.2 hk) hki p2 q2 hp2 hq2
        · refine ⟨i, p, q, by rw [hleaf]; exact hi, by rw [hleaf]; exact hp, hq, hdone q hq, ?_, ?_⟩
          · rw [testLeafBit_block _ _ _ hb32]; exact hm
          · rw [testLeafBit_block _ _ _ hb32]; exact hv

theorem Eliminated_PortalCompleted_portal (L : Nat) (s1 : State) (t : State)
    (hJ : Eliminated L s1 t) (i : Nat) (hi : i < (leafAt s1 L).numportals) :
    Eliminated L s1 (PortalCompleted_portal (leafAt s1 L) L t i) := by
  unfold PortalCompleted_portal
  cases hp : (leafAt s1 L).portals[i]? with
  | none => exact hJ
  | some p =>
    simp only
    cases hq : t.portals[p]? with
    | none => exact hJ
    | some q =>
      simp only
      split
      · exact hJ
      · rename_i hst
        have hd : q.status = pstat_done := not_not.1 hst
        apply foldl_inv (fun u => Eliminated L s1 u ∧ Shrink L t u)
          (PortalCompleted_block (leafAt s1 L) L i p) _ _ t ⟨hJ, Shrink_refl L t⟩ |>.1
        intro u j _ hu
        refine ⟨Eliminated_PortalCompleted_block L s1 i p hi hp u hu.1 ?_ j,
          Shrink_trans hu.2 (Shrink_PortalCompleted_block _ L i p u j)⟩
        intro q2 hq2
        obtain ⟨q0, hq0, c1, _⟩ := Shrink_rev hu.2 hq2
        rw [hq] at hq0; cases hq0
        rw [c1]; exact hd

theorem Eliminated_PortalCompleted (s : State) (completed : Nat) :
    Eliminated (PortalCompleted_leafnum (setStatus s completed pstat_done) completed)
      (setStatus s completed pstat_done) (PortalCompleted s completed) := by
  unfold PortalCompleted
  apply foldl_inv (Eliminated _ (setStatus s completed pstat_done)) _ _ _ _ (Eliminated_refl _ _)
  intro t i hi hJ
  exact Eliminated_PortalCompleted_portal _ _ t hJ i (List.mem_range.1 hi)

theorem PortalCompleted_leafnum_setStatus (s : State) (completed : Nat) (st : pstatus_t) :
    PortalCompleted_leafnum (setStatus s completed st) completed =
      PortalCompleted_leafnum s completed := by
  unfold PortalCompleted_leafnum
  rw [setStatus_getElem?]
  cases s.portals[completed]? <;> simp

/-- C5: when PortalCompleted, examining leaf L (the leaf of the completed portal),
clears a bit from the mightsee of a portal, the bit is L, the portal was
unprocessed, and the portal is on a leaf X such that, in the state right after the
completed portal was marked done, every done portal of L has bit X clear in
visbits, every not-done portal of L has bit X clear in mightsee, and some done
portal of L has X in mightsee but not in visbits. -/
theorem C5_elimination_sound (s : State) (completed r b : Nat) (q q2 : visportal_t)
    (hq : s.portals[r]? = some q) (hq2 : (PortalCompleted s completed).portals[r]? = some q2)
    (hset : testLeafBit q.mightsee b = true) (hclear : testLeafBit q2.mightsee b = false) :
    b = PortalCompleted_leafnum s completed ∧ q.status = pstat_none ∧
    ∃ X, onLeaf s X r ∧
      nobody_sees (setStatus s completed pstat_done) (PortalCompleted_leafnum s completed) X := by
  have hJ := Eliminated_PortalCompleted s completed
  rw [PortalCompleted_leafnum_setStatus] at hJ
  have hq1 : ∃ q1, (setStatus s completed pstat_done).portals[r]? = some q1 ∧
      q1.mightsee = q.mightsee ∧ (q1.status = pstat_none → q.status = pstat_none) := by
    rw [setStatus_getElem?]
    by_cases hr : r = completed
    · subst hr
      simp only [if_true, hq, Option.map_some']
      exact ⟨_, rfl, rfl, fun h => by simp at h⟩
    · simp only [hr, if_false]
      exact ⟨q, hq, rfl, id⟩
  obtain ⟨q1, hq1, hm, hst⟩ := hq1
  have hne : q2 ≠ q1 := by
    intro e
    rw [e, hm, hset] at hclear
    exact absurd hclear (by simp)
  obtain ⟨h1, X, hon, hns⟩ := hJ.2 r q1 q2 hq1 hq2 hne
  refine ⟨?_, hst h1, X, (onLeaf_of_leafs (setStatus_frame s completed pstat_done).1 X r).1 hon, hns⟩
  by_contra hb
  obtain ⟨q3, hq3, _, _, _, _, _, _, _, c8, _⟩ := hJ.1.2.2.2.2 r q1 hq1
  rw [hq2] at hq3; cases hq3
  rw [c8 b hb, hm, hset] at hclear
  exact absurd hclear (by simp)


/-! ## The fuel of the `while (changed)` loop -/

theorem find?_range'_spec (p : Nat → Bool) (n : Nat) :
    ∀ (start i : Nat), (List.range' start n).find? p = some i →
      p i = true ∧ ∀ j, start ≤ j → j < i → p j = false := by
  induction n with
  | zero => intro start i h; simp at h
  | succ n ih =>
    intro start i h
    rw [List.range'_succ, List.find?_cons] at h
    cases hp : p start with
    | true =>
      rw [hp] at h
      simp only [Option.some.injEq] at h
      subst h
      exact ⟨hp, fun j h1 h2 => by omega⟩
    | false =>
      rw [hp] at h
      obtain ⟨a, b⟩ := ih (start + 1) i h
      refine ⟨a, ?_⟩
      intro j h1 h2
      by_cases e : j = start
      · subst e; exact hp
      · exact b j (by omega) h2

theorem ffsl_lowest (x : Nat) (b : Nat) (hb : x.testBit b = true) : ffsl x - 1 ≤ b := by
  unfold ffsl
  cases hf : (List.range 64).find? (fun i => x.testBit i) with
  | none => simp
  | some i =>
    simp only [Nat.add_sub_cancel]
    rw [List.range_eq_range'] at hf
    obtain ⟨_, h2⟩ := find?_range'_spec (fun i => x.testBit i) 64 0 i hf
    by_contra hc
    have := h2 b (Nat.zero_le _) (by omega)
    simp only at this
    rw [hb] at this
    exact absurd this (by simp)

theorem PortalCompleted_update_fuel_aux (L j : Nat) (n : Nat) :
    ∀ (changed : Nat) (s : State),
      (∀ b, changed.testBit b = true → 32 - n ≤ b ∧ b < 32) →
      ∀ f1 f2, n ≤ f1 → n ≤ f2 →
        PortalCompleted_update L j f1 changed s = PortalCompleted_update L j f2 changed s := by
  induction n with
  | zero =>
    intro changed s hbits f1 f2 _ _
    have hz : changed = 0 := by
      apply Nat.eq_of_testBit_eq
      intro i
      rw [Nat.zero_testBit]
      by_contra hc
      have := hbits i (by simpa using hc)
      omega
    subst hz
    cases f1 <;> cases f2 <;> simp [PortalCompleted_update]
  | succ n ih =>
    intro changed s hbits f1 f2 h1 h2
    obtain ⟨g1, rfl⟩ : ∃ g, f1 = g + 1 := ⟨f1 - 1, by omega⟩
    obtain ⟨g2, rfl⟩ : ∃ g, f2 = g + 1 := ⟨f2 - 1, by omega⟩
    unfold PortalCompleted_update
    by_cases hz : changed = 0
    · simp [hz]
    · rw [if_neg hz, if_neg hz]
      apply ih _ _ _ g1 g2 (by omega) (by omega)
      intro b hb
      rw [Nat.testBit_and, testBit_not32, testBit_nth_bit] at hb
      simp only [Bool.and_eq_true, decide_eq_true_eq, Bool.not_eq_true', decide_eq_false_iff_not]
        at hb
      obtain ⟨hb1, hb2, hb3⟩ := hb
      have hlow := ffsl_lowest changed b hb1
      have hbit := ffsl_testBit changed hz (fun b hb => (hbits b hb).2)
      have := hbits _ hbit
      omega

/-- The `while (changed)` loop ends within 32 iterations on a `uint32_t`: more
fuel than 32 does not change its result. -/
theorem PortalCompleted_update_fuel (L j changed : Nat) (s : State) (h : changed < 2 ^ 32)
    (fuel : Nat) (hf : 32 ≤ fuel) :
    PortalCompleted_update L j fuel changed s = PortalCompleted_update L j 32 changed s := by
  apply PortalCompleted_update_fuel_aux L j 32 changed s _ fuel 32 hf (le_refl _)
  intro b hb
  refine ⟨by omega, ?_⟩
  by_contra hc
  have hlt : changed < 2 ^ b := lt_of_lt_of_le h (Nat.pow_le_pow_right (by norm_num) (by omega))
  rw [Nat.testBit_lt_two_pow hlt] at hb
  exact absurd hb (by simp)


/-- The value of `changed` that `PortalCompleted` hands to the `while` loop is a
`uint32_t`. -/
theorem PortalCompleted_changed_lt (s : State) (myleaf : leaf_t) (i j : Nat) (ks : List Nat)
    (m v : Nat) : PortalCompleted_others s myleaf i j ks (m &&& not32 v) < 2 ^ 32 := by
  apply Nat.lt_pow_two_of_testBit
  intro b hb
  by_contra hc
  obtain ⟨a, _⟩ := PortalCompleted_others_spec s myleaf i j ks _ b (by simpa using hc)
  rw [Nat.testBit_and, testBit_not32] at a
  simp only [Bool.and_eq_true, decide_eq_true_eq] at a
  omega

/-! ## The leaf that PortalCompleted examines, on the graph built by LoadPortals -/

theorem leafAt_eq {s : State} {X : Nat} {l : leaf_t} (h : s.leafs[X]? = some l) :
    leafAt s X = l := by
  simp [leafAt, List.getD_eq_getElem?_getD, h]

theorem leafAt_set (s : State) (X Y : Nat) (l2 : leaf_t) :
    leafAt { s with leafs := s.leafs.set X l2 } Y =
      if X = Y ∧ X < s.leafs.length then l2 else leafAt s Y := by
  simp only [leafAt, List.getD_eq_getElem?_getD, List.getElem?_set]
  by_cases h : X = Y
  · subst h
    by_cases h2 : X < s.leafs.length
    · simp [h2]
    · simp [h2, List.getElem?_eq_none (not_lt.1 h2)]
  · simp [h]

theorem LoadPortals_register_spec (cap : Nat) (s s2 : State) (X p : Nat)
    (h : LoadPortals_register cap s X p = .ok s2) (hwf : leafs_wf s) :
    leafs_wf s2 ∧ s2.portals = s.portals ∧ s2.leafs.length = s.leafs.length ∧
    (∀ Y r, onLeaf s Y r → onLeaf s2 Y r) ∧ (X < s.leafs.length → onLeaf s2 X p) := by
  unfold LoadPortals_register at h
  cases hl : s.leafs[X]? with
  | none =>
    rw [hl] at h
    simp only [Except.ok.injEq] at h
    subst h
    refine ⟨hwf, rfl, rfl, fun _ _ h => h, ?_⟩
    intro hX
    rw [List.getElem?_eq_none_iff] at hl
    omega
  | some l =>
    rw [hl] at h
    simp only at h
    split at h
    · cases h
    · simp only [Except.ok.injEq] at h
      subst h
      have hn := hwf X l hl
      have hXlt := getElem?_lt hl
      simp only [hn, lt_irrefl, if_false]
      refine ⟨?_, trivial, by simp, ?_, ?_⟩
      · intro Y l2 hl2
        simp only [List.getElem?_set] at hl2
        by_cases hXY : X = Y
        · subst hXY
          simp only [if_true, hXlt, Option.some.injEq] at hl2
          subst hl2
          simp
        · simp only [hXY, if_false] at hl2
          exact hwf Y l2 hl2
      · intro Y r ⟨k, hk, hr⟩
        unfold onLeaf
        rw [leafAt_set]
        by_cases hXY : X = Y
        · subst hXY
          rw [leafAt_eq hl] at hk hr
          rw [if_pos ⟨rfl, hXlt⟩]
          refine ⟨k, ?_, ?_⟩
          · simp only; omega
          · simp only
            rw [List.getElem?_append_left (by omega)]
            exact hr
        · rw [if_neg (fun h => hXY h.1)]
          exact ⟨k, hk, hr⟩
      · intro _
        unfold onLeaf
        rw [leafAt_set, if_pos ⟨rfl, hXlt⟩]
        exact ⟨l.portals.length, by simp, by simp⟩

theorem LoadPortals_fill_getElem? (s : State) (p : Nat) (w : List qvec3d) (pl : qplane3d)
    (leaf r : Nat) :
    (LoadPortals_fill s p w pl leaf).portals[r]? =
      if r = p then (s.portals[p]?).map (fun q => { q with winding := w, plane := pl, leaf := leaf })
      else s.portals[r]? := by
  unfold LoadPortals_fill
  split
  · rename_i hq
    by_cases h : r = p
    · subst h; simp [hq]
    · simp [h]
  · rename_i q hq
    simp only [List.getElem?_set]
    by_cases h : r = p
    · subst h
      simp [hq, getElem?_lt hq]
    · have h2 : ¬ p = r := fun e => h e.symm
      simp [h, h2]

theorem LoadPortals_fill_frame (s : State) (p : Nat) (w : List qvec3d) (pl : qplane3d)
    (leaf : Nat) :
    (LoadPortals_fill s p w pl leaf).leafs = s.leafs ∧
    (LoadPortals_fill s p w pl leaf).portals.length = s.portals.length := by
  unfold LoadPortals_fill
  split <;> simp

theorem onLeaf_congr {s t : State} (h : t.leafs = s.leafs) {X r : Nat} (h2 : onLeaf s X r) :
    onLeaf t X r := (onLeaf_of_leafs h X r).2 h2

theorem leafs_wf_congr {s t : State} (h : t.leafs = s.leafs) (h2 : leafs_wf s) : leafs_wf t := by
  intro X l hl; rw [h] at hl; exact h2 X l hl

/-- One step of the loop of `LoadPortals`: the forward portal `dest` is entered in
the list of the first leaf and leads to the second, the backward portal
`dest + 1` is entered in the list of the second leaf and leads to the first. -/
theorem LoadPortals_portal_spec (cap : Nat) (plane_of : List qvec3d → qplane3d)
    (dest : Nat) (s : State) (sp : prtfile_portal_t) (st2 : Nat × State)
    (h : LoadPortals_portal cap plane_of (dest, s) sp = .ok st2) (hwf : leafs_wf s)
    (hlen : dest + 2 ≤ s.portals.length) :
    st2.1 = dest + 2 ∧ leafs_wf st2.2 ∧ st2.2.portals.length = s.portals.length ∧
    st2.2.leafs.length = s.leafs.length ∧
    (∀ Y r, onLeaf s Y r → onLeaf st2.2 Y r) ∧
    (∀ r, r ≠ dest → r ≠ dest + 1 → st2.2.portals[r]? = s.portals[r]?) ∧
    (∃ q, st2.2.portals[dest]? = some q ∧ q.leaf = sp.leafnums.2) ∧
    (∃ q, st2.2.portals[dest + 1]? = some q ∧ q.leaf = sp.leafnums.1) ∧
    (sp.leafnums.1 < s.leafs.length → onLeaf st2.2 sp.leafnums.1 dest) ∧
    (sp.leafnums.2 < s.leafs.length → onLeaf st2.2 sp.leafnums.2 (dest + 1)) := by
  unfold LoadPortals_portal at h
  simp only at h
  cases h1 : LoadPortals_register cap s sp.leafnums.1 dest with
  | error e => rw [h1] at h; cases h
  | ok s1 =>
    rw [h1] at h
    simp only at h
    obtain ⟨w1, p1, l1, o1, r1⟩ := LoadPortals_register_spec cap s s1 _ _ h1 hwf
    have f2 := LoadPortals_fill_frame s1 dest sp.winding (plane_of sp.winding).neg sp.leafnums.2
    cases h3 : LoadPortals_register cap
        (LoadPortals_fill s1 dest sp.winding (plane_of sp.winding).neg sp.leafnums.2)
        sp.leafnums.2 (dest + 1) with
    | error e => rw [h3] at h; cases h
    | ok s3 =>
      rw [h3] at h
      simp only [Except.ok.injEq] at h
      subst h
      obtain ⟨w3, p3, l3, o3, r3⟩ := LoadPortals_register_spec cap _ s3 _ _ h3
        (leafs_wf_congr f2.1 w1)
      have f4 := LoadPortals_fill_frame s3 (dest + 1) sp.winding.reverse (plane_of sp.winding)
        sp.leafnums.1
      have hd : dest < s.portals.length := by omega
      have hd1 : dest + 1 < s.portals.length := by omega
      refine ⟨rfl, leafs_wf_congr f4.1 w3, ?_, ?_, ?_, ?_, ?_, ?_, ?_, ?_⟩
      · simp only; rw [f4.2, p3, f2.2, p1]
      · simp only; rw [f4.1, l3, f2.1, l1]
      · intro Y r hY
        exact onLeaf_congr f4.1 (o3 Y r (onLeaf_congr f2.1 (o1 Y r hY)))
      · intro r hr hr1
        simp only
        rw [LoadPortals_fill_getElem?, if_neg hr1, p3, LoadPortals_fill_getElem?, if_neg hr, p1]
      · simp only
        rw [LoadPortals_fill_getElem?, if_neg (by omega), p3, LoadPortals_fill_getElem?, if_pos rfl,
          p1, List.getElem?_eq_getElem hd]
        exact ⟨_, rfl, rfl⟩
      · simp only
        rw [LoadPortals_fill_getElem?, if_pos rfl, p3, LoadPortals_fill_getElem?,
          if_neg (by omega), p1, List.getElem?_eq_getElem hd1]
        exact ⟨_, rfl, rfl⟩
      · intro ha
        exact onLeaf_congr f4.1 (o3 _ _ (onLeaf_congr f2.1 (r1 ha)))
      · intro hb
        exact onLeaf_congr f4.1 (r3 (by rw [f2.1, l1]; exact hb))

theorem LoadPortals_loop_spec (cap : Nat) (plane_of : List qvec3d → qplane3d)
    (rest : List prtfile_portal_t) :
    ∀ (dest : Nat) (s : State) (st2 : Nat × State),
      LoadPortals_loop cap plane_of rest (dest, s) = .ok st2 → leafs_wf s →
      dest + 2 * rest.length ≤ s.portals.length →
      leafs_wf st2.2 ∧ st2.2.portals.length = s.portals.length ∧
      st2.2.leafs.length = s.leafs.length ∧
      (∀ Y r, onLeaf s Y r → onLeaf st2.2 Y r) ∧
      (∀ r, r < dest → st2.2.portals[r]? = s.portals[r]?) ∧
      ∀ (k : Nat) (sp : prtfile_portal_t), rest[k]? = some sp →
        (∃ q, st2.2.portals[dest + 2 * k]? = some q ∧ q.leaf = sp.leafnums.2) ∧
        (∃ q, st2.2.portals[dest + 2 * k + 1]? = some q ∧ q.leaf = sp.leafnums.1) ∧
        (sp.leafnums.1 < s.leafs.length → onLeaf st2.2 sp.leafnums.1 (dest + 2 * k)) ∧
        (sp.leafnums.2 < s.leafs.length → onLeaf st2.2 sp.leafnums.2 (dest + 2 * k + 1)) := by
  induction rest with
  | nil =>
    intro dest s st2 h hwf _
    simp only [LoadPortals_loop, Except.ok.injEq] at h
    subst h
    exact ⟨hwf, rfl, rfl, fun _ _ h => h, fun _ _ => rfl, by simp⟩
  | cons sp0 rest ih =>
    intro dest s st2 h hwf hlen
    unfold LoadPortals_loop at h
    simp only [List.length_cons] at hlen
    cases h1 : LoadPortals_portal cap plane_of (dest, s) sp0 with
    | error e => rw [h1] at h; cases h
    | ok st1 =>
      rw [h1] at h
      simp only at h
      obtain ⟨d1, w1, pl1, ll1, o1, fr1, a1, b1, c1, e1⟩ :=
        LoadPortals_portal_spec cap plane_of dest s sp0 st1 h1 hwf (by omega)
      have hst1 : st1 = (dest + 2, st1.2) := by rw [← d1]
      rw [hst1] at h
      obtain ⟨w2, pl2, ll2, o2, fr2, rest2⟩ := ih (dest + 2) st1.2 st2 h w1 (by rw [pl1]; omega)
      refine ⟨w2, pl2.trans pl1, ll2.trans ll1, fun Y r hY => o2 Y r (o1 Y r hY), ?_, ?_⟩
      · intro r hr
        rw [fr2 r (by omega), fr1 r (by omega) (by omega)]
      · intro k sp hk
        cases k with
        | zero =>
          simp only [List.getElem?_cons_zero, Option.some.injEq] at hk
          subst hk
          simp only [Nat.mul_zero, Nat.add_zero]
          rw [fr2 dest (by omega), fr2 (dest + 1) (by omega)]
          exact ⟨a1, b1, fun ha => o2 _ _ (c1 ha), fun hb => o2 _ _ (e1 hb)⟩
        | succ k =>
          simp only [List.getElem?_cons_succ] at hk
          obtain ⟨a2, b2, c2, e2⟩ := rest2 k sp hk
          have e : dest + 2 * (k + 1) = dest + 2 + 2 * k := by omega
          rw [e]
          exact ⟨a2, b2, fun ha => c2 (by rw [ll1]; exact ha), fun hb => e2 (by rw [ll1]; exact hb)⟩

theorem PortalCompleted_leafnum_eq {s : State} {p : Nat} {q : visportal_t}
    (h : s.portals[p]? = some q) : PortalCompleted_leafnum s p = q.leaf := by
  simp [PortalCompleted_leafnum, h]

/-- C6 (as amended): on the graph LoadPortals builds, the directed portals of input
portal k joining leaves (a, b) are 2k, entered in the portal list of a, and 2k+1,
entered in the portal list of b; when portal 2k completes, PortalCompleted
examines the portals of leaf b, and when 2k+1 completes, those of leaf a: the
leaf the portal leads into (`completed->leaf`), not the leaf in whose list it
was entered. -/
theorem C6_examined_leaf (cap : Nat) (plane_of : List qvec3d → qplane3d) (portalleafs : Nat)
    (prt : List prtfile_portal_t) (s : State)
    (h : LoadPortals cap plane_of portalleafs prt = .ok s)
    (k : Nat) (sp : prtfile_portal_t) (hk : prt[k]? = some sp)
    (ha : sp.leafnums.1 < portalleafs) (hb : sp.leafnums.2 < portalleafs) :
    onLeaf s sp.leafnums.1 (2 * k) ∧ onLeaf s sp.leafnums.2 (2 * k + 1) ∧
    PortalCompleted s (2 * k) =
      (List.range (leafAt s sp.leafnums.2).numportals).foldl
        (PortalCompleted_portal (leafAt s sp.leafnums.2) sp.leafnums.2)
        (setStatus s (2 * k) pstat_done) ∧
    PortalCompleted s (2 * k + 1) =
      (List.range (leafAt s sp.leafnums.1).numportals).foldl
        (PortalCompleted_portal (leafAt s sp.leafnums.1) sp.leafnums.1)
        (setStatus s (2 * k + 1) pstat_done) := by
  unfold LoadPortals at h
  simp only at h
  cases h1 : LoadPortals_loop cap plane_of prt (0,
      { numportals := prt.length, portalleafs := portalleafs,
        portals := List.replicate (prt.length * 2) {}, leafs := List.replicate portalleafs {} }) with
  | error e => rw [h1] at h; cases h
  | ok st =>
    rw [h1] at h
    simp only [Except.ok.injEq] at h
    subst h
    obtain ⟨_, _, _, _, _, hrest⟩ := LoadPortals_loop_spec cap plane_of prt 0 _ st h1
      (by
        intro X l hl
        simp only at hl
        have := List.getElem?_mem hl
        rw [List.mem_replicate] at this
        rw [this.2]
        rfl)
      (by simp; omega)
    obtain ⟨⟨q0, hq0, hl0⟩, ⟨q1, hq1, hl1⟩, c, e⟩ := hrest k sp hk
    simp only [Nat.zero_add, List.length_replicate] at hq0 hq1 c e
    have leafAt_st : ∀ (c2 : Nat) (X : Nat), leafAt (setStatus st.2 c2 pstat_done) X = leafAt st.2 X := by
      intro c2 X; unfold leafAt; rw [(setStatus_frame st.2 c2 pstat_done).1]
    refine ⟨c ha, e hb, ?_, ?_⟩
    · unfold PortalCompleted
      simp only
      rw [PortalCompleted_leafnum_setStatus, PortalCompleted_leafnum_eq hq0, hl0, leafAt_st]
    · unfold PortalCompleted
      simp only
      rw [PortalCompleted_leafnum_setStatus, PortalCompleted_leafnum_eq hq1, hl1, leafAt_st]


/-! ## The cluster assembler -/

theorem ClusterFlow_or_spec (visbits : leafbits_t) (n : Nat) (buffer : leafbits_t) :
    (ClusterFlow_or n buffer visbits).length = buffer.length ∧
    ∀ j, getBlock (ClusterFlow_or n buffer visbits) j =
      if j < n then getBlock buffer j ||| (if j < buffer.length then getBlock visbits j else 0)
      else getBlock buffer j := by
  induction n with
  | zero => simp [ClusterFlow_or]
  | succ n ih =>
    obtain ⟨ih1, ih2⟩ := ih
    have e : ClusterFlow_or (n + 1) buffer visbits =
        (ClusterFlow_or n buffer visbits).set n
          (getBlock (ClusterFlow_or n buffer visbits) n ||| getBlock visbits n) := by
      simp [ClusterFlow_or, List.range_succ, List.foldl_append]
    rw [e]
    refine ⟨by simp [ih1], ?_⟩
    intro j
    rw [getBlock_set, ih2 j, ih2 n, ih1]
    by_cases hjn : n = j
    · subst hjn
      by_cases hl : n < buffer.length
      · simp [hl]
      · simp [hl, getBlock_of_le _ _ (not_lt.1 hl)]
    · have : ¬ (n = j ∧ n < buffer.length) := fun h => hjn h.1
      rw [if_neg this]
      by_cases h1 : j < n
      · have : j < n + 1 := by omega
        simp [h1, this]
      · have : ¬ j < n + 1 := by omega
        simp [h1, this]

theorem testLeafBit_ClusterFlow_or (visbits buffer : leafbits_t) (n b : Nat)
    (h1 : b / 32 < n) (h2 : b / 32 < buffer.length) :
    testLeafBit (ClusterFlow_or n buffer visbits) b =
      (testLeafBit buffer b || testLeafBit visbits b) := by
  rw [testLeafBit_eq, testLeafBit_eq, testLeafBit_eq, (ClusterFlow_or_spec visbits n buffer).2]
  simp [h1, h2, Nat.testBit_or]

/-- The portals of leaf `leaf` found by the collecting loop over the entries `l`
that have bit `b` in `visbits`. -/
theorem ClusterFlow_collect_spec (s : State) (leaf : leaf_t) (l : List Nat) :
    ∀ (buffer : leafbits_t), buffer.length = numblocks s →
      (∀ (i p : Nat) (q : visportal_t), i ∈ l → leaf.portals[i]? = some p →
        s.portals[p]? = some q → q.status = pstat_done) →
      ∃ row, ClusterFlow_collect s leaf l buffer = .ok row ∧ row.length = numblocks s ∧
        ∀ b, b / 32 < numblocks s →
          (testLeafBit row b = true ↔ testLeafBit buffer b = true ∨
            ∃ (i p : Nat) (q : visportal_t), i ∈ l ∧ leaf.portals[i]? = some p ∧
              s.portals[p]? = some q ∧ testLeafBit q.visbits b = true) := by
  induction l with
  | nil =>
    intro buffer hlen _
    exact ⟨buffer, rfl, hlen, fun b _ => by simp⟩
  | cons i rest ih =>
    intro buffer hlen hdone
    have hdone2 : ∀ (i2 p : Nat) (q : visportal_t), i2 ∈ rest → leaf.portals[i2]? = some p →
        s.portals[p]? = some q → q.status = pstat_done :=
      fun i2 p q hi => hdone i2 p q (List.mem_cons_of_mem _ hi)
    unfold ClusterFlow_collect
    cases hp : leaf.portals[i]? with
    | none =>
      simp only
      obtain ⟨row, h1, h2, h3⟩ := ih buffer hlen hdone2
      refine ⟨row, h1, h2, ?_⟩
      intro b hb
      rw [h3 b hb]
      constructor
      · rintro (h | ⟨i2, p, q, hi, a, c, d⟩)
        · exact Or.inl h
        · exact Or.inr ⟨i2, p, q, List.mem_cons_of_mem _ hi, a, c, d⟩
      · rintro (h | ⟨i2, p, q, hi, a, c, d⟩)
        · exact Or.inl h
        · rcases List.mem_cons.1 hi with rfl | hi
          · rw [hp] at a; cases a
          · exact Or.inr ⟨i2, p, q, hi, a, c, d⟩
    | some p =>
      simp only
      cases hq : s.portals[p]? with
      | none =>
        simp only
        obtain ⟨row, h1, h2, h3⟩ := ih buffer hlen hdone2
        refine ⟨row, h1, h2, ?_⟩
        intro b hb
        rw [h3 b hb]
        constructor
        · rintro (h | ⟨i2, p2, q, hi, a, c, d⟩)
          · exact Or.inl h
          · exact Or.inr ⟨i2, p2, q, List.mem_cons_of_mem _ hi, a, c, d⟩
        · rintro (h | ⟨i2, p2, q, hi, a, c, d⟩)
          · exact Or.inl h
          · rcases List.mem_cons.1 hi with rfl | hi
            · rw [hp] at a; cases a; rw [hq] at c; cases c
            · exact Or.inr ⟨i2, p2, q, hi, a, c, d⟩
      | some q =>
        simp only
        have hd := hdone i p q (List.mem_cons_self _ _) hp hq
        rw [if_neg (by simp [hd])]
        obtain ⟨row, h1, h2, h3⟩ := ih (ClusterFlow_or (numblocks s) buffer q.visbits)
          (by rw [(ClusterFlow_or_spec _ _ _).1]; exact hlen) hdone2
        refine ⟨row, h1, h2, ?_⟩
        intro b hb
        rw [h3 b hb, testLeafBit_ClusterFlow_or _ _ _ _ hb (by rw [hlen]; exact hb)]
        simp only [Bool.or_eq_true]
        constructor
        · rintro ((h | h) | ⟨i2, p2, q2, hi, a, c, d⟩)
          · exact Or.inl h
          · exact Or.inr ⟨i, p, q, List.mem_cons_self _ _, hp, hq, h⟩
          · exact Or.inr ⟨i2, p2, q2, List.mem_cons_of_mem _ hi, a, c, d⟩
        · rintro (h | ⟨i2, p2, q2, hi, a, c, d⟩)
          · exact Or.inl (Or.inl h)
          · rcases List.mem_cons.1 hi with rfl | hi
            · rw [hp] at a; cases a; rw [hq] at c; cases c
              exact Or.inl (Or.inr d)
            · exact Or.inr ⟨i2, p2, q2, hi, a, c, d⟩

theorem div32_lt_numblocks (s : State) (b : Nat) (h : b < s.portalleafs) :
    b / 32 < numblocks s := by
  unfold numblocks
  rw [shiftRight_shift]
  simp only [leafbits_mask]
  omega

/-- C8: for a cluster c whose portals are all done and an accumulator that has
room for portalleafs bits and is clear on entry, ClusterFlow accumulates a row
whose bit b, for every leaf b, is set if and only if b = c or some portal owned
by c has bit b set in its visbits. -/
theorem C8_accumulated_row (s : State) (c : Nat) (buffer : leafbits_t)
    (hc : c < s.portalleafs) (hlen : buffer.length = numblocks s)
    (hclear : ∀ b, testLeafBit buffer b = false)
    (hdone : ∀ (i p : Nat) (q : visportal_t), i < (leafAt s c).numportals →
      (leafAt s c).portals[i]? = some p → s.portals[p]? = some q → q.status = pstat_done) :
    ∃ row, ClusterFlow_accumulate s c buffer = .ok row ∧
      ∀ b, b < s.portalleafs →
        (testLeafBit row b = true ↔
          b = c ∨ ∃ (i p : Nat) (q : visportal_t), i < (leafAt s c).numportals ∧
            (leafAt s c).portals[i]? = some p ∧ s.portals[p]? = some q ∧
            testLeafBit q.visbits b = true) := by
  obtain ⟨row, h1, h2, h3⟩ := ClusterFlow_collect_spec s (leafAt s c)
    (List.range (leafAt s c).numportals) buffer hlen
    (fun i p q hi => hdone i p q (List.mem_range.1 hi))
  refine ⟨setLeafBit row c true, ?_, ?_⟩
  · unfold ClusterFlow_accumulate
    rw [h1]
  · intro b hb
    rw [testLeafBit_setLeafBit_true _ _ _ (by rw [h2]; exact div32_lt_numblocks s c hc)]
    simp only [Bool.or_eq_true, decide_eq_true_eq]
    rw [h3 b (div32_lt_numblocks s b hb), hclear b]
    constructor
    · rintro ((h | ⟨i, p, q, hi, a, d, e⟩) | h)
      · exact absurd h (by simp)
      · exact Or.inr ⟨i, p, q, List.mem_range.1 hi, a, d, e⟩
      · exact Or.inl h
    · rintro (h | ⟨i, p, q, hi, a, d, e⟩)
      · exact Or.inr h
      · exact Or.inl (Or.inr ⟨i, p, q, List.mem_range.2 hi, a, d, e⟩)


/-! ## Expansion of the cluster row -/

theorem testRowBit_eq (bytes : List Nat) (base i : Nat) :
    testRowBit bytes base i = (getBlock bytes (base + i / 8)).testBit (i % 8) := by
  have h1 : i >>> 3 = i / 8 := by simp [Nat.shiftRight_eq_div_pow]
  have h2 : i &&& 7 = i % 8 := by
    have h := Nat.and_pow_two_sub_one_eq_mod i 3
    simpa using h
  simp [testRowBit, getBlock, h1, h2]

theorem setRowBit_eq (bytes : List Nat) (base i : Nat) :
    setRowBit bytes base i =
      bytes.set (base + i / 8) (getBlock bytes (base + i / 8) ||| nth_bit (i % 8)) := by
  have h1 : i >>> 3 = i / 8 := by simp [Nat.shiftRight_eq_div_pow]
  have h2 : i &&& 7 = i % 8 := by
    have h := Nat.and_pow_two_sub_one_eq_mod i 3
    simpa using h
  simp [setRowBit, getBlock, h1, h2]

theorem byte_index_eq (i k : Nat) : (i / 8 = k / 8 ∧ i % 8 = k % 8) ↔ i = k := by
  constructor
  · rintro ⟨h1, h2⟩
    have a := Nat.div_add_mod i 8
    have b := Nat.div_add_mod k 8
    omega
  · rintro rfl; exact ⟨rfl, rfl⟩

theorem testRowBit_setRowBit (bytes : List Nat) (base i k : Nat)
    (h : base + i / 8 < bytes.length) :
    testRowBit (setRowBit bytes base i) base k = (testRowBit bytes base k || decide (k = i)) := by
  rw [testRowBit_eq, testRowBit_eq, setRowBit_eq, getBlock_set]
  by_cases h1 : i / 8 = k / 8
  · rw [if_pos ⟨by rw [h1], h⟩, Nat.testBit_or, testBit_nth_bit, ← h1]
    by_cases h3 : i % 8 = k % 8
    · have : i = k := (byte_index_eq i k).1 ⟨h1, h3⟩
      simp [h3, this]
    · have : k ≠ i := fun e => h3 (by rw [e])
      simp [h3, this]
  · have : k ≠ i := fun e => h1 (by rw [e])
    rw [if_neg (fun h => h1 (by omega))]
    simp [this]

theorem getBlock_setRowBit_other (bytes : List Nat) (base i idx : Nat) (h : idx ≠ base + i / 8) :
    getBlock (setRowBit bytes base i) idx = getBlock bytes idx := by
  rw [setRowBit_eq, getBlock_set, if_neg (fun h2 => h h2.1.symm)]

theorem length_setRowBit (bytes : List Nat) (base i : Nat) :
    (setRowBit bytes base i).length = bytes.length := by
  simp [setRowBit]

theorem ClusterFlow_expand_succ (visible : Nat → Bool) (base n : Nat) (bytes : List Nat) :
    ClusterFlow_expand visible base (n + 1) bytes =
      if visible n then
        (setRowBit (ClusterFlow_expand visible base n bytes).1 base n,
          (ClusterFlow_expand visible base n bytes).2 + 1)
      else ClusterFlow_expand visible base n bytes := by
  simp [ClusterFlow_expand, List.range_succ, List.foldl_append]

/-- What the expansion loop leaves: the bytes outside the row unchanged, bit `k`
of the row set when it was set before or `k < n` is visible, and in `numvis` the
number of visible `k < n`. -/
theorem ClusterFlow_expand_spec (visible : Nat → Bool) (base : Nat) (bytes : List Nat) (n : Nat)
    (hfit : ∀ i, i < n → base + i / 8 < bytes.length) :
    (ClusterFlow_expand visible base n bytes).1.length = bytes.length ∧
    (∀ k, testRowBit (ClusterFlow_expand visible base n bytes).1 base k =
      (testRowBit bytes base k || (decide (k < n) && visible k))) ∧
    (ClusterFlow_expand visible base n bytes).2 = (List.range n).countP visible ∧
    (∀ idx, (∀ i, i < n → idx ≠ base + i / 8) →
      getBlock (ClusterFlow_expand visible base n bytes).1 idx = getBlock bytes idx) := by
  induction n with
  | zero => simp [ClusterFlow_expand]
  | succ n ih =>
    obtain ⟨ih1, ih2, ih3, ih4⟩ := ih (fun i hi => hfit i (by omega))
    rw [ClusterFlow_expand_succ]
    by_cases hv : visible n = true
    · rw [if_pos hv]
      refine ⟨by simp [length_setRowBit, ih1], ?_, ?_, ?_⟩
      · intro k
        simp only
        rw [testRowBit_setRowBit _ _ _ _ (by rw [ih1]; exact hfit n (by omega)), ih2 k]
        by_cases hkn : k = n
        · subst hkn; simp [hv]
        · by_cases hlt : k < n
          · have : k < n + 1 := by omega
            simp [hkn, hlt, this]
          · have : ¬ k < n + 1 := by omega
            simp [hkn, hlt, this]
      · simp only
        rw [ih3, List.range_succ, List.countP_append]
        simp [hv]
      · intro idx hidx
        simp only
        rw [getBlock_setRowBit_other _ _ _ _ (hidx n (by omega))]
        exact ih4 idx (fun i hi => hidx i (by omega))
    · rw [if_neg hv]
      have hv2 : visible n = false := by simpa using hv
      refine ⟨ih1, ?_, ?_, ?_⟩
      · intro k
        rw [ih2 k]
        by_cases hkn : k = n
        · subst hkn; simp [hv2]
        · by_cases hlt : k < n
          · have : k < n + 1 := by omega
            simp [hlt, this]
          · have : ¬ k < n + 1 := by omega
            simp [hlt, this]
      · rw [ih3, List.range_succ, List.countP_append]
        simp [hv2]
      · intro idx hidx
        exact ih4 idx (fun i hi => hidx i (by omega))

theorem countP_range_of_bound (f : Nat → Bool) (n m : Nat) (hnm : n ≤ m)
    (hf : ∀ i, n ≤ i → f i = false) :
    (List.range m).countP f = (List.range n).countP f := by
  obtain ⟨d, rfl⟩ := Nat.exists_eq_add_of_le hnm
  rw [List.range_add, List.countP_append]
  have : List.countP f (List.map (fun x => n + x) (List.range d)) = 0 := by
    rw [List.countP_eq_zero]
    intro x hx
    simp only [List.mem_map, List.mem_range] at hx
    obtain ⟨y, _, rfl⟩ := hx
    simp [hf (n + y) (by omega)]
  omega

theorem ClusterFlow_ok (CompressRow : List Nat → List Nat) (s : State) (a : Assembler)
    (c : Nat) (buffer buf : leafbits_t) (a2 : Assembler)
    (h : ClusterFlow CompressRow s a c buffer = .ok (buf, a2)) :
    ClusterFlow_accumulate s c buffer = .ok buf ∧
    a2.uncompressed = (ClusterFlow_out s a c buf).1 ∧
    a2.totalvis = (if a.q2 then a.totalvis + ((ClusterFlow_out s a c buf).2 : Int)
      else ClusterFlow_totalvis a c (ClusterFlow_out s a c buf).2) := by
  unfold ClusterFlow at h
  cases hacc : ClusterFlow_accumulate s c buffer with
  | error e => rw [hacc] at h; cases h
  | ok b =>
    rw [hacc] at h
    simp only [Except.ok.injEq, Prod.mk.injEq] at h
    obtain ⟨h1, h2⟩ := h
    subst h1
    subst h2
    exact ⟨rfl, rfl, rfl⟩

theorem ClusterFlow_collect_ok (s : State) (leaf : leaf_t) (l : List Nat) :
    ∀ (buffer : leafbits_t),
      (∀ (i p : Nat) (q : visportal_t), i ∈ l → leaf.portals[i]? = some p →
        s.portals[p]? = some q → q.status = pstat_done) →
      ∃ row, ClusterFlow_collect s leaf l buffer = .ok row := by
  induction l with
  | nil => intro buffer _; exact ⟨buffer, rfl⟩
  | cons i rest ih =>
    intro buffer hdone
    have hdone2 : ∀ (i2 p : Nat) (q : visportal_t), i2 ∈ rest → leaf.portals[i2]? = some p →
        s.portals[p]? = some q → q.status = pstat_done :=
      fun i2 p q hi => hdone i2 p q (List.mem_cons_of_mem _ hi)
    unfold ClusterFlow_collect
    cases hp : leaf.portals[i]? with
    | none => exact ih buffer hdone2
    | some p =>
      simp only
      cases hq : s.portals[p]? with
      | none => exact ih buffer hdone2
      | some q =>
        simp only
        rw [if_neg (by simp [hdone i p q (List.mem_cons_self _ _) hp hq])]
        exact ih _ hdone2

/-- When all portals of the cluster are done, `ClusterFlow` succeeds. -/
theorem ClusterFlow_succeeds (CompressRow : List Nat → List Nat) (s : State) (a : Assembler)
    (c : Nat) (buffer : leafbits_t)
    (hdone : ∀ (i p : Nat) (q : visportal_t), i < (leafAt s c).numportals →
      (leafAt s c).portals[i]? = some p → s.portals[p]? = some q → q.status = pstat_done) :
    ∃ buf a2, ClusterFlow CompressRow s a c buffer = .ok (buf, a2) := by
  obtain ⟨row, hrow⟩ := ClusterFlow_collect_ok s (leafAt s c)
    (List.range (leafAt s c).numportals) buffer
    (fun i p q hi => hdone i p q (List.mem_range.1 hi))
  unfold ClusterFlow ClusterFlow_accumulate
  rw [hrow]
  exact ⟨_, _, rfl⟩

/-- C9: for a cluster c whose portals are all done and an output row that lies
inside `uncompressed` and is clear on entry, ClusterFlow succeeds, returning the
accumulated row `buf`; in clustered mode bit i of the output row, for every real
leaf i below portalleafs_real, is the bit of the cluster of leaf i+1 in the
accumulated row; in Quake II mode bit i of the output row is bit i of the
accumulated row for every i below portalleafs; and numvis is the number of bits
set in the output row. -/
theorem C9_expanded_row (CompressRow : List Nat → List Nat) (s : State) (a : Assembler)
    (c : Nat) (buffer : leafbits_t)
    (hdone : ∀ (i p : Nat) (q : visportal_t), i < (leafAt s c).numportals →
      (leafAt s c).portals[i]? = some p → s.portals[p]? = some q → q.status = pstat_done)
    (hfit : ∀ i, i < ClusterFlow_rowbits s a →
      ClusterFlow_base a c + i / 8 < a.uncompressed.length)
    (hclear : ∀ i, i < 8 * ((ClusterFlow_rowbits s a + 7) >>> 3) →
      testRowBit a.uncompressed (ClusterFlow_base a c) i = false) :
    ∃ buf a2, ClusterFlow CompressRow s a c buffer = .ok (buf, a2) ∧
    ClusterFlow_accumulate s c buffer = .ok buf ∧
    (a.q2 = false → ∀ i, i < a.portalleafs_real →
      testRowBit a2.uncompressed (c * a.leafbytes_real) i =
        testLeafBit buf (toSize (clusterOf a (i + 1)))) ∧
    (a.q2 = true → ∀ i, i < s.portalleafs →
      testRowBit a2.uncompressed (c * a.leafbytes) i = testLeafBit buf i) ∧
    (ClusterFlow_out s a c buf).2 =
      (List.range (8 * ((ClusterFlow_rowbits s a + 7) >>> 3))).countP
        (fun i => testRowBit a2.uncompressed (ClusterFlow_base a c) i) ∧
    (a.q2 = true → a2.totalvis = a.totalvis + ((ClusterFlow_out s a c buf).2 : Int)) := by
  obtain ⟨buf, a2, h⟩ := ClusterFlow_succeeds CompressRow s a c buffer hdone
  refine ⟨buf, a2, h, ?_⟩
  obtain ⟨hacc, hu, ht⟩ := ClusterFlow_ok CompressRow s a c buffer buf a2 h
  obtain ⟨_, e2, e3, _⟩ := ClusterFlow_expand_spec (ClusterFlow_visible a buf)
    (ClusterFlow_base a c) a.uncompressed (ClusterFlow_rowbits s a) hfit
  have hpad : ClusterFlow_rowbits s a ≤ 8 * ((ClusterFlow_rowbits s a + 7) >>> 3) := by
    rw [Nat.shiftRight_eq_div_pow]
    norm_num
    omega
  have hbit : ∀ i, i < 8 * ((ClusterFlow_rowbits s a + 7) >>> 3) →
      testRowBit a2.uncompressed (ClusterFlow_base a c) i =
        (decide (i < ClusterFlow_rowbits s a) && ClusterFlow_visible a buf i) := by
    intro i hi
    rw [hu]
    unfold ClusterFlow_out
    rw [e2 i, hclear i hi]
    simp
  refine ⟨hacc, ?_, ?_, ?_, ?_⟩
  · intro hq i hi
    have hi2 : i < ClusterFlow_rowbits s a := by simp [ClusterFlow_rowbits, hq, hi]
    have := hbit i (lt_of_lt_of_le hi2 hpad)
    simp only [ClusterFlow_base, hq, Bool.false_eq_true, if_false] at this
    rw [this]
    simp [hi2, ClusterFlow_visible, hq]
  · intro hq i hi
    have hi2 : i < ClusterFlow_rowbits s a := by simp [ClusterFlow_rowbits, hq, hi]
    have := hbit i (lt_of_lt_of_le hi2 hpad)
    simp only [ClusterFlow_base, hq, if_true] at this
    rw [this]
    simp [hi2, ClusterFlow_visible, hq]
  · unfold ClusterFlow_out
    rw [e3]
    have hcongr : (List.range (8 * ((ClusterFlow_rowbits s a + 7) >>> 3))).countP
        (fun i => testRowBit a2.uncompressed (ClusterFlow_base a c) i) =
        (List.range (8 * ((ClusterFlow_rowbits s a + 7) >>> 3))).countP
        (fun i => decide (i < ClusterFlow_rowbits s a) && ClusterFlow_visible a buf i) := by
      apply List.countP_congr
      intro i hi
      rw [hbit i (List.mem_range.1 hi)]
    rw [hcongr, countP_range_of_bound _ _ _ hpad (fun i hi => by simp; omega)]
    apply List.countP_congr
    intro i hi
    simp [List.mem_range.1 hi]
  · intro hq
    rw [ht, if_pos hq]


theorem toSize_eq_iff (cl : Int) (c : Nat) (h1 : -2147483648 ≤ cl) (h2 : cl < 2147483648)
    (hc : c < 2147483648) : toSize cl = c ↔ cl = (c : Int) := by
  unfold toSize
  omega

theorem ClusterFlow_accumulate_empty (s : State) (c : Nat) (buffer : leafbits_t)
    (hnp : (leafAt s c).numportals = 0) :
    ClusterFlow_accumulate s c buffer = .ok (setLeafBit buffer c true) := by
  unfold ClusterFlow_accumulate
  rw [hnp]
  simp [ClusterFlow_collect]

/-- C10: for a cluster c that owns no portal, called as CalcVis calls it (clear
accumulator with room for portalleafs bits, clear output row inside
`uncompressed`), ClusterFlow succeeds and leaves an output row in which, in Quake
II mode, exactly bit c is set and, in clustered mode, exactly the bits of the real
leaves whose cluster is c. -/
theorem C10_isolated_cluster (CompressRow : List Nat → List Nat) (s : State) (a : Assembler)
    (c : Nat) (buffer : leafbits_t)
    (hc : c < s.portalleafs) (hint : s.portalleafs < 2147483648)
    (hnp : (leafAt s c).numportals = 0)
    (hlen : buffer.length = numblocks s) (hzero : ∀ b, testLeafBit buffer b = false)
    (hcl : ∀ i, -2147483648 ≤ clusterOf a i ∧ clusterOf a i < 2147483648)
    (hfit : ∀ i, i < ClusterFlow_rowbits s a →
      ClusterFlow_base a c + i / 8 < a.uncompressed.length)
    (hclear : ∀ i, i < 8 * ((ClusterFlow_rowbits s a + 7) >>> 3) →
      testRowBit a.uncompressed (ClusterFlow_base a c) i = false) :
    ∃ buf a2, ClusterFlow CompressRow s a c buffer = .ok (buf, a2) ∧
      ∀ i, i < 8 * ((ClusterFlow_rowbits s a + 7) >>> 3) →
        (testRowBit a2.uncompressed (ClusterFlow_base a c) i = true ↔
          if a.q2 then i = c
          else (i < a.portalleafs_real ∧ clusterOf a (i + 1) = (c : Int))) := by
  have hacc := ClusterFlow_accumulate_empty s c buffer hnp
  have hbuf : ∀ b, testLeafBit (setLeafBit buffer c true) b = decide (b = c) := by
    intro b
    rw [testLeafBit_setLeafBit_true _ _ _ (by rw [hlen]; exact div32_lt_numblocks s c hc),
      hzero b]
    simp
  have hok : ∃ a2, ClusterFlow CompressRow s a c buffer = .ok (setLeafBit buffer c true, a2) := by
    unfold ClusterFlow
    rw [hacc]
    exact ⟨_, rfl⟩
  obtain ⟨a2, ha2⟩ := hok
  refine ⟨_, a2, ha2, ?_⟩
  obtain ⟨_, hu, _⟩ := ClusterFlow_ok CompressRow s a c buffer _ a2 ha2
  obtain ⟨_, e2, _, _⟩ := ClusterFlow_expand_spec (ClusterFlow_visible a (setLeafBit buffer c true))
    (ClusterFlow_base a c) a.uncompressed (ClusterFlow_rowbits s a) hfit
  intro i hi
  rw [hu]
  unfold ClusterFlow_out
  rw [e2 i, hclear i hi]
  simp only [Bool.false_or, Bool.and_eq_true, decide_eq_true_eq]
  by_cases hq : a.q2 = true
  · simp only [ClusterFlow_rowbits, ClusterFlow_visible, hq, if_true, hbuf, decide_eq_true_eq]
    constructor
    · exact fun h => h.2
    · intro h; subst h; exact ⟨hc, rfl⟩
  · have hq2 : a.q2 = false := by simpa using hq
    simp only [ClusterFlow_rowbits, ClusterFlow_visible, hq2, Bool.false_eq_true, if_false, hbuf,
      decide_eq_true_eq]
    rw [toSize_eq_iff _ _ (hcl (i + 1)).1 (hcl (i + 1)).2 (lt_trans hc hint)]


/-! ## The calls of ClusterFlow in CalcVis -/

theorem ClusterFlow_visofs_cluster (a : Assembler) (c : Nat) (v : Int) (i : Nat) :
    ((ClusterFlow_visofs a c v).getD i {}).cluster = (a.dleafs.getD i {}).cluster := by
  unfold ClusterFlow_visofs
  apply foldl_inv (fun d : List dleaf_t => (d.getD i {}).cluster = (a.dleafs.getD i {}).cluster)
  · intro d k _ hd
    cases hk : d[k + 1]? with
    | none => simpa [hk] using hd
    | some l =>
      simp only
      by_cases hc : l.cluster = (c : Int)
      · rw [if_pos hc]
        rw [← hd]
        simp only [List.getD_eq_getElem?_getD, List.getElem?_set]
        by_cases e : k + 1 = i
        · subst e
          simp [getElem?_lt hk, hk]
        · simp [e]
      · rw [if_neg hc]; exact hd
  · rfl

/-- What a successful call of `ClusterFlow` leaves unchanged: the mode, the
sizes, the clusters of the leaves, the length of `uncompressed` and its bytes
outside the row of the cluster. -/
theorem ClusterFlow_frame (CompressRow : List Nat → List Nat) (s : State) (a : Assembler)
    (c : Nat) (buffer buf : leafbits_t) (a2 : Assembler)
    (h : ClusterFlow CompressRow s a c buffer = .ok (buf, a2)) :
    a2.q2 = a.q2 ∧ a2.portalleafs_real = a.portalleafs_real ∧ a2.leafbytes = a.leafbytes ∧
    a2.leafbytes_real = a.leafbytes_real ∧ (∀ i, clusterOf a2 i = clusterOf a i) := by
  unfold ClusterFlow at h
  cases hacc : ClusterFlow_accumulate s c buffer with
  | error e => rw [hacc] at h; cases h
  | ok b =>
    rw [hacc] at h
    simp only [Except.ok.injEq, Prod.mk.injEq] at h
    obtain ⟨_, h2⟩ := h
    subst h2
    refine ⟨rfl, rfl, rfl, rfl, ?_⟩
    intro i
    unfold clusterOf
    simp only
    by_cases hq : a.q2 = true
    · simp [hq]
    · simp only [hq, Bool.false_eq_true, if_false]
      exact ClusterFlow_visofs_cluster a c _ i

theorem length_ClusterFlow_accumulate (s : State) (c : Nat) (buffer buf : leafbits_t)
    (h : ClusterFlow_accumulate s c buffer = .ok buf) (hlen : buffer.length = numblocks s)
    (hdone : ∀ (i p : Nat) (q : visportal_t), i < (leafAt s c).numportals →
      (leafAt s c).portals[i]? = some p → s.portals[p]? = some q → q.status = pstat_done) :
    buf.length = numblocks s := by
  obtain ⟨row, h1, h2, _⟩ := ClusterFlow_collect_spec s (leafAt s c)
    (List.range (leafAt s c).numportals) buffer hlen
    (fun i p q hi => hdone i p q (List.mem_range.1 hi))
  unfold ClusterFlow_accumulate at h
  rw [h1] at h
  simp only [Except.ok.injEq] at h
  rw [← h, length_setLeafBit, h2]

theorem leafbits_clear_eq (s : State) (buf : leafbits_t) (h : buf.length = numblocks s) :
    leafbits_clear buf = leafbits_zero s.portalleafs := by
  unfold leafbits_clear leafbits_zero
  rw [← numblocks, ← h]
  exact List.map_const' buf 0

theorem rows_disjoint (lb c c2 i : Nat) (hne : c2 ≠ c) (hi : i < 8 * lb) :
    ¬ (c * lb ≤ c2 * lb + i / 8 ∧ c2 * lb + i / 8 < (c + 1) * lb) := by
  rintro ⟨h3, h4⟩
  have hi8 : i / 8 < lb := by omega
  rcases Nat.lt_or_gt_of_ne hne with hlt | hgt
  · have : (c2 + 1) * lb ≤ c * lb := Nat.mul_le_mul_right lb hlt
    rw [Nat.add_mul] at this
    omega
  · have : (c + 1) * lb ≤ c2 * lb := Nat.mul_le_mul_right lb hgt
    omega

/-- The assembling loop of `CalcVis` over distinct clusters `l`, all portals done,
started with a clear accumulator and clear rows of `lb` bytes inside
`uncompressed`: it succeeds, and the row of every cluster of `l` is the expansion
of the row that `ClusterFlow` accumulates for it from the clear accumulator; the
bytes of the other rows are unchanged. -/
theorem CalcVis_assemble_rows (CompressRow : List Nat → List Nat) (s : State) (lb : Nat)
    (hdone : ∀ q ∈ s.portals, q.status = pstat_done) (l : List Nat) :
    ∀ (a : Assembler), l.Nodup →
      lb = (if a.q2 then a.leafbytes else a.leafbytes_real) →
      ClusterFlow_rowbits s a ≤ 8 * lb →
      (∀ c ∈ l, (c + 1) * lb ≤ a.uncompressed.length) →
      (∀ c ∈ l, ∀ i, i < 8 * lb → testRowBit a.uncompressed (c * lb) i = false) →
      ∃ a2, CalcVis_assemble CompressRow s l (leafbits_zero s.portalleafs) a = .ok a2 ∧
        (∀ c ∈ l, ∃ buf, ClusterFlow_accumulate s c (leafbits_zero s.portalleafs) = .ok buf ∧
          ∀ i, i < 8 * lb → testRowBit a2.uncompressed (c * lb) i =
            (decide (i < ClusterFlow_rowbits s a) && ClusterFlow_visible a buf i)) ∧
        (∀ idx, (∀ c ∈ l, ¬ (c * lb ≤ idx ∧ idx < (c + 1) * lb)) →
          getBlock a2.uncompressed idx = getBlock a.uncompressed idx) := by
  induction l with
  | nil =>
    intro a _ _ _ _ _
    exact ⟨a, rfl, by simp, fun _ _ => rfl⟩
  | cons c rest ih =>
    intro a hnd hlb hrow hfit hclear
    have hdone2 : ∀ (c2 i p : Nat) (q : visportal_t), i < (leafAt s c2).numportals →
        (leafAt s c2).portals[i]? = some p → s.portals[p]? = some q → q.status = pstat_done :=
      fun _ _ _ q _ _ hq => hdone q (List.getElem?_mem hq)
    have hbase : ClusterFlow_base a c = c * lb := by
      unfold ClusterFlow_base; rw [hlb]; split <;> rfl
    have hin : ∀ i, i < 8 * lb → c * lb ≤ c * lb + i / 8 ∧ c * lb + i / 8 < (c + 1) * lb := by
      intro i hi
      have : i / 8 < lb := by omega
      constructor
      · omega
      · rw [Nat.add_mul]; omega
    have hfit1 : ∀ i, i < ClusterFlow_rowbits s a → c * lb + i / 8 < a.uncompressed.length := by
      intro i hi
      have := (hin i (by omega)).2
      have := hfit c (List.mem_cons_self _ _)
      omega
    obtain ⟨buf, a1, h1⟩ := ClusterFlow_succeeds CompressRow s a c (leafbits_zero s.portalleafs)
      (hdone2 c)
    obtain ⟨hacc, hu, _⟩ := ClusterFlow_ok CompressRow s a c _ buf a1 h1
    unfold ClusterFlow_out at hu
    rw [hbase] at hu
    obtain ⟨f1, f2, f3, f4, f5⟩ := ClusterFlow_frame CompressRow s a c _ buf a1 h1
    obtain ⟨e1, e2, _, e4⟩ := ClusterFlow_expand_spec (ClusterFlow_visible a buf)
      (c * lb) a.uncompressed (ClusterFlow_rowbits s a) hfit1
    have hzlen : (leafbits_zero s.portalleafs).length = numblocks s := by
      simp [leafbits_zero, numblocks]
    have hbuflen := length_ClusterFlow_accumulate s c _ buf hacc hzlen (hdone2 c)
    have hrb : ClusterFlow_rowbits s a1 = ClusterFlow_rowbits s a := by
      unfold ClusterFlow_rowbits; rw [f1, f2]
    have hvis : ∀ b i, ClusterFlow_visible a1 b i = ClusterFlow_visible a b i := by
      intro b i; unfold ClusterFlow_visible; rw [f1, f5]
    have hother : ∀ idx, ¬ (c * lb ≤ idx ∧ idx < (c + 1) * lb) →
        getBlock a1.uncompressed idx = getBlock a.uncompressed idx := by
      intro idx hidx
      rw [hu]
      apply e4
      intro i hi heq
      exact hidx (heq ▸ hin i (by omega))
    have hrowother : ∀ c2, c2 ≠ c → ∀ i, i < 8 * lb →
        testRowBit a1.uncompressed (c2 * lb) i = testRowBit a.uncompressed (c2 * lb) i := by
      intro c2 hne i hi
      rw [testRowBit_eq, testRowBit_eq, hother _ (rows_disjoint lb c c2 i hne hi)]
    have hnd2 := List.nodup_cons.1 hnd
    have hlen1 : a1.uncompressed.length = a.uncompressed.length := by
      rw [hu]; exact e1
    obtain ⟨a2, g1, g2, g3⟩ := ih a1 hnd2.2 (by rw [f1, f3, f4]; exact hlb) (by rw [hrb]; exact hrow)
      (fun c2 hc2 => by rw [hlen1]; exact hfit c2 (List.mem_cons_of_mem _ hc2))
      (fun c2 hc2 i hi => by
        have hne : c2 ≠ c := fun e => hnd2.1 (e ▸ hc2)
        rw [hrowother c2 hne i hi]
        exact hclear c2 (List.mem_cons_of_mem _ hc2) i hi)
    refine ⟨a2, ?_, ?_, ?_⟩
    · unfold CalcVis_assemble
      rw [h1]
      simp only
      rw [leafbits_clear_eq s buf hbuflen]
      exact g1
    · intro c2 hc2
      rcases List.mem_cons.1 hc2 with rfl | hc2
      · refine ⟨buf, hacc, ?_⟩
        intro i hi
        have hkeep : getBlock a2.uncompressed (c2 * lb + i / 8) =
            getBlock a1.uncompressed (c2 * lb + i / 8) := by
          apply g3
          intro c3 hc3
          have hne : c2 ≠ c3 := fun e => hnd2.1 (e ▸ hc3)
          exact rows_disjoint lb c3 c2 i hne hi
        rw [testRowBit_eq, hkeep, ← testRowBit_eq, hu, e2 i,
          hclear c2 (List.mem_cons_self _ _) i hi]
        simp
      · obtain ⟨buf2, k1, k2⟩ := g2 c2 hc2
        refine ⟨buf2, k1, ?_⟩
        intro i hi
        rw [k2 i hi, hrb, hvis]
    · intro idx hidx
      rw [g3 idx (fun c2 hc2 => hidx c2 (List.mem_cons_of_mem _ hc2)),
        hother idx (hidx c (List.mem_cons_self _ _))]


theorem testRowBit_replicate_zero (n base i : Nat) :
    testRowBit (List.replicate n 0) base i = false := by
  rw [testRowBit_eq]
  have : getBlock (List.replicate n 0) (base + i / 8) = 0 := by
    unfold getBlock
    rw [List.getD_eq_getElem?_getD]
    by_cases h : base + i / 8 < n
    · simp [List.getElem?_replicate, h]
    · simp [List.getElem?_replicate, h]
  rw [this]
  simp

/-- The assembling loop as `vis_main` and `CalcVis` run it, over all clusters, on
the zero-filled `uncompressed` of `portalleafs` rows of `lb` bytes and with all
portals done: it succeeds, and bit `i` of the row of every cluster is the test of
the expansion loop on the row accumulated for that cluster. -/
theorem CalcVis_rows (CompressRow : List Nat → List Nat) (s : State) (a : Assembler) (lb : Nat)
    (hdone : ∀ q ∈ s.portals, q.status = pstat_done)
    (hlb : lb = (if a.q2 then a.leafbytes else a.leafbytes_real))
    (hrow : ClusterFlow_rowbits s a ≤ 8 * lb)
    (hzero : a.uncompressed = List.replicate (s.portalleafs * lb) 0) :
    ∃ a2, CalcVis_assemble CompressRow s (List.range s.portalleafs)
        (leafbits_zero s.portalleafs) a = .ok a2 ∧
      ∀ c, c < s.portalleafs →
        ∃ buf, ClusterFlow_accumulate s c (leafbits_zero s.portalleafs) = .ok buf ∧
          ∀ i, i < ClusterFlow_rowbits s a →
            testRowBit a2.uncompressed (c * lb) i = ClusterFlow_visible a buf i := by
  obtain ⟨a2, h1, h2, _⟩ := CalcVis_assemble_rows CompressRow s lb hdone
    (List.range s.portalleafs) a (List.nodup_range _) hlb hrow
    (fun c hc => by
      rw [hzero, List.length_replicate]
      exact Nat.mul_le_mul_right lb (List.mem_range.1 hc))
    (fun c _ i _ => by rw [hzero]; exact testRowBit_replicate_zero _ _ _)
  refine ⟨a2, h1, ?_⟩
  intro c hc
  obtain ⟨buf, k1, k2⟩ := h2 c (List.mem_range.2 hc)
  refine ⟨buf, k1, ?_⟩
  intro i hi
  rw [k2 i (by omega)]
  simp [hi]

/-! ## Concrete checks -/

theorem leafbits_subset_of_blocks (a b : leafbits_t)
    (h : ∀ j < a.length, ∀ t < 32, (getBlock a j).testBit t = true →
      (getBlock b j).testBit t = true) : leafbits_subset a b := by
  intro i hi
  rw [testLeafBit_eq] at hi ⊢
  by_cases hj : i / 32 < a.length
  · exact h _ hj _ (Nat.mod_lt _ (by norm_num)) hi
  · rw [getBlock_of_le _ _ (not_lt.1 hj)] at hi
    simp at hi

theorem testLeafBit_of_zero (bits : leafbits_t) (h : ∀ x ∈ bits, x = 0) (i : Nat) :
    testLeafBit bits i = false := by
  rw [testLeafBit_eq]
  by_cases hj : i / 32 < bits.length
  · have : getBlock bits (i / 32) = 0 := by
      unfold getBlock
      rw [List.getD_eq_getElem?_getD, List.getElem?_eq_getElem hj]
      exact h _ (List.getElem_mem hj)
    rw [this]; simp
  · rw [getBlock_of_le _ _ (not_lt.1 hj)]; simp

theorem chain_state_inv :
    visbits_subset_mightsee chain_state ∧ unprocessed_visbits_empty chain_state := by
  constructor
  · intro q hq
    simp only [chain_state, List.mem_cons, List.mem_singleton, List.not_mem_nil, or_false] at hq
    rcases hq with rfl | rfl | rfl | rfl <;>
      exact leafbits_subset_of_blocks _ _ (by decide)
  · intro q hq hst
    simp only [chain_state, List.mem_cons, List.mem_singleton, List.not_mem_nil, or_false] at hq
    rcases hq with rfl | rfl | rfl | rfl
    · simp [chain_portal0] at hst
    · simp [chain_portal1] at hst
    · exact testLeafBit_of_zero _ (by decide)
    · exact testLeafBit_of_zero _ (by decide)

/-- C1, counterexample: in the chain where the unprocessed portal 3 has leaf 0 in
both visbits and mightsee, the visbits of every portal are among its mightsee, but
after PortalCompleted on portal 1 they are not: the elimination cleared bit 0 of
the mightsee of portal 3. -/
theorem C1_counterexample :
    visbits_subset_mightsee chain_state_visbits ∧
    ¬ visbits_subset_mightsee (PortalCompleted chain_state_visbits 1) := by
  constructor
  · intro q hq
    simp only [chain_state_visbits, List.mem_cons, List.mem_singleton, List.not_mem_nil,
      or_false] at hq
    rcases hq with rfl | rfl | rfl | rfl <;>
      exact leafbits_subset_of_blocks _ _ (by decide)
  · intro h
    have hex : ∃ q ∈ (PortalCompleted chain_state_visbits 1).portals,
        testLeafBit q.visbits 0 = true ∧ testLeafBit q.mightsee 0 = false := by decide
    obtain ⟨q, hq, a, b⟩ := hex
    rw [h q hq 0 a] at b
    exact absurd b (by simp)

/-- C1, witness: the chain satisfies both hypotheses and still does after each of
the operations. -/
theorem C1_witness :
    (visbits_subset_mightsee chain_state ∧ unprocessed_visbits_empty chain_state) ∧
    (visbits_subset_mightsee (PortalCompleted chain_state 1) ∧
      unprocessed_visbits_empty (PortalCompleted chain_state 1)) :=
  ⟨chain_state_inv,
    (C1_visbits_subset_mightsee_preserved chain_state chain_state_inv.1 chain_state_inv.2).2.1 1⟩

/-- C2, witness: portal 3 of the chain across PortalCompleted on portal 1. -/
theorem C2_witness :
    chain_state.portals[3]? = some chain_portal3 ∧
    ∃ q2, (PortalCompleted chain_state 1).portals[3]? = some q2 ∧
      leafbits_subset q2.mightsee chain_portal3.mightsee ∧
      popcount q2.mightsee ≤ popcount chain_portal3.mightsee :=
  ⟨rfl, C2_mightsee_only_shrinks chain_state 3 chain_portal3 rfl _ (Or.inr (Or.inl ⟨1, rfl⟩))⟩

/-- C3, witness: on the chain GetNextPortal selects portal 2, which was
unprocessed and is then in progress. -/
theorem C3_witness :
    (GetNextPortal chain_state).1 = some 2 ∧
    statusAt chain_state 2 = some pstat_none ∧
    statusAt (GetNextPortal chain_state).2 2 = some pstat_working :=
  ⟨by decide,
    ((C3_status_transitions (fun _ _ => [])).1 chain_state 2 (by decide)).1,
    ((C3_status_transitions (fun _ _ => [])).1 chain_state 2 (by decide)).2.1⟩

theorem chain_state_range : ∀ q ∈ chain_state.portals, q.status = pstat_none →
    0 ≤ q.nummightsee ∧ q.nummightsee < (INT_MAX : Int) := by
  intro q hq _
  simp only [chain_state, List.mem_cons, List.mem_singleton, List.not_mem_nil, or_false] at hq
  rcases hq with rfl | rfl | rfl | rfl <;> simp [chain_portal0, chain_portal1, chain_portal2,
    chain_portal3, INT_MAX]

/-- C4, witness: the chain has unprocessed portals, with counts in range, and
GetNextPortal returns portal 2, the one with the least count. -/
theorem C4_witness :
    (∀ q ∈ chain_state.portals, q.status = pstat_none →
      0 ≤ q.nummightsee ∧ q.nummightsee < (INT_MAX : Int)) ∧
    (GetNextPortal chain_state).1 = some 2 ∧
    (∃ p q, (GetNextPortal chain_state).1 = some p ∧ chain_state.portals[p]? = some q ∧
      q.status = pstat_none ∧
      ∀ p2 q2, chain_state.portals[p2]? = some q2 → q2.status = pstat_none →
        q.nummightsee ≤ q2.nummightsee ∧ (q2.nummightsee = q.nummightsee → p ≤ p2)) :=
  ⟨chain_state_range, by decide,
    (C4_selection_policy chain_state chain_state_range).1 ⟨chain_portal2, by decide, rfl⟩⟩

/-- The scan of `GetNextPortal` starts from `min = INT_MAX` and takes a portal only
when its count is below `min`: an unprocessed portal whose count is `INT_MAX` is
not returned. -/
theorem GetNextPortal_sentinel :
    (GetNextPortal { portals := [{ status := pstat_none, nummightsee := 2147483647 }] }).1 = none := by
  decide

/-- C5, witness: completing portal 1 of the chain clears bit 0 of the mightsee of
portal 3. -/
theorem C5_witness :
    chain_state.portals[3]? = some chain_portal3 ∧
    (PortalCompleted chain_state 1).portals[3]? =
      some { chain_portal3 with mightsee := [2], nummightsee := 1 } ∧
    (0 = PortalCompleted_leafnum chain_state 1 ∧ chain_portal3.status = pstat_none ∧
      ∃ X, onLeaf chain_state X 3 ∧
        nobody_sees (setStatus chain_state 1 pstat_done) (PortalCompleted_leafnum chain_state 1) X) :=
  ⟨rfl, rfl, C5_elimination_sound chain_state 1 3 0 chain_portal3
    { chain_portal3 with mightsee := [2], nummightsee := 1 } rfl rfl (by decide) (by decide)⟩

theorem LoadPortals_one_portal :
    LoadPortals 4 flat_plane_of 2 one_portal_prt = .ok one_portal_state := rfl

/-- C6, counterexample: in the graph LoadPortals builds from one portal joining
leaves 0 and 1, portal 0 is entered in the list of leaf 0 and not in the list of
leaf 1, yet on its completion PortalCompleted examines leaf 1. -/
theorem C6_counterexample :
    LoadPortals 4 flat_plane_of 2 one_portal_prt = .ok one_portal_state ∧
    onLeaf one_portal_state 0 0 ∧ ¬ onLeaf one_portal_state 1 0 ∧
    PortalCompleted_leafnum one_portal_state 0 = 1 ∧
    PortalCompleted_leafnum one_portal_state 0 ≠ 0 := by
  refine ⟨rfl, ⟨0, by decide, by decide⟩, ?_, by decide, by decide⟩
  rintro ⟨k, hk, h⟩
  have hk0 : k = 0 := by
    have : k < 1 := hk
    omega
  subst hk0
  exact absurd h (by decide)

/-- C6, witness: the graph built from one portal joining leaves 0 and 1. -/
theorem C6_witness :
    LoadPortals 4 flat_plane_of 2 one_portal_prt = .ok one_portal_state ∧
    onLeaf one_portal_state 0 0 ∧ onLeaf one_portal_state 1 1 :=
  ⟨rfl,
    (C6_examined_leaf 4 flat_plane_of 2 one_portal_prt one_portal_state rfl 0
      { winding := [], leafnums := (0, 1) } rfl (by decide) (by decide)).1,
    (C6_examined_leaf 4 flat_plane_of 2 one_portal_prt one_portal_state rfl 0
      { winding := [], leafnums := (0, 1) } rfl (by decide) (by decide)).2.1⟩

/-- C7, witness: the chain in fast mode. -/
theorem C7_witness :
    ∀ q2 ∈ (CalcPortalVis true (fun _ _ => []) chain_state).portals,
      q2.visbits = q2.mightsee ∧ q2.status = pstat_done :=
  (C7_fast_mode (fun _ _ => []) chain_state).1


theorem chain_done_all_done : ∀ q ∈ chain_done.portals, q.status = pstat_done := by decide

/-- C8, witness: cluster 1 of the finished chain, whose portals 1 and 2 see leaves
0 and 2. -/
theorem C8_witness :
    ∃ row, ClusterFlow_accumulate chain_done 1 [0] = .ok row ∧
      ∀ b, b < chain_done.portalleafs →
        (testLeafBit row b = true ↔
          b = 1 ∨ ∃ (i p : Nat) (q : visportal_t), i < (leafAt chain_done 1).numportals ∧
            (leafAt chain_done 1).portals[i]? = some p ∧ chain_done.portals[p]? = some q ∧
            testLeafBit q.visbits b = true) :=
  C8_accumulated_row chain_done 1 [0] (by decide) rfl
    (testLeafBit_of_zero [0] (by decide))
    (fun _ _ q _ _ hq => chain_done_all_done q (List.getElem?_mem hq))

theorem chain_cluster1_ok :
    ClusterFlow id chain_done chain_assembler 1 [0] = .ok (chain_cluster1.1, chain_cluster1.2) :=
  rfl

/-- C9, witness: the row of cluster 1 of the finished chain, which sees all three
clusters, expanded to the four real leaves. -/
theorem C9_witness :
    (ClusterFlow id chain_done chain_assembler 1 [0] = .ok (chain_cluster1.1, chain_cluster1.2) ∧
      chain_cluster1.1 = [7] ∧ chain_cluster1.2.uncompressed.getD 8 0 = 15) ∧
    ∃ buf a2, ClusterFlow id chain_done chain_assembler 1 [0] = .ok (buf, a2) ∧
      ClusterFlow_accumulate chain_done 1 [0] = .ok buf ∧
      (chain_assembler.q2 = false → ∀ i, i < chain_assembler.portalleafs_real →
        testRowBit a2.uncompressed (1 * chain_assembler.leafbytes_real) i =
          testLeafBit buf (toSize (clusterOf chain_assembler (i + 1)))) :=
  ⟨⟨chain_cluster1_ok, by decide, by decide⟩,
    (C9_expanded_row id chain_done chain_assembler 1 [0]
      (fun _ _ q _ _ hq => chain_done_all_done q (List.getElem?_mem hq))
      (by decide) (by decide)).imp
      (fun _ h => h.imp (fun _ h2 => ⟨h2.1, h2.2.1, h2.2.2.1⟩))⟩

theorem chain_assembler_clusters (i : Nat) :
    -2147483648 ≤ clusterOf chain_assembler i ∧ clusterOf chain_assembler i < 2147483648 := by
  unfold clusterOf chain_assembler
  rcases i with _ | _ | _ | _ | _ | i <;> simp

/-- C10, witness: cluster 1 of three leaves without portals; its row has exactly
the bits of the real leaves 2 and 3. -/
theorem C10_witness :
    (leafAt isolated_state 1).numportals = 0 ∧
    ∃ buf a2, ClusterFlow id isolated_state chain_assembler 1 [0] = .ok (buf, a2) ∧
      ∀ i, i < 8 * ((ClusterFlow_rowbits isolated_state chain_assembler + 7) >>> 3) →
        (testRowBit a2.uncompressed (ClusterFlow_base chain_assembler 1) i = true ↔
          if chain_assembler.q2 then i = 1
          else (i < chain_assembler.portalleafs_real ∧
            clusterOf chain_assembler (i + 1) = ((1 : Nat) : Int))) :=
  ⟨rfl, C10_isolated_cluster id isolated_state chain_assembler 1 [0] (by decide) (by decide) rfl rfl
    (testLeafBit_of_zero [0] (by decide)) chain_assembler_clusters (by decide) (by decide)⟩


/-! ## The run-length codec is lossless -/

theorem DecompressRow_literal (numbytes b : Nat) (rest out : List Nat) (hb : b ≠ 0)
    (h : ¬ numbytes ≤ out.length) :
    DecompressRow numbytes (b :: rest) out = DecompressRow numbytes rest (out ++ [b]) := by
  cases rest with
  | nil => simp [DecompressRow, h, hb]
  | cons c r => simp [DecompressRow, h, hb]

theorem DecompressRow_pair (numbytes c : Nat) (rest out : List Nat)
    (h : ¬ numbytes ≤ out.length) :
    DecompressRow numbytes (0 :: c :: rest) out =
      DecompressRow numbytes rest (out ++ List.replicate c 0) := by
  simp [DecompressRow, h]

theorem DecompressRow_run (numbytes : Nat) (rest : List Nat) :
    ∀ (rep : Nat) (out : List Nat),
      numbytes = out.length + rep + rest.length →
      DecompressRow numbytes (CompressRow_run rest rep) out =
        out ++ List.replicate rep 0 ++ rest := by
  induction rest with
  | nil =>
    intro rep out hn
    cases rep with
    | zero => simp [CompressRow_run, DecompressRow]
    | succ r =>
      have h : ¬ numbytes ≤ out.length := by simp at hn; omega
      simp only [CompressRow_run]
      rw [DecompressRow_pair _ _ _ _ h]
      simp [DecompressRow]
  | cons b rest ih =>
    intro rep out hn
    simp only [List.length_cons] at hn
    have h : ¬ numbytes ≤ out.length := by omega
    cases rep with
    | zero =>
      unfold CompressRow_run
      by_cases hb : b = 0
      · subst hb
        rw [if_pos rfl, ih 1 out (by omega)]
        simp
      · rw [if_neg hb, DecompressRow_literal _ _ _ _ hb h, ih 0 (out ++ [b]) (by simp; omega)]
        simp
    | succ r =>
      unfold CompressRow_run
      by_cases hb : b = 0
      · subst hb
        rw [if_pos rfl]
        by_cases hr : r + 1 < 255
        · rw [if_pos hr, ih (r + 2) out (by omega)]
          simp [List.replicate_succ', List.append_assoc]
        · rw [if_neg hr, DecompressRow_pair _ _ _ _ h, ih 1 _ (by simp; omega)]
          simp [List.replicate_succ', List.append_assoc]
      · rw [if_neg hb, DecompressRow_pair _ _ _ _ h,
          DecompressRow_literal _ _ _ _ hb (by simp; omega), ih 0 _ (by simp; omega)]
        simp [List.append_assoc]

/-- C12: decoding the encoding of a byte row R up to the row length returns R, for
every row (all-zero and all-set rows included); encoding writes a run of zero
bytes as a zero byte followed by a repeat count byte and every other byte
literally. -/
theorem C12_rle_lossless (R : List Nat) :
    DecompressRow R.length (CompressRow R) [] = R := by
  unfold CompressRow
  rw [DecompressRow_run R.length R 0 [] (by simp)]
  simp


/-- C12, witness: a row with two runs of zero bytes, an all-set row and an
all-zero row. -/
theorem C12_witness :
    CompressRow [0, 0, 0, 5, 0, 7] = [0, 3, 5, 0, 1, 7] ∧
    DecompressRow 6 [0, 3, 5, 0, 1, 7] [] = [0, 0, 0, 5, 0, 7] ∧
    CompressRow [255, 255, 255] = [255, 255, 255] ∧
    CompressRow [0, 0, 0, 0] = [0, 4] ∧
    DecompressRow 4 (CompressRow [0, 0, 0, 0]) [] = [0, 0, 0, 0] :=
  ⟨by decide, by decide, by decide, by decide, C12_rle_lossless [0, 0, 0, 0]⟩

/-! ## The output blob and the offsets of the rows -/

theorem ClipStackWinding_side_on (L : vis_limits) (d : ℚ) :
    ClipStackWinding_side L d = SIDE_ON ↔ |d| ≤ L.VIS_ON_EPSILON := by
  unfold ClipStackWinding_side SIDE_FRONT SIDE_BACK SIDE_ON
  rw [abs_le]
  by_cases h1 : d > L.VIS_ON_EPSILON
  · simp only [h1, if_true]
    constructor
    · intro h; cases h
    · intro h; exact absurd h.2 (not_le.2 h1)
  · by_cases h2 : d < -L.VIS_ON_EPSILON
    · simp only [h1, h2, if_true, if_false]
      constructor
      · intro h; cases h
      · intro h; exact absurd h.1 (not_le.2 h2)
    · simp only [h1, h2, if_false, true_iff]
      exact ⟨not_lt.1 h2, not_lt.1 h1⟩

theorem ClipStackWinding_count_on (L : vis_limits) (split : qplane3d) (pts : List qvec3d) :
    ClipStackWinding_count L split pts SIDE_ON = pts.length ↔
      ∀ p ∈ pts, ClipStackWinding_side L (split.distance_to p) = SIDE_ON := by
  unfold ClipStackWinding_count
  have h := List.count_eq_length (a := SIDE_ON)
    (l := pts.map (fun p => ClipStackWinding_side L (split.distance_to p)))
  rw [List.length_map] at h
  rw [h]
  simp only [List.mem_map, forall_exists_index, and_imp, forall_apply_eq_imp_iff₂]
  exact ⟨fun h p hp => (h p hp).symm, fun h p hp => (h p hp).symm⟩

theorem ClipStackWinding_count_zero (L : vis_limits) (split : qplane3d) (pts : List qvec3d)
    (k : Nat) :
    ClipStackWinding_count L split pts k = 0 ↔
      ∀ p ∈ pts, ClipStackWinding_side L (split.distance_to p) ≠ k := by
  unfold ClipStackWinding_count
  rw [List.count_eq_zero]
  simp only [List.mem_map, not_exists, not_and]

theorem ClipStackWinding_side_cases (L : vis_limits) (d : ℚ) :
    ClipStackWinding_side L d = SIDE_FRONT ∨ ClipStackWinding_side L d = SIDE_BACK ∨
      ClipStackWinding_side L d = SIDE_ON := by
  unfold ClipStackWinding_side
  split
  · exact Or.inl rfl
  · split
    · exact Or.inr (Or.inl rfl)
    · exact Or.inr (Or.inr rfl)

/-- C13: when the fast test does not decide and every vertex is within
`VIS_ON_EPSILON` of the plane (the winding having at most `MAX_WINDING` points, so
that the size check passes), `ClipStackWinding` returns the input pointer and
leaves the pool and the counter as they were. -/
theorem C13_coplanar_returns_input (L : vis_limits) (inp : winding_ptr) (stack : pstack_t)
    (split : qplane3d) (c_noclip : Int)
    (hfast1 : ¬ split.distance_to (winding_at stack inp).origin < -(winding_at stack inp).radius)
    (hfast2 : ¬ split.distance_to (winding_at stack inp).origin > (winding_at stack inp).radius)
    (hsize : (winding_at stack inp).points.length ≤ L.MAX_WINDING)
    (hon : ∀ p ∈ (winding_at stack inp).points, |split.distance_to p| ≤ L.VIS_ON_EPSILON) :
    ClipStackWinding L inp stack split c_noclip = .ok (some inp, stack, c_noclip) := by
  have h1 : ClipStackWinding_count L split (winding_at stack inp).points SIDE_ON =
      (winding_at stack inp).points.length :=
    (ClipStackWinding_count_on L split _).2
      (fun p hp => (ClipStackWinding_side_on L _).2 (hon p hp))
  unfold ClipStackWinding
  simp only [hfast1, hfast2, if_false, not_lt.2 hsize, h1, if_true]

/-- C14: when the fast test does not decide (the winding having at most
`MAX_WINDING` points): if no vertex is classified back, `ClipStackWinding` returns
the input pointer and leaves the pool as it was; if no vertex is classified front
and some vertex is not on, it returns null and the pool is the one
`FreeStackWinding` leaves for the input, which for a slot of the pool has the
flag of that slot cleared and nothing else changed, and for any other winding is
the pool as it was. -/
theorem C14_one_sided (L : vis_limits) (inp : winding_ptr) (stack : pstack_t)
    (split : qplane3d) (c_noclip : Int)
    (hfast1 : ¬ split.distance_to (winding_at stack inp).origin < -(winding_at stack inp).radius)
    (hfast2 : ¬ split.distance_to (winding_at stack inp).origin > (winding_at stack inp).radius)
    (hsize : (winding_at stack inp).points.length ≤ L.MAX_WINDING) :
    ((∀ p ∈ (winding_at stack inp).points,
        ClipStackWinding_side L (split.distance_to p) ≠ SIDE_BACK) →
      ClipStackWinding L inp stack split c_noclip = .ok (some inp, stack, c_noclip)) ∧
    ((∀ p ∈ (winding_at stack inp).points,
        ClipStackWinding_side L (split.distance_to p) ≠ SIDE_FRONT) →
      (∃ p ∈ (winding_at stack inp).points,
        ClipStackWinding_side L (split.distance_to p) ≠ SIDE_ON) →
      ClipStackWinding L inp stack split c_noclip =
          .ok (none, (FreeStackWinding L inp stack).2, c_noclip) ∧
        (∀ i, inp = .slot i → i < L.STACK_WINDINGS → i < stack.windings_used.length →
          (FreeStackWinding L inp stack).2 =
            { stack with windings_used := stack.windings_used.set i false }) ∧
        (∀ w, inp = .other w → (FreeStackWinding L inp stack).2 = stack)) := by
  refine ⟨?_, ?_⟩
  · intro hnb
    unfold ClipStackWinding
    simp only [hfast1, hfast2, if_false, not_lt.2 hsize]
    by_cases hon : ClipStackWinding_count L split (winding_at stack inp).points SIDE_ON =
        (winding_at stack inp).points.length
    · simp only [hon, if_true]
    · simp only [hon, if_false]
      by_cases hf : ClipStackWinding_count L split (winding_at stack inp).points 0 = 0
      · exfalso
        apply hon
        rw [ClipStackWinding_count_on]
        intro p hp
        rcases ClipStackWinding_side_cases L (split.distance_to p) with h | h | h
        · exact absurd h ((ClipStackWinding_count_zero L split _ 0).1 hf p hp)
        · exact absurd h (hnb p hp)
        · exact h
      · simp only [hf, if_false]
        have hb : ClipStackWinding_count L split (winding_at stack inp).points 1 = 0 :=
          (ClipStackWinding_count_zero L split _ 1).2 hnb
        simp only [hb, if_true]
  · intro hnf hnon
    refine ⟨?_, ?_, ?_⟩
    · have hon : ¬ ClipStackWinding_count L split (winding_at stack inp).points SIDE_ON =
          (winding_at stack inp).points.length := by
        rw [ClipStackWinding_count_on]
        intro hall
        obtain ⟨p, hp, hne⟩ := hnon
        exact hne (hall p hp)
      have hf : ClipStackWinding_count L split (winding_at stack inp).points 0 = 0 :=
        (ClipStackWinding_count_zero L split _ 0).2 hnf
      unfold ClipStackWinding
      simp only [hfast1, hfast2, if_false, not_lt.2 hsize, hon, hf, if_true]
    · intro i hi h1 h2
      subst hi
      unfold FreeStackWinding
      simp only [Nat.le_of_lt h1, if_true]
      have : decide (stack.windings_used.length ≤ i) = false := by
        simp only [decide_eq_false_iff_not, not_le]; exact h2
      rw [this, Bool.or_false]
    · intro w hw
      subst hw
      rfl

/-- C15: the fast path of `ClipStackWinding`. When the distance of the cached
origin to the plane is below minus the cached radius, the result is null and the
pool is the one `FreeStackWinding` leaves for the input; when it is above the
radius (a radius that is not negative), the result is the input pointer and the
pool is as it was. In both cases the outcome is the same whatever points the
input winding holds. -/
theorem C15_fast_path (L : vis_limits) (inp : winding_ptr) (stack : pstack_t)
    (split : qplane3d) (c_noclip : Int) :
    (split.distance_to (winding_at stack inp).origin < -(winding_at stack inp).radius →
      ClipStackWinding L inp stack split c_noclip =
          .ok (none, (FreeStackWinding L inp stack).2, c_noclip) ∧
        ∀ pts, ClipStackWinding L (winding_with_points inp stack pts).1
          (winding_with_points inp stack pts).2 split c_noclip =
            .ok (none, (FreeStackWinding L (winding_with_points inp stack pts).1
              (winding_with_points inp stack pts).2).2, c_noclip)) ∧
    (0 ≤ (winding_at stack inp).radius →
      split.distance_to (winding_at stack inp).origin > (winding_at stack inp).radius →
      ClipStackWinding L inp stack split c_noclip = .ok (some inp, stack, c_noclip) ∧
        ∀ pts, ClipStackWinding L (winding_with_points inp stack pts).1
          (winding_with_points inp stack pts).2 split c_noclip =
            .ok (some (winding_with_points inp stack pts).1,
              (winding_with_points inp stack pts).2, c_noclip)) := by
  have key : ∀ pts,
      (winding_at (winding_with_points inp stack pts).2 (winding_with_points inp stack pts).1).origin =
        (winding_at stack inp).origin ∧
      (winding_at (winding_with_points inp stack pts).2 (winding_with_points inp stack pts).1).radius =
        (winding_at stack inp).radius := by
    intro pts
    cases inp with
    | slot i =>
      simp only [winding_with_points, winding_at]
      by_cases hi : i < stack.windings.length
      · simp [List.getD_eq_getElem?_getD, List.getElem?_set, hi]
      · rw [List.set_eq_of_length_le (not_lt.1 hi)]
        exact ⟨rfl, rfl⟩
    | other w => exact ⟨rfl, rfl⟩
  have low : ∀ (inp : winding_ptr) (stack : pstack_t),
      split.distance_to (winding_at stack inp).origin < -(winding_at stack inp).radius →
      ClipStackWinding L inp stack split c_noclip =
          .ok (none, (FreeStackWinding L inp stack).2, c_noclip) := by
    intro inp stack h
    unfold ClipStackWinding
    simp only [h, if_true]
  have high : ∀ (inp : winding_ptr) (stack : pstack_t),
      0 ≤ (winding_at stack inp).radius →
      split.distance_to (winding_at stack inp).origin > (winding_at stack inp).radius →
      ClipStackWinding L inp stack split c_noclip = .ok (some inp, stack, c_noclip) := by
    intro inp stack h0 h
    have h1 : ¬ split.distance_to (winding_at stack inp).origin < -(winding_at stack inp).radius := by
      intro h2
      have h3 := lt_trans h h2
      linarith
    unfold ClipStackWinding
    simp only [h1, h, if_true, if_false]
  refine ⟨fun h => ⟨low inp stack h, fun pts => low _ _ ?_⟩,
    fun h0 h => ⟨high inp stack h0 h, fun pts => high _ _ ?_ ?_⟩⟩
  · rw [(key pts).1, (key pts).2]; exact h
  · rw [(key pts).2]; exact h0
  · rw [(key pts).1, (key pts).2]; exact h

theorem winding_at_demo : winding_at demo_stack (.slot 0) = demo_square := rfl

/-- C13, witness: the square of the pool against the plane `z = 0` that holds it. -/
theorem C13_witness :
    ((¬ plane_z.distance_to (winding_at demo_stack (.slot 0)).origin <
        -(winding_at demo_stack (.slot 0)).radius) ∧
      (¬ plane_z.distance_to (winding_at demo_stack (.slot 0)).origin >
        (winding_at demo_stack (.slot 0)).radius) ∧
      (winding_at demo_stack (.slot 0)).points.length ≤ demo_limits.MAX_WINDING ∧
      ∀ p ∈ (winding_at demo_stack (.slot 0)).points,
        |plane_z.distance_to p| ≤ demo_limits.VIS_ON_EPSILON) ∧
    ClipStackWinding demo_limits (.slot 0) demo_stack plane_z 0 =
      .ok (some (.slot 0), demo_stack, 0) :=
  ⟨⟨by rw [winding_at_demo]; norm_num [demo_square, plane_z, qplane3d.distance_to],
      by rw [winding_at_demo]; norm_num [demo_square, plane_z, qplane3d.distance_to],
      by rw [winding_at_demo]; simp [demo_square, demo_limits],
      by rw [winding_at_demo]; norm_num [demo_square, plane_z, qplane3d.distance_to, demo_limits]⟩,
    C13_coplanar_returns_input demo_limits (.slot 0) demo_stack plane_z 0
      (by rw [winding_at_demo]; norm_num [demo_square, plane_z, qplane3d.distance_to])
      (by rw [winding_at_demo]; norm_num [demo_square, plane_z, qplane3d.distance_to])
      (by rw [winding_at_demo]; simp [demo_square, demo_limits])
      (by rw [winding_at_demo]; norm_num [demo_square, plane_z, qplane3d.distance_to, demo_limits])⟩

/-- C14, witness: the square against the plane `x = 0`, facing either way: no
vertex is behind the plane facing the square, none is in front of the opposite
one. -/
theorem C14_witness :
    ((∀ p ∈ (winding_at demo_stack (.slot 0)).points,
        ClipStackWinding_side demo_limits ((plane_x 0).distance_to p) ≠ SIDE_BACK) ∧
      ClipStackWinding demo_limits (.slot 0) demo_stack (plane_x 0) 0 =
        .ok (some (.slot 0), demo_stack, 0)) ∧
    ((∀ p ∈ (winding_at demo_stack (.slot 0)).points,
        ClipStackWinding_side demo_limits ((plane_x 0).neg.distance_to p) ≠ SIDE_FRONT) ∧
      (∃ p ∈ (winding_at demo_stack (.slot 0)).points,
        ClipStackWinding_side demo_limits ((plane_x 0).neg.distance_to p) ≠ SIDE_ON) ∧
      ClipStackWinding demo_limits (.slot 0) demo_stack (plane_x 0).neg 0 =
        .ok (none, { demo_stack with windings_used := [false, false, false] }, 0)) :=
  ⟨⟨by rw [winding_at_demo]
       norm_num [demo_square, plane_x, qplane3d.distance_to, demo_limits,
         ClipStackWinding_side, SIDE_FRONT, SIDE_BACK, SIDE_ON],
      (C14_one_sided demo_limits (.slot 0) demo_stack (plane_x 0) 0
        (by rw [winding_at_demo]; norm_num [demo_square, plane_x, qplane3d.distance_to])
        (by rw [winding_at_demo]; norm_num [demo_square, plane_x, qplane3d.distance_to])
        (by rw [winding_at_demo]; simp [demo_square, demo_limits])).1
        (by rw [winding_at_demo]
            norm_num [demo_square, plane_x, qplane3d.distance_to, demo_limits,
              ClipStackWinding_side, SIDE_FRONT, SIDE_BACK, SIDE_ON])⟩,
    by rw [winding_at_demo]
       norm_num [demo_square, plane_x, qplane3d.distance_to, qplane3d.neg, demo_limits,
         ClipStackWinding_side, SIDE_FRONT, SIDE_BACK, SIDE_ON],
    by rw [winding_at_demo]
       norm_num [demo_square, plane_x, qplane3d.distance_to, qplane3d.neg, demo_limits,
         ClipStackWinding_side, SIDE_FRONT, SIDE_BACK, SIDE_ON],
    ((C14_one_sided demo_limits (.slot 0) demo_stack (plane_x 0).neg 0
        (by rw [winding_at_demo]; norm_num [demo_square, plane_x, qplane3d.distance_to, qplane3d.neg])
        (by rw [winding_at_demo]; norm_num [demo_square, plane_x, qplane3d.distance_to, qplane3d.neg])
        (by rw [winding_at_demo]; simp [demo_square, demo_limits])).2
        (by rw [winding_at_demo]
            norm_num [demo_square, plane_x, qplane3d.distance_to, qplane3d.neg, demo_limits,
              ClipStackWinding_side, SIDE_FRONT, SIDE_BACK, SIDE_ON])
        (by rw [winding_at_demo]
            norm_num [demo_square, plane_x, qplane3d.distance_to, qplane3d.neg, demo_limits,
              ClipStackWinding_side, SIDE_FRONT, SIDE_BACK, SIDE_ON])).1⟩

/-- C15, witness: the square against the planes `x = 5` (the square is behind)
and `x = -5` (the square is in front). -/
theorem C15_witness :
    ((plane_x 5).distance_to (winding_at demo_stack (.slot 0)).origin <
        -(winding_at demo_stack (.slot 0)).radius ∧
      ClipStackWinding demo_limits (.slot 0) demo_stack (plane_x 5) 0 =
        .ok (none, { demo_stack with windings_used := [false, false, false] }, 0)) ∧
    (0 ≤ (winding_at demo_stack (.slot 0)).radius ∧
      (plane_x (-5)).distance_to (winding_at demo_stack (.slot 0)).origin >
        (winding_at demo_stack (.slot 0)).radius ∧
      ClipStackWinding demo_limits (.slot 0) demo_stack (plane_x (-5)) 0 =
        .ok (some (.slot 0), demo_stack, 0)) :=
  ⟨⟨by rw [winding_at_demo]; norm_num [demo_square, plane_x, qplane3d.distance_to],
      ((C15_fast_path demo_limits (.slot 0) demo_stack (plane_x 5) 0).1
        (by rw [winding_at_demo]; norm_num [demo_square, plane_x, qplane3d.distance_to])).1⟩,
    by rw [winding_at_demo]; norm_num [demo_square],
    by rw [winding_at_demo]; norm_num [demo_square, plane_x, qplane3d.distance_to],
    ((C15_fast_path demo_limits (.slot 0) demo_stack (plane_x (-5)) 0).2
      (by rw [winding_at_demo]; norm_num [demo_square])
      (by rw [winding_at_demo]; norm_num [demo_square, plane_x, qplane3d.distance_to])).1⟩


/-! ## The point loop and the capacity fallback -/

theorem ClipStackWinding_pushes_stay (L : vis_limits) (es : List qvec3d)
    (st : List qvec3d × Bool) (h : st.2 = true) : ClipStackWinding_pushes L st es = st := by
  cases es with
  | nil => rfl
  | cons e rest => rw [ClipStackWinding_pushes, if_pos h]

theorem ClipStackWinding_pushes_spec (L : vis_limits) (es : List qvec3d) :
    ∀ (acc : List qvec3d), acc.length ≤ L.MAX_WINDING_FIXED →
      ClipStackWinding_pushes L (acc, false) es =
        if acc.length + es.length ≤ L.MAX_WINDING_FIXED then (acc ++ es, false)
        else (acc ++ es.take (L.MAX_WINDING_FIXED - acc.length), true) := by
  induction es with
  | nil => intro acc h; simp [ClipStackWinding_pushes, h]
  | cons e rest ih =>
    intro acc h
    rw [ClipStackWinding_pushes]
    simp only [Bool.false_eq_true, if_false]
    unfold ClipStackWinding_push
    by_cases hfull : acc.length = L.MAX_WINDING_FIXED
    · rw [if_pos hfull, ClipStackWinding_pushes_stay L rest _ rfl]
      have : ¬ (acc.length + (e :: rest).length ≤ L.MAX_WINDING_FIXED) := by
        simp only [List.length_cons]; omega
      rw [if_neg this, hfull, Nat.sub_self, List.take_zero, List.append_nil]
    · rw [if_neg hfull]
      have hlt : acc.length < L.MAX_WINDING_FIXED := lt_of_le_of_ne h hfull
      rw [ih (acc ++ [e]) (by simp only [List.length_append, List.length_singleton]; omega)]
      simp only [List.length_append, List.length_cons, List.length_nil]
      by_cases hfit : acc.length + (rest.length + 1) ≤ L.MAX_WINDING_FIXED
      · rw [if_pos hfit, if_pos (by omega)]
        simp
      · rw [if_neg hfit, if_neg (by omega)]
        have : L.MAX_WINDING_FIXED - acc.length =
            (L.MAX_WINDING_FIXED - (acc.length + (0 + 1))) + 1 := by
          omega
        rw [this, List.take_succ_cons]
        simp

theorem ClipStackWinding_pushes_append (L : vis_limits) (a : List qvec3d) :
    ∀ (st : List qvec3d × Bool) (b : List qvec3d),
      ClipStackWinding_pushes L st (a ++ b) =
        ClipStackWinding_pushes L (ClipStackWinding_pushes L st a) b := by
  induction a with
  | nil => intro st b; rfl
  | cons e rest ih =>
    intro st b
    rw [List.cons_append, ClipStackWinding_pushes, ClipStackWinding_pushes]
    by_cases h : st.2 = true
    · rw [if_pos h, if_pos h, ClipStackWinding_pushes_stay L b st h]
    · rw [if_neg h, if_neg h, ih]

/-- One iteration of the point loop pushes the points of `ClipStackWinding_emit`
for its index. -/
theorem ClipStackWinding_step_eq (L : vis_limits) (split : qplane3d) (pts : List qvec3d)
    (sides : List Nat) (dists : List ℚ) (st : List qvec3d × Bool) (i : Nat) :
    ClipStackWinding_step L split pts sides dists st i =
      ClipStackWinding_pushes L st (ClipStackWinding_emit split pts sides dists i) := by
  obtain ⟨a, b⟩ := st
  cases b with
  | true =>
    rw [ClipStackWinding_pushes_stay L _ _ rfl]
    unfold ClipStackWinding_step
    rfl
  | false =>
    unfold ClipStackWinding_step ClipStackWinding_emit
    simp only [Bool.false_eq_true, if_false]
    by_cases hon : sides.getD i SIDE_ON = SIDE_ON
    · simp only [hon, if_true, ClipStackWinding_pushes, Bool.false_eq_true, if_false]
    · simp only [hon, if_false]
      by_cases hfr : sides.getD i SIDE_ON = SIDE_FRONT
      · simp only [hfr, if_true, List.singleton_append, ClipStackWinding_pushes,
          Bool.false_eq_true, if_false]
        by_cases hj : (ClipStackWinding_push L a
            (pts.getD i { x := 0, y := 0, z := 0 })).2 = true
        · rw [if_pos hj, ClipStackWinding_pushes_stay L _ _ hj]
        · rw [if_neg hj]
          split
          · rfl
          · simp only [ClipStackWinding_pushes, hj, Bool.false_eq_true, if_false]
      · simp only [hfr, if_false, List.nil_append, Bool.false_eq_true]
        split
        · rfl
        · simp only [ClipStackWinding_pushes, Bool.false_eq_true, if_false]

theorem ClipStackWinding_fold_eq (L : vis_limits) (split : qplane3d) (pts : List qvec3d)
    (sides : List Nat) (dists : List ℚ) (l : List Nat) :
    ∀ (st : List qvec3d × Bool),
      l.foldl (ClipStackWinding_step L split pts sides dists) st =
        ClipStackWinding_pushes L st (l.flatMap (ClipStackWinding_emit split pts sides dists)) := by
  induction l with
  | nil => intro st; rfl
  | cons i rest ih =>
    intro st
    rw [List.foldl_cons, List.flatMap_cons, ClipStackWinding_pushes_append, ih,
      ClipStackWinding_step_eq]

/-- The point loop pushes the points of the clipped polygon while they fit: its
result is the clipped polygon when that has at most `MAX_WINDING_FIXED` points,
and the jump to `noclip` with the first `MAX_WINDING_FIXED` points otherwise. -/
theorem ClipStackWinding_loop_eq (L : vis_limits) (split : qplane3d) (pts : List qvec3d) :
    ClipStackWinding_loop L split pts (ClipStackWinding_sides L split pts)
        (ClipStackWinding_dists split pts) =
      if (ClipStackWinding_wanted L split pts).length ≤ L.MAX_WINDING_FIXED
      then (ClipStackWinding_wanted L split pts, false)
      else ((ClipStackWinding_wanted L split pts).take L.MAX_WINDING_FIXED, true) := by
  unfold ClipStackWinding_loop
  rw [ClipStackWinding_fold_eq]
  have h2 := ClipStackWinding_pushes_spec L (ClipStackWinding_wanted L split pts) []
    (Nat.zero_le _)
  simp only [List.length_nil, Nat.zero_add, List.nil_append, Nat.sub_zero] at h2
  exact h2


/-! ## The pool across a call of the clipper -/

/-- What a successful `AllocStackWinding` does: the slot is below
`STACK_WINDINGS` and was free; its flag is set, its points are cleared, and
nothing else changes. -/
theorem AllocStackWinding_ok (L : vis_limits) (stack : pstack_t) (k : Nat) (stack1 : pstack_t)
    (h : AllocStackWinding L stack = .ok (k, stack1)) :
    k < L.STACK_WINDINGS ∧ stack.windings_used[k]? = some false ∧
      stack1 = { stack with
        windings := stack.windings.set k { stack.windings.getD k {} with points := [] },
        windings_used := stack.windings_used.set k true } := by
  unfold AllocStackWinding at h
  cases hf : (List.range L.STACK_WINDINGS).find? (fun i => !(stack.windings_used.getD i true)) with
  | none => rw [hf] at h; cases h
  | some i =>
    rw [hf] at h
    simp only [Except.ok.injEq, Prod.mk.injEq] at h
    obtain ⟨h1, h2⟩ := h
    subst h1
    have hp := List.find?_some hf
    have hm := List.mem_range.1 (List.mem_of_find?_eq_some hf)
    refine ⟨hm, ?_, h2.symm⟩
    rw [List.getD_eq_getElem?_getD] at hp
    cases hu : stack.windings_used[i]? with
    | none => rw [hu] at hp; simp at hp
    | some b => rw [hu] at hp; cases b <;> simp at hp ⊢

/-- When a slot below `STACK_WINDINGS` is free, `AllocStackWinding` succeeds. -/
theorem AllocStackWinding_succeeds (L : vis_limits) (stack : pstack_t)
    (h : ∃ i, i < L.STACK_WINDINGS ∧ stack.windings_used[i]? = some false) :
    ∃ k stack1, AllocStackWinding L stack = .ok (k, stack1) := by
  obtain ⟨i, hi, hu⟩ := h
  unfold AllocStackWinding
  cases hf : (List.range L.STACK_WINDINGS).find? (fun i => !(stack.windings_used.getD i true)) with
  | none =>
    exfalso
    rw [List.find?_eq_none] at hf
    have := hf i (List.mem_range.2 hi)
    rw [List.getD_eq_getElem?_getD, hu] at this
    simp at this
  | some k => exact ⟨k, _, rfl⟩

theorem set_set_of_getElem? {α : Type} (l : List α) (k : Nat) (a b : α) (h : l[k]? = some a) :
    (l.set k b).set k a = l := by
  rw [List.set_set]
  apply List.ext_getElem?
  intro j
  rw [List.getElem?_set]
  by_cases hj : k = j
  · subst hj
    have hlt : k < l.length := by
      by_contra hc
      rw [List.getElem?_eq_none (not_lt.1 hc)] at h
      cases h
    simp [hlt, h]
  · simp [hj]

/-- The two ways the clipping part of `ClipStackWinding` ends, for an input whose
slot (if it has one) is in use: with the clipped polygon in the new slot `k` and
the input freed, when the polygon fits; with the input, the new slot freed and
the counter incremented otherwise. -/
theorem ClipStackWinding_clip_spec (L : vis_limits) (inp : winding_ptr) (stack : pstack_t)
    (split : qplane3d) (c_noclip : Int)
    (hin : ∀ i, inp = .slot i → stack.windings_used[i]? = some true)
    (k : Nat) (stack1 : pstack_t) (halloc : AllocStackWinding L stack = .ok (k, stack1)) :
    winding_ptr.slot k ≠ inp ∧ winding_at stack1 inp = winding_at stack inp ∧
    ClipStackWinding_clip L inp stack split c_noclip
        (ClipStackWinding_sides L split (winding_at stack inp).points)
        (ClipStackWinding_dists split (winding_at stack inp).points) =
      if (ClipStackWinding_wanted L split (winding_at stack inp).points).length ≤
          L.MAX_WINDING_FIXED then
        .ok (some (.slot k), (FreeStackWinding L inp { stack1 with
          windings := stack1.windings.set k
            { origin := (winding_at stack inp).origin, radius := (winding_at stack inp).radius,
              points := ClipStackWinding_wanted L split (winding_at stack inp).points } }).2,
          c_noclip)
      else
        .ok (some inp, { stack with
          windings := stack1.windings.set k
            { origin := (winding_at stack inp).origin, radius := (winding_at stack inp).radius,
              points := (ClipStackWinding_wanted L split (winding_at stack inp).points).take
                L.MAX_WINDING_FIXED } },
          wrapI32 (c_noclip + 1)) := by
  obtain ⟨hk, hfree, hs1⟩ := AllocStackWinding_ok L stack k stack1 halloc
  have hne : winding_ptr.slot k ≠ inp := by
    intro e
    have := hin k e.symm
    rw [hfree] at this
    cases this
  have hw : winding_at stack1 inp = winding_at stack inp := by
    cases inp with
    | slot i =>
      have hik : k ≠ i := fun e => hne (by rw [e])
      rw [hs1]
      simp only [winding_at, List.getD_eq_getElem?_getD, List.getElem?_set, hik, if_false]
    | other w => rfl
  refine ⟨hne, hw, ?_⟩
  unfold ClipStackWinding_clip
  rw [halloc]
  simp only [hw]
  rw [ClipStackWinding_loop_eq]
  by_cases hfit : (ClipStackWinding_wanted L split (winding_at stack inp).points).length ≤
      L.MAX_WINDING_FIXED
  · simp only [hfit, if_true, Bool.false_eq_true, if_false]
  · simp only [hfit, if_false, if_true]
    congr 2
    have hlen : k < stack.windings_used.length := by
      by_contra hc
      rw [List.getElem?_eq_none (not_lt.1 hc)] at hfree
      cases hfree
    unfold FreeStackWinding
    simp only [Nat.le_of_lt hk, if_true]
    rw [hs1]
    simp only [List.length_set, set_set_of_getElem? _ _ _ _ hfree]
    have : decide (stack.windings_used.length ≤ k) = false := by
      simp only [decide_eq_false_iff_not, not_le]; exact hlen
    rw [this, Bool.or_false]


/-! ## The capacity fallback and the ownership of the result -/

theorem wrapI32_succ (c : Int) (h1 : -2147483648 ≤ c) (h2 : c < 2147483647) :
    wrapI32 (c + 1) = c + 1 := by
  unfold wrapI32
  omega

/-- The conditions under which `ClipStackWinding` reaches its clipping part: the
fast test does not decide, the size check passes, and some vertex is in front
and some behind. -/
theorem ClipStackWinding_reaches_clip (L : vis_limits) (inp : winding_ptr) (stack : pstack_t)
    (split : qplane3d) (c_noclip : Int)
    (hfast1 : ¬ split.distance_to (winding_at stack inp).origin < -(winding_at stack inp).radius)
    (hfast2 : ¬ split.distance_to (winding_at stack inp).origin > (winding_at stack inp).radius)
    (hsize : (winding_at stack inp).points.length ≤ L.MAX_WINDING)
    (hfront : ∃ p ∈ (winding_at stack inp).points,
      ClipStackWinding_side L (split.distance_to p) = SIDE_FRONT)
    (hback : ∃ p ∈ (winding_at stack inp).points,
      ClipStackWinding_side L (split.distance_to p) = SIDE_BACK) :
    ClipStackWinding L inp stack split c_noclip =
      ClipStackWinding_clip L inp stack split c_noclip
        (ClipStackWinding_sides L split (winding_at stack inp).points)
        (ClipStackWinding_dists split (winding_at stack inp).points) := by
  have hon : ¬ ClipStackWinding_count L split (winding_at stack inp).points SIDE_ON =
      (winding_at stack inp).points.length := by
    rw [ClipStackWinding_count_on]
    intro hall
    obtain ⟨p, hp, e⟩ := hfront
    rw [hall p hp] at e
    cases e
  have hf : ¬ ClipStackWinding_count L split (winding_at stack inp).points 0 = 0 := by
    rw [ClipStackWinding_count_zero]
    intro hall
    obtain ⟨p, hp, e⟩ := hfront
    exact hall p hp e
  have hb : ¬ ClipStackWinding_count L split (winding_at stack inp).points 1 = 0 := by
    rw [ClipStackWinding_count_zero]
    intro hall
    obtain ⟨p, hp, e⟩ := hback
    exact hall p hp e
  unfold ClipStackWinding
  simp only [hfast1, hfast2, if_false, not_lt.2 hsize, hon, hf, hb]

/-- C16: the capacity fallback. When `ClipStackWinding` comes to clip (the fast
test does not decide, the winding has at most `MAX_WINDING` points, some vertex
is in front and some behind), a slot of the pool is free, the slot of the input
(if it has one) is in use, and the clipped polygon has more than
`MAX_WINDING_FIXED` points, the call succeeds: it returns the input pointer, the
counter is one more than before (for a counter below `INT_MAX`), the used flags
are what they were, and the input winding is what it was. -/
theorem C16_capacity_fallback (L : vis_limits) (inp : winding_ptr) (stack : pstack_t)
    (split : qplane3d) (c_noclip : Int)
    (hfast1 : ¬ split.distance_to (winding_at stack inp).origin < -(winding_at stack inp).radius)
    (hfast2 : ¬ split.distance_to (winding_at stack inp).origin > (winding_at stack inp).radius)
    (hsize : (winding_at stack inp).points.length ≤ L.MAX_WINDING)
    (hfront : ∃ p ∈ (winding_at stack inp).points,
      ClipStackWinding_side L (split.distance_to p) = SIDE_FRONT)
    (hback : ∃ p ∈ (winding_at stack inp).points,
      ClipStackWinding_side L (split.distance_to p) = SIDE_BACK)
    (hfree : ∃ i, i < L.STACK_WINDINGS ∧ stack.windings_used[i]? = some false)
    (hin : ∀ i, inp = .slot i → stack.windings_used[i]? = some true)
    (hc : -2147483648 ≤ c_noclip ∧ c_noclip < 2147483647)
    (hover : L.MAX_WINDING_FIXED <
      (ClipStackWinding_wanted L split (winding_at stack inp).points).length) :
    ∃ st, ClipStackWinding L inp stack split c_noclip = .ok (some inp, st, c_noclip + 1) ∧
      st.windings_used = stack.windings_used ∧ st.overrun = stack.overrun ∧
      winding_at st inp = winding_at stack inp := by
  obtain ⟨k, stack1, halloc⟩ := AllocStackWinding_succeeds L stack hfree
  obtain ⟨hne, hw, hclip⟩ := ClipStackWinding_clip_spec L inp stack split c_noclip hin k stack1
    halloc
  obtain ⟨_, _, hs1⟩ := AllocStackWinding_ok L stack k stack1 halloc
  rw [if_neg (not_le.2 hover)] at hclip
  rw [ClipStackWinding_reaches_clip L inp stack split c_noclip hfast1 hfast2 hsize hfront hback,
    hclip, wrapI32_succ c_noclip hc.1 hc.2]
  refine ⟨_, rfl, rfl, rfl, ?_⟩
  cases inp with
  | slot i =>
    have hik : k ≠ i := fun e => hne (by rw [e])
    rw [hs1]
    simp only [winding_at, List.getD_eq_getElem?_getD, List.getElem?_set, hik, if_false]
  | other w => rfl

/-- C17: ownership of the result of `ClipStackWinding`, for a pool whose flag
array has `STACK_WINDINGS` entries and an input whose slot (if it has one) is in
use. After every call that returns, one of three cases holds, and no two of them
together: the result is the input and no flag changed; or the result is a slot
that was free and is now used, not the input, the slot of the input is now free
and no other flag changed; or the result is null, the slot of the input is now
free and no other flag changed. The number of flags stays the same and no flag
outside the array is written. -/
theorem C17_ownership (L : vis_limits) (inp : winding_ptr) (stack : pstack_t)
    (split : qplane3d) (c_noclip : Int) (r : Option winding_ptr) (st : pstack_t) (c2 : Int)
    (hlen : stack.windings_used.length = L.STACK_WINDINGS)
    (hin : ∀ i, inp = .slot i → stack.windings_used[i]? = some true)
    (h : ClipStackWinding L inp stack split c_noclip = .ok (r, st, c2)) :
    (owns_input inp stack r st ∨ owns_new inp stack r st ∨ owns_null inp stack r st) ∧
    ¬ (owns_input inp stack r st ∧ owns_new inp stack r st) ∧
    ¬ (owns_input inp stack r st ∧ owns_null inp stack r st) ∧
    ¬ (owns_new inp stack r st ∧ owns_null inp stack r st) ∧
    st.windings_used.length = stack.windings_used.length ∧ st.overrun = stack.overrun := by
  have hexcl : ¬ (owns_input inp stack r st ∧ owns_new inp stack r st) ∧
      ¬ (owns_input inp stack r st ∧ owns_null inp stack r st) ∧
      ¬ (owns_new inp stack r st ∧ owns_null inp stack r st) := by
    refine ⟨?_, ?_, ?_⟩
    · rintro ⟨⟨e1, _⟩, k, e2, hne, _⟩
      rw [e1] at e2
      exact hne (Option.some.inj e2).symm
    · rintro ⟨⟨e1, _⟩, e2, _⟩
      rw [e1] at e2
      cases e2
    · rintro ⟨⟨k, e1, _⟩, e2, _⟩
      rw [e1] at e2
      cases e2
  -- the pool after freeing the input
  have hfreed : ∀ (s1 : pstack_t), s1.windings_used.length = L.STACK_WINDINGS →
      (∀ i, inp = .slot i → i < L.STACK_WINDINGS) →
      ((FreeStackWinding L inp s1).2.windings_used.length = s1.windings_used.length ∧
        (FreeStackWinding L inp s1).2.overrun = s1.overrun ∧
        (∀ i, inp = .slot i → (FreeStackWinding L inp s1).2.windings_used[i]? = some false) ∧
        (∀ j, inp ≠ .slot j →
          (FreeStackWinding L inp s1).2.windings_used[j]? = s1.windings_used[j]?)) := by
    intro s1 hl hi
    cases inp with
    | slot i =>
      have hi2 := hi i rfl
      unfold FreeStackWinding
      simp only [Nat.le_of_lt hi2, if_true, List.length_set]
      have : decide (s1.windings_used.length ≤ i) = false := by
        simp only [decide_eq_false_iff_not, not_le]; omega
      rw [this, Bool.or_false]
      refine ⟨trivial, rfl, ?_, ?_⟩
      · intro i2 e
        cases e
        rw [List.getElem?_set]
        simp [hl, hi2]
      · intro j hj
        have hij : i ≠ j := fun e => hj (by rw [e])
        rw [List.getElem?_set]
        simp [hij]
    | other w =>
      refine ⟨rfl, rfl, ?_, ?_⟩
      · intro i e; cases e
      · intro j _; rfl
  have hislot : ∀ i, inp = .slot i → i < L.STACK_WINDINGS := by
    intro i e
    have := hin i e
    by_contra hc
    rw [List.getElem?_eq_none (by omega)] at this
    cases this
  have hsame : ∀ {r : Option winding_ptr} {st : pstack_t} {c2 : Int},
      (Except.ok (some inp, stack, c_noclip) : Except String _) = .ok (r, st, c2) →
      owns_input inp stack r st ∧ st.windings_used.length = stack.windings_used.length ∧
        st.overrun = stack.overrun := by
    intro r st c2 e
    simp only [Except.ok.injEq, Prod.mk.injEq] at e
    obtain ⟨e1, e2, _⟩ := e
    subst e1 e2
    exact ⟨⟨rfl, rfl⟩, rfl, rfl⟩
  have hnull : ∀ {r : Option winding_ptr} {st : pstack_t} {c2 : Int},
      (Except.ok (none, (FreeStackWinding L inp stack).2, c_noclip) : Except String _) =
        .ok (r, st, c2) →
      owns_null inp stack r st ∧ st.windings_used.length = stack.windings_used.length ∧
        st.overrun = stack.overrun := by
    intro r st c2 e
    simp only [Except.ok.injEq, Prod.mk.injEq] at e
    obtain ⟨e1, e2, _⟩ := e
    subst e1 e2
    obtain ⟨f1, f2, f3, f4⟩ := hfreed stack hlen hislot
    exact ⟨⟨rfl, f3, f4⟩, f1, f2⟩
  refine ⟨?_, hexcl.1, hexcl.2.1, hexcl.2.2, ?_⟩
  all_goals
    unfold ClipStackWinding at h
    simp only at h
    split at h
    · have := hnull h
      first | exact Or.inr (Or.inr this.1) | exact this.2
    split at h
    · have := hsame h
      first | exact Or.inl this.1 | exact this.2
    split at h
    · cases h
    split at h
    · have := hsame h
      first | exact Or.inl this.1 | exact this.2
    split at h
    · have := hnull h
      first | exact Or.inr (Or.inr this.1) | exact this.2
    split at h
    · have := hsame h
      first | exact Or.inl this.1 | exact this.2
    cases halloc : AllocStackWinding L stack with
    | error e =>
      unfold ClipStackWinding_clip at h
      rw [halloc] at h
      cases h
    | ok p =>
      obtain ⟨k, stack1⟩ := p
      obtain ⟨hne, hw, hclip⟩ := ClipStackWinding_clip_spec L inp stack split c_noclip hin k
        stack1 halloc
      obtain ⟨hk, hkfree, hs1⟩ := AllocStackWinding_ok L stack k stack1 halloc
      rw [hclip] at h
      split at h
      · simp only [Except.ok.injEq, Prod.mk.injEq] at h
        obtain ⟨e1, e2, _⟩ := h
        subst e1 e2
        have hl1 : stack1.windings_used.length = L.STACK_WINDINGS := by
          rw [hs1]; simp only [List.length_set]; exact hlen
        obtain ⟨f1, f2, f3, f4⟩ := hfreed { stack1 with
          windings := stack1.windings.set k
            { origin := (winding_at stack inp).origin, radius := (winding_at stack inp).radius,
              points := ClipStackWinding_wanted L split (winding_at stack inp).points } }
          hl1 hislot
        have hu1 : stack1.windings_used = stack.windings_used.set k true := by rw [hs1]
        have ho1 : stack1.overrun = stack.overrun := by rw [hs1]
        first
        | refine Or.inr (Or.inl ⟨k, rfl, hne, hkfree, ?_, f3, ?_⟩)
          · rw [f4 k (fun e => hne e.symm)]
            simp only
            rw [hu1, List.getElem?_set]
            simp [hlen, hk]
          · intro j hjk hj
            rw [f4 j hj]
            simp only
            rw [hu1, List.getElem?_set]
            simp [Ne.symm hjk]
        | exact ⟨by rw [f1]; simp only; rw [hu1, List.length_set], by rw [f2]; exact ho1⟩
      · simp only [Except.ok.injEq, Prod.mk.injEq] at h
        obtain ⟨e1, e2, _⟩ := h
        subst e1 e2
        first | exact Or.inl ⟨rfl, rfl⟩ | exact ⟨rfl, rfl⟩


/-! ## The clipper on the square -/

theorem wanted_demo (L : vis_limits) (h : L.VIS_ON_EPSILON = 1 / 10) :
    ClipStackWinding_wanted L (plane_x 1) demo_square.points = demo_half := by
  simp only [ClipStackWinding_wanted, demo_square, List.length_cons, List.length_nil]
  norm_num [List.range_succ, List.flatMap, ClipStackWinding_emit, ClipStackWinding_sides,
    ClipStackWinding_dists, ClipStackWinding_side, qplane3d.distance_to, plane_x,
    SIDE_FRONT, SIDE_BACK, SIDE_ON, h, ClipStackWinding_mid, ClipStackWinding_coord, demo_half]

theorem demo_front (L : vis_limits) (h : L.VIS_ON_EPSILON = 1 / 10) :
    ∃ p ∈ (winding_at demo_stack (.slot 0)).points,
      ClipStackWinding_side L ((plane_x 1).distance_to p) = SIDE_FRONT :=
  ⟨{ x := 2, y := 0, z := 0 }, by rw [winding_at_demo]; simp [demo_square],
    by norm_num [ClipStackWinding_side, qplane3d.distance_to, plane_x, h, SIDE_FRONT]⟩

theorem demo_back (L : vis_limits) (h : L.VIS_ON_EPSILON = 1 / 10) :
    ∃ p ∈ (winding_at demo_stack (.slot 0)).points,
      ClipStackWinding_side L ((plane_x 1).distance_to p) = SIDE_BACK :=
  ⟨{ x := 0, y := 0, z := 0 }, by rw [winding_at_demo]; simp [demo_square],
    by norm_num [ClipStackWinding_side, qplane3d.distance_to, plane_x, h, SIDE_FRONT, SIDE_BACK]⟩

theorem demo_undecided :
    (¬ (plane_x 1).distance_to (winding_at demo_stack (.slot 0)).origin <
      -(winding_at demo_stack (.slot 0)).radius) ∧
    ¬ (plane_x 1).distance_to (winding_at demo_stack (.slot 0)).origin >
      (winding_at demo_stack (.slot 0)).radius := by
  rw [winding_at_demo]
  norm_num [demo_square, plane_x, qplane3d.distance_to]

theorem demo_in_use : ∀ i, winding_ptr.slot 0 = .slot i → demo_stack.windings_used[i]? = some true := by
  intro i e
  cases e
  rfl

theorem demo_clip :
    ClipStackWinding demo_limits (.slot 0) demo_stack (plane_x 1) 0 =
      .ok (some (.slot 1), demo_clipped, 0) := by
  have halloc : AllocStackWinding demo_limits demo_stack =
      .ok (1, { demo_stack with windings_used := [true, true, false] }) := rfl
  obtain ⟨_, _, h⟩ := ClipStackWinding_clip_spec demo_limits (.slot 0) demo_stack (plane_x 1) 0
    demo_in_use _ _ halloc
  rw [ClipStackWinding_reaches_clip demo_limits (.slot 0) demo_stack (plane_x 1) 0
    demo_undecided.1 demo_undecided.2 (by rw [winding_at_demo]; simp [demo_square, demo_limits])
    (demo_front demo_limits rfl) (demo_back demo_limits rfl), h, winding_at_demo,
    wanted_demo demo_limits rfl, if_pos (by decide)]
  rfl

/-- C16, witness: the square clipped to the plane `x = 1` needs four points; with
room for three the call returns the square and counts one more fallback. -/
theorem C16_witness :
    tight_limits.MAX_WINDING_FIXED <
        (ClipStackWinding_wanted tight_limits (plane_x 1)
          (winding_at demo_stack (.slot 0)).points).length ∧
    ∃ st, ClipStackWinding tight_limits (.slot 0) demo_stack (plane_x 1) 0 =
        .ok (some (.slot 0), st, 0 + 1) ∧
      st.windings_used = demo_stack.windings_used ∧ st.overrun = demo_stack.overrun ∧
      winding_at st (.slot 0) = winding_at demo_stack (.slot 0) :=
  ⟨by rw [winding_at_demo, wanted_demo tight_limits rfl]; decide,
    C16_capacity_fallback tight_limits (.slot 0) demo_stack (plane_x 1) 0
      demo_undecided.1 demo_undecided.2
      (by rw [winding_at_demo]; simp [demo_square, tight_limits])
      (demo_front tight_limits rfl) (demo_back tight_limits rfl)
      ⟨1, by decide, rfl⟩ demo_in_use ⟨by decide, by decide⟩
      (by rw [winding_at_demo, wanted_demo tight_limits rfl]; decide)⟩

/-- C17, witness: the square of slot 0 clipped to the plane `x = 1`: the result is
slot 1, which was free, and slot 0 is free afterwards. -/
theorem C17_witness :
    ClipStackWinding demo_limits (.slot 0) demo_stack (plane_x 1) 0 =
        .ok (some (.slot 1), demo_clipped, 0) ∧
    (owns_input (.slot 0) demo_stack (some (.slot 1)) demo_clipped ∨
        owns_new (.slot 0) demo_stack (some (.slot 1)) demo_clipped ∨
        owns_null (.slot 0) demo_stack (some (.slot 1)) demo_clipped) ∧
      ¬ (owns_input (.slot 0) demo_stack (some (.slot 1)) demo_clipped ∧
        owns_new (.slot 0) demo_stack (some (.slot 1)) demo_clipped) ∧
      ¬ (owns_input (.slot 0) demo_stack (some (.slot 1)) demo_clipped ∧
        owns_null (.slot 0) demo_stack (some (.slot 1)) demo_clipped) ∧
      ¬ (owns_new (.slot 0) demo_stack (some (.slot 1)) demo_clipped ∧
        owns_null (.slot 0) demo_stack (some (.slot 1)) demo_clipped) ∧
      demo_clipped.windings_used.length = demo_stack.windings_used.length ∧
      demo_clipped.overrun = demo_stack.overrun :=
  ⟨demo_clip,
    C17_ownership demo_limits (.slot 0) demo_stack (plane_x 1) 0 (some (.slot 1)) demo_clipped 0
      rfl demo_in_use demo_clip⟩


/-! ## The graph LoadPortals builds -/

theorem leafAt_set_lt (s : State) (X Y : Nat) (l : leaf_t) (hX : X < s.leafs.length) :
    leafAt { s with leafs := s.leafs.set X l } Y = if X = Y then l else leafAt s Y := by
  unfold leafAt
  simp only [List.getD_eq_getElem?_getD, List.getElem?_set]
  by_cases h : X = Y
  · subst h; simp [hX]
  · simp [h]

theorem leafAt_of_getElem? {s : State} {X : Nat} {l : leaf_t} (h : s.leafs[X]? = some l) :
    leafAt s X = l := by
  unfold leafAt
  rw [List.getD_eq_getElem?_getD, h]
  rfl

theorem getElem?_leafAt (s : State) (X : Nat) (hX : X < s.leafs.length) :
    s.leafs[X]? = some (leafAt s X) := by
  unfold leafAt
  rw [List.getD_eq_getElem?_getD, List.getElem?_eq_getElem hX]
  rfl

/-- The registration of a portal in a leaf of the array, all leaves holding as
many entries as `numportals` says: the error when the leaf is full, the portal
appended otherwise. -/
theorem LoadPortals_register_exact (cap : Nat) (s : State) (X p : Nat) (hwf : leafs_wf s)
    (hX : X < s.leafs.length) :
    LoadPortals_register cap s X p =
      if (leafAt s X).numportals = cap then .error "Leaf with too many portals"
      else .ok { s with
        leafs := s.leafs.set X
          { numportals := (leafAt s X).numportals + 1,
            portals := (leafAt s X).portals ++ [p] } } := by
  have hl := getElem?_leafAt s X hX
  have hn := hwf X _ hl
  unfold LoadPortals_register
  rw [hl]
  simp only
  by_cases hc : (leafAt s X).numportals = cap
  · rw [if_pos hc, if_pos hc]
  · rw [if_neg hc, if_neg hc, if_neg (by omega)]

theorem leafs_wf_set (s : State) (X : Nat) (l : leaf_t) (hwf : leafs_wf s)
    (hl : l.numportals = l.portals.length) : leafs_wf { s with leafs := s.leafs.set X l } := by
  intro Y l2 h2
  simp only [List.getElem?_set] at h2
  by_cases h : X = Y
  · subst h
    by_cases hX : X < s.leafs.length
    · simp [hX] at h2; subst h2; exact hl
    · simp [hX] at h2
  · simp only [h, if_false] at h2
    exact hwf Y l2 h2

/-- One portal of the file, its two leaves in the array: the loop body fails
when a leaf it registers in is full at that moment, and otherwise every leaf
holds afterwards what it held, followed by the portals registered in it. -/
theorem LoadPortals_portal_leafs (cap : Nat) (plane_of : List qvec3d → qplane3d)
    (dest : Nat) (s : State) (sp : prtfile_portal_t) (hwf : leafs_wf s)
    (hcap : ∀ X, X < s.leafs.length → (leafAt s X).numportals ≤ cap)
    (ha : sp.leafnums.1 < s.leafs.length) (hb : sp.leafnums.2 < s.leafs.length) :
    ((∃ X, X < s.leafs.length ∧
        cap < (leafAt s X).numportals + (LoadPortals_expected [sp] dest X).length) →
      LoadPortals_portal cap plane_of (dest, s) sp = .error "Leaf with too many portals") ∧
    ((∀ X, X < s.leafs.length →
        (leafAt s X).numportals + (LoadPortals_expected [sp] dest X).length ≤ cap) →
      ∃ s3, LoadPortals_portal cap plane_of (dest, s) sp = .ok (dest + 2, s3) ∧
        leafs_wf s3 ∧ s3.leafs.length = s.leafs.length ∧
        ∀ X, X < s.leafs.length → leafAt s3 X =
          { numportals := (leafAt s X).numportals + (LoadPortals_expected [sp] dest X).length,
            portals := (leafAt s X).portals ++ LoadPortals_expected [sp] dest X }) := by
  have hE : ∀ X, LoadPortals_expected [sp] dest X =
      (if sp.leafnums.1 = X then [dest] else []) ++
        (if sp.leafnums.2 = X then [dest + 1] else []) := by
    intro X
    simp [LoadPortals_expected]
  have hwfa := hwf _ _ (getElem?_leafAt s _ ha)
  unfold LoadPortals_portal
  simp only
  rw [LoadPortals_register_exact cap s _ dest hwf ha]
  by_cases hfa : (leafAt s sp.leafnums.1).numportals = cap
  · rw [if_pos hfa]
    refine ⟨fun _ => rfl, ?_⟩
    intro hfit
    exfalso
    have := hfit _ ha
    rw [hE] at this
    simp at this
    omega
  · rw [if_neg hfa]
    simp only
    -- the state after the first registration and the first assignment
    generalize hs1 : ({ s with
        leafs := s.leafs.set sp.leafnums.1
          { numportals := (leafAt s sp.leafnums.1).numportals + 1,
            portals := (leafAt s sp.leafnums.1).portals ++ [dest] } } : State) = s1
    have hs1l : s1.leafs = s.leafs.set sp.leafnums.1
        { numportals := (leafAt s sp.leafnums.1).numportals + 1,
          portals := (leafAt s sp.leafnums.1).portals ++ [dest] } := by rw [← hs1]
    have hwf1 : leafs_wf s1 := by
      rw [← hs1]
      exact leafs_wf_set s _ _ hwf (by simp [hwfa])
    have hat1 : ∀ Y, leafAt s1 Y = if sp.leafnums.1 = Y then
        { numportals := (leafAt s sp.leafnums.1).numportals + 1,
          portals := (leafAt s sp.leafnums.1).portals ++ [dest] } else leafAt s Y := by
      intro Y; rw [← hs1]; exact leafAt_set_lt s _ Y _ ha
    generalize hs2 : LoadPortals_fill s1 dest sp.winding (plane_of sp.winding).neg
      sp.leafnums.2 = s2
    have hl2 : s2.leafs = s1.leafs := by
      rw [← hs2]; exact (LoadPortals_fill_frame _ _ _ _ _).1
    have hwf2 : leafs_wf s2 := leafs_wf_congr hl2 hwf1
    have hat2 : ∀ Y, leafAt s2 Y = leafAt s1 Y := by
      intro Y; unfold leafAt; rw [hl2]
    have hb2 : sp.leafnums.2 < s2.leafs.length := by
      rw [hl2, hs1l, List.length_set]; exact hb
    rw [LoadPortals_register_exact cap s2 _ (dest + 1) hwf2 hb2]
    by_cases hfb : (leafAt s2 sp.leafnums.2).numportals = cap
    · rw [if_pos hfb]
      refine ⟨fun _ => rfl, ?_⟩
      intro hfit
      exfalso
      have := hfit _ hb
      rw [hE] at this
      rw [hat2, hat1] at hfb
      by_cases hab : sp.leafnums.1 = sp.leafnums.2
      · rw [if_pos hab] at hfb
        simp only at hfb
        rw [hab] at hfb
        simp [hab] at this
        omega
      · rw [if_neg hab] at hfb
        simp [hab] at this
        omega
    · rw [if_neg hfb]
      simp only
      refine ⟨?_, ?_⟩
      · rintro ⟨X, hX, hover⟩
        exfalso
        rw [hE] at hover
        have hcX := hcap X hX
        rw [hat2, hat1] at hfb
        by_cases h1 : sp.leafnums.1 = X
        · by_cases h2 : sp.leafnums.2 = X
          · rw [if_pos (h1.trans h2.symm)] at hfb
            simp only at hfb
            simp [h1, h2] at hover
            rw [h1] at hfa hfb
            omega
          · simp [h1, h2] at hover
            rw [h1] at hfa
            omega
        · by_cases h2 : sp.leafnums.2 = X
          · by_cases hab : sp.leafnums.1 = sp.leafnums.2
            · exact h1 (hab.trans h2)
            · rw [if_neg hab, h2] at hfb
              simp [h1, h2] at hover
              omega
          · simp [h1, h2] at hover
            omega
      · intro _
        refine ⟨_, rfl, ?_, ?_, ?_⟩
        · apply leafs_wf_congr (LoadPortals_fill_frame _ _ _ _ _).1
          apply leafs_wf_set s2 _ _ hwf2
          simp only [List.length_append, List.length_singleton]
          rw [hwf2 _ _ (getElem?_leafAt s2 _ hb2)]
        · rw [(LoadPortals_fill_frame _ _ _ _ _).1]
          simp only [List.length_set]
          rw [hl2, hs1l, List.length_set]
        · intro X hX
          have : leafAt (LoadPortals_fill { s2 with
              leafs := s2.leafs.set sp.leafnums.2
                { numportals := (leafAt s2 sp.leafnums.2).numportals + 1,
                  portals := (leafAt s2 sp.leafnums.2).portals ++ [dest + 1] } }
              (dest + 1) sp.winding.reverse (plane_of sp.winding) sp.leafnums.1) X =
              leafAt { s2 with
              leafs := s2.leafs.set sp.leafnums.2
                { numportals := (leafAt s2 sp.leafnums.2).numportals + 1,
                  portals := (leafAt s2 sp.leafnums.2).portals ++ [dest + 1] } } X := by
            unfold leafAt
            rw [(LoadPortals_fill_frame _ _ _ _ _).1]
          rw [this, leafAt_set_lt s2 _ X _ hb2, hE]
          by_cases h2 : sp.leafnums.2 = X
          · rw [if_pos h2, hat2, hat1]
            by_cases h1 : sp.leafnums.1 = X
            · rw [if_pos (h1.trans h2.symm)]
              simp [h1, h2]
            · have hab : ¬ sp.leafnums.1 = sp.leafnums.2 := fun e => h1 (e.trans h2)
              rw [if_neg hab]
              simp [h1, h2]
          · rw [if_neg h2, hat2, hat1]
            by_cases h1 : sp.leafnums.1 = X
            · rw [if_pos h1]
              simp [h1, h2]
            · rw [if_neg h1]
              simp [h1, h2]

theorem LoadPortals_expected_cons (sp : prtfile_portal_t) (rest : List prtfile_portal_t)
    (dest X : Nat) :
    LoadPortals_expected (sp :: rest) dest X =
      LoadPortals_expected [sp] dest X ++ LoadPortals_expected rest (dest + 2) X := by
  simp [LoadPortals_expected]

/-- The loop of `LoadPortals` over portals whose leaves are in the array, no leaf
holding more than `cap` portals at the start: it fails when some leaf would come
to hold more than `cap`, and otherwise every leaf holds afterwards what it held,
followed by the portals registered in it. -/
theorem LoadPortals_loop_leafs (cap : Nat) (plane_of : List qvec3d → qplane3d)
    (rest : List prtfile_portal_t) :
    ∀ (dest : Nat) (s : State), leafs_wf s →
      (∀ X, X < s.leafs.length → (leafAt s X).numportals ≤ cap) →
      (∀ sp ∈ rest, sp.leafnums.1 < s.leafs.length ∧ sp.leafnums.2 < s.leafs.length) →
      ((∃ X, X < s.leafs.length ∧
          cap < (leafAt s X).numportals + (LoadPortals_expected rest dest X).length) →
        LoadPortals_loop cap plane_of rest (dest, s) = .error "Leaf with too many portals") ∧
      ((∀ X, X < s.leafs.length →
          (leafAt s X).numportals + (LoadPortals_expected rest dest X).length ≤ cap) →
        ∃ st2, LoadPortals_loop cap plane_of rest (dest, s) = .ok st2 ∧
          st2.2.leafs.length = s.leafs.length ∧
          ∀ X, X < s.leafs.length → leafAt st2.2 X =
            { numportals := (leafAt s X).numportals + (LoadPortals_expected rest dest X).length,
              portals := (leafAt s X).portals ++ LoadPortals_expected rest dest X }) := by
  induction rest with
  | nil =>
    intro dest s _ hcap _
    refine ⟨?_, ?_⟩
    · rintro ⟨X, hX, hover⟩
      have := hcap X hX
      simp [LoadPortals_expected] at hover
      omega
    · intro _
      exact ⟨(dest, s), rfl, rfl, fun X _ => by simp [LoadPortals_expected]⟩
  | cons sp rest ih =>
    intro dest s hwf hcap hrange
    have hsp := hrange sp (List.mem_cons_self _ _)
    obtain ⟨pfail, pok⟩ := LoadPortals_portal_leafs cap plane_of dest s sp hwf hcap hsp.1 hsp.2
    by_cases hstep : ∀ X, X < s.leafs.length →
        (leafAt s X).numportals + (LoadPortals_expected [sp] dest X).length ≤ cap
    · obtain ⟨s3, e3, wf3, len3, at3⟩ := pok hstep
      have hcap3 : ∀ X, X < s3.leafs.length → (leafAt s3 X).numportals ≤ cap := by
        intro X hX
        rw [len3] at hX
        rw [at3 X hX]
        exact hstep X hX
      obtain ⟨ihfail, ihok⟩ := ih (dest + 2) s3 wf3 hcap3
        (fun q hq => by rw [len3]; exact hrange q (List.mem_cons_of_mem _ hq))
      refine ⟨?_, ?_⟩
      · rintro ⟨X, hX, hover⟩
        unfold LoadPortals_loop
        rw [e3]
        simp only
        apply ihfail
        refine ⟨X, by rw [len3]; exact hX, ?_⟩
        rw [at3 X hX]
        rw [LoadPortals_expected_cons sp rest dest X, List.length_append] at hover
        simp only
        omega
      · intro hfit
        have hfit3 : ∀ X, X < s3.leafs.length →
            (leafAt s3 X).numportals + (LoadPortals_expected rest (dest + 2) X).length ≤ cap := by
          intro X hX
          rw [len3] at hX
          have := hfit X hX
          rw [LoadPortals_expected_cons sp rest dest X, List.length_append] at this
          rw [at3 X hX]
          simp only
          omega
        obtain ⟨st2, e2, len2, at2⟩ := ihok hfit3
        refine ⟨st2, ?_, len2.trans len3, ?_⟩
        · unfold LoadPortals_loop
          rw [e3]
          exact e2
        · intro X hX
          rw [at2 X (by rw [len3]; exact hX), at3 X hX, LoadPortals_expected_cons sp rest dest X]
          simp only [List.length_append, List.append_assoc, Nat.add_assoc]
    · have hex : ∃ X, X < s.leafs.length ∧
          cap < (leafAt s X).numportals + (LoadPortals_expected [sp] dest X).length := by
        by_contra hc
        apply hstep
        intro X hX
        by_contra hc2
        exact hc ⟨X, hX, by omega⟩
      have e3 := pfail hex
      refine ⟨?_, ?_⟩
      · intro _
        unfold LoadPortals_loop
        rw [e3]
      · intro hfit
        exfalso
        obtain ⟨X, hX, hover⟩ := hex
        have := hfit X hX
        rw [LoadPortals_expected_cons sp rest dest X, List.length_append] at this
        omega

/-- The portals a successful run of the loop of `LoadPortals` leaves in the
array: for portal `k` of the file, entry `dest + 2k` is the entry that was there
with the winding as given, the negated plane and the second leaf, and entry
`dest + 2k + 1` the one that was there with the reversed winding, the plane and
the first leaf; the entries below `dest` are untouched. -/
theorem LoadPortals_loop_portals (cap : Nat) (plane_of : List qvec3d → qplane3d)
    (rest : List prtfile_portal_t) :
    ∀ (dest : Nat) (s : State) (st2 : Nat × State),
      LoadPortals_loop cap plane_of rest (dest, s) = .ok st2 →
      st2.2.portals.length = s.portals.length ∧ st2.2.numportals = s.numportals ∧
      st2.2.portalleafs = s.portalleafs ∧
      (∀ r, r < dest → st2.2.portals[r]? = s.portals[r]?) ∧
      ∀ (k : Nat) (sp : prtfile_portal_t), rest[k]? = some sp →
        st2.2.portals[dest + 2 * k]? = (s.portals[dest + 2 * k]?).map (fun q =>
          { q with winding := sp.winding, plane := (plane_of sp.winding).neg,
                   leaf := sp.leafnums.2 }) ∧
        st2.2.portals[dest + 2 * k + 1]? = (s.portals[dest + 2 * k + 1]?).map (fun q =>
          { q with winding := sp.winding.reverse, plane := plane_of sp.winding,
                   leaf := sp.leafnums.1 }) := by
  have hreg : ∀ (s s2 : State) (X p : Nat), LoadPortals_register cap s X p = .ok s2 →
      s2.portals = s.portals ∧ s2.numportals = s.numportals ∧ s2.portalleafs = s.portalleafs := by
    intro s s2 X p h
    unfold LoadPortals_register at h
    split at h
    · simp only [Except.ok.injEq] at h; subst h; exact ⟨rfl, rfl, rfl⟩
    · split at h
      · cases h
      · simp only [Except.ok.injEq] at h; subst h; exact ⟨rfl, rfl, rfl⟩
  have hfill : ∀ (s : State) (p : Nat) (w : List qvec3d) (pl : qplane3d) (leaf : Nat),
      (LoadPortals_fill s p w pl leaf).numportals = s.numportals ∧
      (LoadPortals_fill s p w pl leaf).portalleafs = s.portalleafs := by
    intro s p w pl leaf
    unfold LoadPortals_fill
    split <;> exact ⟨rfl, rfl⟩
  induction rest with
  | nil =>
    intro dest s st2 h
    simp only [LoadPortals_loop, Except.ok.injEq] at h
    subst h
    exact ⟨rfl, rfl, rfl, fun _ _ => rfl, by simp⟩
  | cons sp0 rest ih =>
    intro dest s st2 h
    unfold LoadPortals_loop at h
    cases h1 : LoadPortals_portal cap plane_of (dest, s) sp0 with
    | error e => rw [h1] at h; cases h
    | ok st1 =>
      rw [h1] at h
      simp only at h
      unfold LoadPortals_portal at h1
      simp only at h1
      cases hr1 : LoadPortals_register cap s sp0.leafnums.1 dest with
      | error e => rw [hr1] at h1; cases h1
      | ok s1 =>
        rw [hr1] at h1
        simp only at h1
        cases hr2 : LoadPortals_register cap
            (LoadPortals_fill s1 dest sp0.winding (plane_of sp0.winding).neg sp0.leafnums.2)
            sp0.leafnums.2 (dest + 1) with
        | error e => rw [hr2] at h1; cases h1
        | ok s3 =>
          rw [hr2] at h1
          simp only [Except.ok.injEq] at h1
          subst h1
          obtain ⟨q1, q2, q3⟩ := hreg _ _ _ _ hr1
          obtain ⟨q4, q5, q6⟩ := hreg _ _ _ _ hr2
          obtain ⟨i1, i2, i3, i4, i5⟩ := ih (dest + 2) _ st2 h
          have hget : ∀ r, (LoadPortals_fill s3 (dest + 1) sp0.winding.reverse
              (plane_of sp0.winding) sp0.leafnums.1).portals[r]? =
              if r = dest + 1 then (s.portals[dest + 1]?).map (fun q =>
                { q with winding := sp0.winding.reverse, plane := plane_of sp0.winding,
                         leaf := sp0.leafnums.1 })
              else if r = dest then (s.portals[dest]?).map (fun q =>
                { q with winding := sp0.winding, plane := (plane_of sp0.winding).neg,
                         leaf := sp0.leafnums.2 })
              else s.portals[r]? := by
            intro r
            rw [LoadPortals_fill_getElem?, q4]
            by_cases hr : r = dest + 1
            · rw [if_pos hr, if_pos hr, LoadPortals_fill_getElem?, if_neg (by omega), q1]
            · rw [if_neg hr, if_neg hr, LoadPortals_fill_getElem?, q1]
          refine ⟨?_, ?_, ?_, ?_, ?_⟩
          · rw [i1, (LoadPortals_fill_frame _ _ _ _ _).2, q4,
              (LoadPortals_fill_frame _ _ _ _ _).2, q1]
          · rw [i2, (hfill _ _ _ _ _).1, q5, (hfill _ _ _ _ _).1, q2]
          · rw [i3, (hfill _ _ _ _ _).2, q6, (hfill _ _ _ _ _).2, q3]
          · intro r hr
            rw [i4 r (by omega), hget, if_neg (by omega), if_neg (by omega)]
          · intro k sp hk
            cases k with
            | zero =>
              simp only [List.getElem?_cons_zero, Option.some.injEq] at hk
              subst hk
              simp only [Nat.mul_zero, Nat.add_zero]
              rw [i4 dest (by omega), i4 (dest + 1) (by omega), hget, hget]
              simp
            | succ k =>
              simp only [List.getElem?_cons_succ] at hk
              obtain ⟨a2, b2⟩ := i5 k sp hk
              have e : dest + 2 * (k + 1) = dest + 2 + 2 * k := by omega
              rw [e, a2, b2, hget, hget]
              rw [if_neg (by omega), if_neg (by omega), if_neg (by omega), if_neg (by omega)]
              exact ⟨rfl, rfl⟩

theorem sum_ite_range (a n : Nat) :
    ((List.range n).map (fun X => if a = X then 1 else 0)).sum = if a < n then 1 else 0 := by
  induction n with
  | zero => simp
  | succ n ih =>
    rw [List.range_succ, List.map_append, List.sum_append, ih]
    simp only [List.map_cons, List.map_nil, List.sum_cons, List.sum_nil, Nat.add_zero]
    by_cases h1 : a < n
    · rw [if_pos h1, if_neg (by omega), if_pos (by omega)]
    · rw [if_neg h1]
      by_cases h2 : a = n
      · rw [if_pos h2, if_pos (by omega)]
      · rw [if_neg h2, if_neg (by omega)]

/-- Over leaves `0..n-1` that contain the leaves of all portals of the file, the
registrations number two for each portal of the file. -/
theorem LoadPortals_expected_sum (n : Nat) (prt : List prtfile_portal_t) :
    ∀ (dest : Nat), (∀ sp ∈ prt, sp.leafnums.1 < n ∧ sp.leafnums.2 < n) →
      ((List.range n).map (fun X => (LoadPortals_expected prt dest X).length)).sum =
        2 * prt.length := by
  induction prt with
  | nil => intro dest _; simp [LoadPortals_expected]
  | cons sp rest ih =>
    intro dest hrange
    have hsp := hrange sp (List.mem_cons_self _ _)
    have h1 : (fun X => (LoadPortals_expected (sp :: rest) dest X).length) =
        fun X => (if sp.leafnums.1 = X then 1 else 0) +
          ((if sp.leafnums.2 = X then 1 else 0) +
            (LoadPortals_expected rest (dest + 2) X).length) := by
      funext X
      simp only [LoadPortals_expected, List.length_append]
      by_cases ha : sp.leafnums.1 = X <;> by_cases hb : sp.leafnums.2 = X <;> simp [ha, hb]
    rw [h1, List.sum_map_add, List.sum_map_add, sum_ite_range, sum_ite_range,
      ih (dest + 2) (fun q hq => hrange q (List.mem_cons_of_mem _ hq)), if_pos hsp.1,
      if_pos hsp.2, List.length_cons]
    omega

/-! ## The claims on LoadPortals -/

theorem LoadPortals_expected_mem (prt : List prtfile_portal_t) :
    ∀ (dest k : Nat) (sp : prtfile_portal_t), prt[k]? = some sp →
      dest + 2 * k ∈ LoadPortals_expected prt dest sp.leafnums.1 ∧
      dest + 2 * k + 1 ∈ LoadPortals_expected prt dest sp.leafnums.2 := by
  induction prt with
  | nil => intro dest k sp h; simp at h
  | cons sp0 rest ih =>
    intro dest k sp h
    cases k with
    | zero =>
      simp only [List.getElem?_cons_zero, Option.some.injEq] at h
      subst h
      simp [LoadPortals_expected]
    | succ k =>
      simp only [List.getElem?_cons_succ] at h
      obtain ⟨h1, h2⟩ := ih (dest + 2) k sp h
      have e : dest + 2 * (k + 1) = dest + 2 + 2 * k := by omega
      rw [e]
      simp only [LoadPortals_expected, List.mem_append]
      exact ⟨Or.inr (Or.inr h1), Or.inr (Or.inr h2)⟩

theorem LoadPortals_expected_origin (prt : List prtfile_portal_t) :
    ∀ (dest r X : Nat), r ∈ LoadPortals_expected prt dest X →
      ∃ (k : Nat) (sp : prtfile_portal_t), prt[k]? = some sp ∧
        ((r = dest + 2 * k ∧ sp.leafnums.1 = X) ∨ (r = dest + 2 * k + 1 ∧ sp.leafnums.2 = X)) := by
  induction prt with
  | nil => intro dest r X h; simp [LoadPortals_expected] at h
  | cons sp0 rest ih =>
    intro dest r X h
    simp only [LoadPortals_expected, List.mem_append] at h
    rcases h with h | h | h
    · by_cases ha : sp0.leafnums.1 = X
      · rw [if_pos ha] at h
        simp only [List.mem_singleton] at h
        exact ⟨0, sp0, List.getElem?_cons_zero, Or.inl ⟨by omega, ha⟩⟩
      · rw [if_neg ha] at h; simp at h
    · by_cases hb : sp0.leafnums.2 = X
      · rw [if_pos hb] at h
        simp only [List.mem_singleton] at h
        exact ⟨0, sp0, List.getElem?_cons_zero, Or.inr ⟨by omega, hb⟩⟩
      · rw [if_neg hb] at h; simp at h
    · obtain ⟨k, sp, hk, hcase⟩ := ih (dest + 2) r X h
      refine ⟨k + 1, sp, by simpa using hk, ?_⟩
      rcases hcase with ⟨e, hx⟩ | ⟨e, hx⟩
      · exact Or.inl ⟨by omega, hx⟩
      · exact Or.inr ⟨by omega, hx⟩

theorem leafs_eq_range (s : State) :
    s.leafs = (List.range s.leafs.length).map (fun X => leafAt s X) := by
  apply List.ext_getElem?
  intro i
  rw [List.getElem?_map]
  by_cases hi : i < s.leafs.length
  · rw [List.getElem?_range hi, getElem?_leafAt s i hi]
    rfl
  · rw [List.getElem?_eq_none (not_lt.1 hi), List.getElem?_eq_none (by simpa using hi)]
    rfl

/-- The run of `LoadPortals` on a file whose leaves are all below `portalleafs`:
the error when some leaf would come to hold more than `cap` portals; otherwise
the graph, in which every leaf holds the portals registered in it. -/
theorem LoadPortals_run (cap : Nat) (plane_of : List qvec3d → qplane3d) (portalleafs : Nat)
    (prt : List prtfile_portal_t)
    (hrange : ∀ sp ∈ prt, sp.leafnums.1 < portalleafs ∧ sp.leafnums.2 < portalleafs) :
    ((∃ X, X < portalleafs ∧ cap < (LoadPortals_expected prt 0 X).length) →
      LoadPortals cap plane_of portalleafs prt = .error "Leaf with too many portals") ∧
    ((∀ X, X < portalleafs → (LoadPortals_expected prt 0 X).length ≤ cap) →
      ∃ s, LoadPortals cap plane_of portalleafs prt = .ok s ∧
        s.leafs.length = portalleafs ∧ s.numportals = prt.length ∧
        s.portals.length = 2 * prt.length ∧
        (∀ X, X < portalleafs → leafAt s X =
          { numportals := (LoadPortals_expected prt 0 X).length,
            portals := LoadPortals_expected prt 0 X }) ∧
        ∀ (k : Nat) (sp : prtfile_portal_t), prt[k]? = some sp →
          s.portals[2 * k]? = some
            { winding := sp.winding, plane := (plane_of sp.winding).neg, leaf := sp.leafnums.2 } ∧
          s.portals[2 * k + 1]? = some
            { winding := sp.winding.reverse, plane := plane_of sp.winding,
              leaf := sp.leafnums.1 }) := by
  have hat0 : ∀ X, leafAt
      ({ numportals := prt.length, portalleafs := portalleafs,
         portals := List.replicate (prt.length * 2) {},
         leafs := List.replicate portalleafs {} } : State) X = {} := by
    intro X
    unfold leafAt
    simp only [List.getD_eq_getElem?_getD, List.getElem?_replicate]
    split <;> rfl
  have hwf0 : leafs_wf
      ({ numportals := prt.length, portalleafs := portalleafs,
         portals := List.replicate (prt.length * 2) {},
         leafs := List.replicate portalleafs {} } : State) := by
    intro X l hl
    simp only [List.getElem?_replicate] at hl
    split at hl
    · simp only [Option.some.injEq] at hl; subst hl; rfl
    · cases hl
  obtain ⟨pfail, pok⟩ := LoadPortals_loop_leafs cap plane_of prt 0 _ hwf0
    (fun X _ => by rw [hat0]; exact Nat.zero_le _)
    (fun sp hsp => by simp only [List.length_replicate]; exact hrange sp hsp)
  refine ⟨?_, ?_⟩
  · rintro ⟨X, hX, hover⟩
    unfold LoadPortals
    simp only
    rw [pfail ⟨X, by simp only [List.length_replicate]; exact hX, by
      rw [hat0]; simp only [Nat.zero_add]; exact hover⟩]
  · intro hfit
    obtain ⟨st2, e2, len2, at2⟩ := pok (fun X hX => by
      rw [hat0]
      simp only [List.length_replicate] at hX
      simp only [Nat.zero_add]
      exact hfit X hX)
    obtain ⟨q1, q2, _, _, q5⟩ := LoadPortals_loop_portals cap plane_of prt 0 _ st2 e2
    refine ⟨st2.2, ?_, ?_, q2, ?_, ?_, ?_⟩
    · unfold LoadPortals
      simp only
      rw [e2]
    · rw [len2, List.length_replicate]
    · rw [q1, List.length_replicate]; omega
    · intro X hX
      rw [at2 X (by simp only [List.length_replicate]; exact hX), hat0]
      simp
    · intro k sp hk
      obtain ⟨a1, a2⟩ := q5 k sp hk
      have hklt : k < prt.length := by
        by_contra hc
        rw [List.getElem?_eq_none (not_lt.1 hc)] at hk
        cases hk
      simp only [Nat.zero_add] at a1 a2
      rw [a1, a2]
      simp only [List.getElem?_replicate]
      rw [if_pos (by omega), if_pos (by omega)]
      exact ⟨rfl, rfl⟩

/-- C18: for a portal file whose leaves are all below `portalleafs` and in which
no leaf comes to hold more than `cap` portals, `LoadPortals` succeeds and builds
two directed portals for every portal `k` of the file joining leaves `(a, b)`:
portal `2k` with the points as given, flowing into `b` and entered in the portal
list of `a` and of no other leaf, and portal `2k + 1` with the points in reversed
order, flowing into `a` and entered in the portal list of `b` and of no other
leaf; every portal list holds its portals in the order of the registrations; the
portal array has `2 * numportals` entries and the portal counts of the leaves sum
to `2 * numportals`. -/
theorem C18_two_directed_portals (cap : Nat) (plane_of : List qvec3d → qplane3d)
    (portalleafs : Nat) (prt : List prtfile_portal_t)
    (hrange : ∀ sp ∈ prt, sp.leafnums.1 < portalleafs ∧ sp.leafnums.2 < portalleafs)
    (hfit : ∀ X, X < portalleafs → (LoadPortals_expected prt 0 X).length ≤ cap) :
    ∃ s, LoadPortals cap plane_of portalleafs prt = .ok s ∧
      s.numportals = prt.length ∧ s.portals.length = 2 * s.numportals ∧
      (s.leafs.map (fun l => l.numportals)).sum = 2 * s.numportals ∧
      (∀ X, X < portalleafs → (leafAt s X).portals = LoadPortals_expected prt 0 X) ∧
      ∀ (k : Nat) (sp : prtfile_portal_t), prt[k]? = some sp →
        (∃ q, s.portals[2 * k]? = some q ∧ q.winding = sp.winding ∧ q.leaf = sp.leafnums.2) ∧
        (∃ q, s.portals[2 * k + 1]? = some q ∧ q.winding = sp.winding.reverse ∧
          q.leaf = sp.leafnums.1) ∧
        (∀ X, X < portalleafs → (2 * k ∈ (leafAt s X).portals ↔ X = sp.leafnums.1)) ∧
        (∀ X, X < portalleafs → (2 * k + 1 ∈ (leafAt s X).portals ↔ X = sp.leafnums.2)) := by
  obtain ⟨s, e, hlen, hnum, hplen, hat, hport⟩ :=
    (LoadPortals_run cap plane_of portalleafs prt hrange).2 hfit
  refine ⟨s, e, hnum, by rw [hplen, hnum], ?_, ?_, ?_⟩
  · rw [leafs_eq_range s, List.map_map, hlen, hnum, ← LoadPortals_expected_sum portalleafs prt 0 hrange]
    apply congrArg
    apply List.map_congr_left
    intro X hX
    simp only [Function.comp]
    rw [hat X (List.mem_range.1 hX)]
  · intro X hX
    rw [hat X hX]
  · intro k sp hk
    obtain ⟨a1, a2⟩ := hport k sp hk
    obtain ⟨m1, m2⟩ := LoadPortals_expected_mem prt 0 k sp hk
    simp only [Nat.zero_add] at m1 m2
    refine ⟨⟨_, a1, rfl, rfl⟩, ⟨_, a2, rfl, rfl⟩, ?_, ?_⟩
    · intro X hX
      rw [hat X hX]
      simp only
      constructor
      · intro hm
        obtain ⟨k2, sp2, hk2, hcase⟩ := LoadPortals_expected_origin prt 0 _ X hm
        rcases hcase with ⟨e1, hx⟩ | ⟨e1, _⟩
        · have : k2 = k := by omega
          subst this
          rw [hk] at hk2
          cases hk2
          exact hx.symm
        · omega
      · intro hx
        rw [hx]
        exact m1
    · intro X hX
      rw [hat X hX]
      simp only
      constructor
      · intro hm
        obtain ⟨k2, sp2, hk2, hcase⟩ := LoadPortals_expected_origin prt 0 _ X hm
        rcases hcase with ⟨e1, _⟩ | ⟨e1, hx⟩
        · omega
        · have : k2 = k := by omega
          subst this
          rw [hk] at hk2
          cases hk2
          exact hx.symm
      · intro hx
        rw [hx]
        exact m2

/-- C19 (as amended): for a portal file whose leaves are all below `portalleafs`
and in which no leaf comes to hold more than `cap` portals, `LoadPortals` succeeds
and, of the two directed portals of portal `k` of the file, portal `2k` (the
points as given) carries the negation of the plane of the points as given, and
portal `2k + 1` (the points reversed) carries that plane itself. -/
theorem C19_planes (cap : Nat) (plane_of : List qvec3d → qplane3d)
    (portalleafs : Nat) (prt : List prtfile_portal_t)
    (hrange : ∀ sp ∈ prt, sp.leafnums.1 < portalleafs ∧ sp.leafnums.2 < portalleafs)
    (hfit : ∀ X, X < portalleafs → (LoadPortals_expected prt 0 X).length ≤ cap) :
    ∃ s, LoadPortals cap plane_of portalleafs prt = .ok s ∧
      ∀ (k : Nat) (sp : prtfile_portal_t), prt[k]? = some sp →
        (∃ q, s.portals[2 * k]? = some q ∧ q.winding = sp.winding ∧
          q.plane = (plane_of sp.winding).neg) ∧
        (∃ q, s.portals[2 * k + 1]? = some q ∧ q.winding = sp.winding.reverse ∧
          q.plane = plane_of sp.winding) := by
  obtain ⟨s, e, _, _, _, _, hport⟩ :=
    (LoadPortals_run cap plane_of portalleafs prt hrange).2 hfit
  refine ⟨s, e, ?_⟩
  intro k sp hk
  obtain ⟨a1, a2⟩ := hport k sp hk
  exact ⟨⟨_, a1, rfl, rfl⟩, ⟨_, a2, rfl, rfl⟩⟩

/-- C20: for a portal file whose leaves are all below `portalleafs`, `LoadPortals`
fails with "Leaf with too many portals" exactly when some leaf would come to hold
more than `cap` (`MAX_PORTALS_ON_LEAF`) directed portals; otherwise it succeeds;
and whenever it succeeds, the `numportals` of every leaf is at most `cap` and is
the number of directed portals registered in that leaf, which its portal list
holds. -/
theorem C20_leaf_capacity (cap : Nat) (plane_of : List qvec3d → qplane3d)
    (portalleafs : Nat) (prt : List prtfile_portal_t)
    (hrange : ∀ sp ∈ prt, sp.leafnums.1 < portalleafs ∧ sp.leafnums.2 < portalleafs) :
    (LoadPortals cap plane_of portalleafs prt = .error "Leaf with too many portals" ↔
      ∃ X, X < portalleafs ∧ cap < (LoadPortals_expected prt 0 X).length) ∧
    ((¬ ∃ X, X < portalleafs ∧ cap < (LoadPortals_expected prt 0 X).length) →
      ∃ s, LoadPortals cap plane_of portalleafs prt = .ok s) ∧
    ∀ s, LoadPortals cap plane_of portalleafs prt = .ok s →
      ∀ X, X < portalleafs →
        (leafAt s X).numportals ≤ cap ∧
        (leafAt s X).numportals = (LoadPortals_expected prt 0 X).length ∧
        (leafAt s X).portals = LoadPortals_expected prt 0 X := by
  obtain ⟨pfail, pok⟩ := LoadPortals_run cap plane_of portalleafs prt hrange
  have hcases : (∃ X, X < portalleafs ∧ cap < (LoadPortals_expected prt 0 X).length) ∨
      ∀ X, X < portalleafs → (LoadPortals_expected prt 0 X).length ≤ cap := by
    by_cases h : ∃ X, X < portalleafs ∧ cap < (LoadPortals_expected prt 0 X).length
    · exact Or.inl h
    · refine Or.inr (fun X hX => ?_)
      by_contra hc
      exact h ⟨X, hX, by omega⟩
  refine ⟨⟨?_, pfail⟩, ?_, ?_⟩
  · intro herr
    rcases hcases with h | h
    · exact h
    · obtain ⟨s, e, _⟩ := pok h
      rw [e] at herr
      cases herr
  · intro hno
    rcases hcases with h | h
    · exact absurd h hno
    · obtain ⟨s, e, _⟩ := pok h
      exact ⟨s, e⟩
  · intro s hs X hX
    rcases hcases with h | h
    · rw [pfail h] at hs
      cases hs
    · obtain ⟨s2, e, _, _, _, hat, _⟩ := pok h
      rw [e] at hs
      simp only [Except.ok.injEq] at hs
      subst hs
      rw [hat X hX]
      exact ⟨h X hX, rfl, rfl⟩

/-! ## LoadPortals on the square -/

theorem double_prt_range :
    ∀ sp ∈ double_prt, sp.leafnums.1 < 2 ∧ sp.leafnums.2 < 2 := by
  intro sp h
  simp only [double_prt, List.mem_cons, List.mem_singleton, List.not_mem_nil, or_false] at h
  rcases h with rfl | rfl <;> exact ⟨by decide, by decide⟩

theorem double_prt_expected :
    LoadPortals_expected double_prt 0 0 = [0, 3] ∧ LoadPortals_expected double_prt 0 1 = [1, 2] :=
  ⟨rfl, rfl⟩

theorem double_prt_fit : ∀ X, X < 2 → (LoadPortals_expected double_prt 0 X).length ≤ 4 := by
  intro X hX
  rcases X with _ | _ | X
  · rw [double_prt_expected.1]; decide
  · rw [double_prt_expected.2]; decide
  · omega

theorem square_prt_range :
    ∀ sp ∈ square_prt, sp.leafnums.1 < 2 ∧ sp.leafnums.2 < 2 := by
  intro sp h
  simp only [square_prt, List.mem_singleton] at h
  subst h
  exact ⟨by decide, by decide⟩

theorem square_prt_fit : ∀ X, X < 2 → (LoadPortals_expected square_prt 0 X).length ≤ 4 := by
  intro X hX
  rcases X with _ | _ | X
  · exact (by decide : ([0] : List Nat).length ≤ 4)
  · exact (by decide : ([1] : List Nat).length ≤ 4)
  · omega

theorem LoadPortals_square :
    LoadPortals 4 flat_plane_of 2 square_prt = .ok square_state := rfl

/-- C18, witness: two portals of the file between leaves 0 and 1, the second one
listed from leaf 1 to leaf 0: leaf 0 holds the directed portals 0 and 3, leaf 1
the directed portals 1 and 2. -/
theorem C18_witness :
    (LoadPortals_expected double_prt 0 0 = [0, 3] ∧ LoadPortals_expected double_prt 0 1 = [1, 2]) ∧
    ∃ s, LoadPortals 4 flat_plane_of 2 double_prt = .ok s ∧
      s.numportals = double_prt.length ∧ s.portals.length = 2 * s.numportals ∧
      (s.leafs.map (fun l => l.numportals)).sum = 2 * s.numportals ∧
      (∀ X, X < 2 → (leafAt s X).portals = LoadPortals_expected double_prt 0 X) ∧
      ∀ (k : Nat) (sp : prtfile_portal_t), double_prt[k]? = some sp →
        (∃ q, s.portals[2 * k]? = some q ∧ q.winding = sp.winding ∧ q.leaf = sp.leafnums.2) ∧
        (∃ q, s.portals[2 * k + 1]? = some q ∧ q.winding = sp.winding.reverse ∧
          q.leaf = sp.leafnums.1) ∧
        (∀ X, X < 2 → (2 * k ∈ (leafAt s X).portals ↔ X = sp.leafnums.1)) ∧
        (∀ X, X < 2 → (2 * k + 1 ∈ (leafAt s X).portals ↔ X = sp.leafnums.2)) :=
  ⟨double_prt_expected,
    C18_two_directed_portals 4 flat_plane_of 2 double_prt double_prt_range double_prt_fit⟩

theorem flat_plane_ne (w : List qvec3d) : (flat_plane_of w).neg ≠ flat_plane_of w := by
  intro h
  have h2 := congrArg (fun p => p.normal.z) h
  norm_num [flat_plane_of, qplane3d.neg] at h2

/-- C19, counterexample: the square between leaves 0 and 1. The directed portal
with the points as given (portal 0, in the list of leaf 0) does not carry the
plane of these points, and the one with the reversed points (portal 1, in the
list of leaf 1) does not carry the negated plane. -/
theorem C19_counterexample :
    LoadPortals 4 flat_plane_of 2 square_prt = .ok square_state ∧
    ∃ q0 q1, square_state.portals[0]? = some q0 ∧ square_state.portals[1]? = some q1 ∧
      q0.winding = demo_square.points ∧ q1.winding = demo_square.points.reverse ∧
      (leafAt square_state 0).portals = [0] ∧ (leafAt square_state 1).portals = [1] ∧
      q0.plane ≠ flat_plane_of demo_square.points ∧
      q1.plane ≠ (flat_plane_of demo_square.points).neg :=
  ⟨LoadPortals_square, _, _, rfl, rfl, rfl, rfl, rfl, rfl, flat_plane_ne _,
    fun h => flat_plane_ne _ h.symm⟩

/-- C19, witness: the square between leaves 0 and 1. -/
theorem C19_witness :
    LoadPortals 4 flat_plane_of 2 square_prt = .ok square_state ∧
    ∃ s, LoadPortals 4 flat_plane_of 2 square_prt = .ok s ∧
      ∀ (k : Nat) (sp : prtfile_portal_t), square_prt[k]? = some sp →
        (∃ q, s.portals[2 * k]? = some q ∧ q.winding = sp.winding ∧
          q.plane = (flat_plane_of sp.winding).neg) ∧
        (∃ q, s.portals[2 * k + 1]? = some q ∧ q.winding = sp.winding.reverse ∧
          q.plane = flat_plane_of sp.winding) :=
  ⟨LoadPortals_square,
    C19_planes 4 flat_plane_of 2 square_prt square_prt_range square_prt_fit⟩

/-- C20, witness: two portals of the file between leaves 0 and 1 give each leaf
two directed portals: with room for one per leaf `LoadPortals` fails, with room
for four it succeeds. -/
theorem C20_witness :
    LoadPortals 1 flat_plane_of 2 double_prt = .error "Leaf with too many portals" ∧
    (∃ s, LoadPortals 4 flat_plane_of 2 double_prt = .ok s) ∧
    (LoadPortals 4 flat_plane_of 2 double_prt = .error "Leaf with too many portals" ↔
      ∃ X, X < 2 ∧ 4 < (LoadPortals_expected double_prt 0 X).length) :=
  ⟨(C20_leaf_capacity 1 flat_plane_of 2 double_prt double_prt_range).1.2
      ⟨0, by decide, by rw [double_prt_expected.1]; decide⟩,
    (C20_leaf_capacity 4 flat_plane_of 2 double_prt double_prt_range).2.1
      (fun ⟨X, hX, h⟩ => absurd (double_prt_fit X hX) (by omega)),
    (C20_leaf_capacity 4 flat_plane_of 2 double_prt double_prt_range).1⟩

/-! ## The split points of the clipper -/

theorem ClipStackWinding_sides_getD (L : vis_limits) (split : qplane3d) (pts : List qvec3d)
    (i : Nat) (hi : i < pts.length) :
    (ClipStackWinding_sides L split pts).getD i SIDE_ON =
      ClipStackWinding_side L (split.distance_to (pts.getD i { x := 0, y := 0, z := 0 })) := by
  unfold ClipStackWinding_sides
  rw [List.getD_eq_getElem?_getD, List.getElem?_append_left (by simpa using hi),
    List.getElem?_map, List.getD_eq_getElem?_getD, List.getElem?_eq_getElem hi]
  rfl

/-- C26: the coordinates of a split point of `ClipStackWinding`. Where the
component of the normal is exactly 1 the coordinate is `dist`, where it is
exactly -1 the coordinate is `-dist`, and every other coordinate is
interpolated between the two ends of the edge. -/
theorem C26_axis_coordinates (split : qplane3d) (p1 p2 : qvec3d) (d1 d2 : ℚ) :
    ((split.normal.x = 1 → (ClipStackWinding_mid split p1 p2 d1 d2).x = split.dist) ∧
      (split.normal.x = -1 → (ClipStackWinding_mid split p1 p2 d1 d2).x = -split.dist) ∧
      (split.normal.x ≠ 1 → split.normal.x ≠ -1 →
        (ClipStackWinding_mid split p1 p2 d1 d2).x = p1.x + d1 / (d1 - d2) * (p2.x - p1.x))) ∧
    ((split.normal.y = 1 → (ClipStackWinding_mid split p1 p2 d1 d2).y = split.dist) ∧
      (split.normal.y = -1 → (ClipStackWinding_mid split p1 p2 d1 d2).y = -split.dist) ∧
      (split.normal.y ≠ 1 → split.normal.y ≠ -1 →
        (ClipStackWinding_mid split p1 p2 d1 d2).y = p1.y + d1 / (d1 - d2) * (p2.y - p1.y))) ∧
    ((split.normal.z = 1 → (ClipStackWinding_mid split p1 p2 d1 d2).z = split.dist) ∧
      (split.normal.z = -1 → (ClipStackWinding_mid split p1 p2 d1 d2).z = -split.dist) ∧
      (split.normal.z ≠ 1 → split.normal.z ≠ -1 →
        (ClipStackWinding_mid split p1 p2 d1 d2).z = p1.z + d1 / (d1 - d2) * (p2.z - p1.z))) := by
  have key : ∀ (n dist a b f : ℚ),
      (n = 1 → ClipStackWinding_coord n dist a b f = dist) ∧
      (n = -1 → ClipStackWinding_coord n dist a b f = -dist) ∧
      (n ≠ 1 → n ≠ -1 → ClipStackWinding_coord n dist a b f = a + f * (b - a)) := by
    intro n dist a b f
    unfold ClipStackWinding_coord
    refine ⟨fun h => by rw [if_pos h], fun h => ?_, fun h1 h2 => by rw [if_neg h1, if_neg h2]⟩
    have : ¬ n = 1 := by rw [h]; norm_num
    rw [if_neg this, if_pos h]
  exact ⟨key _ _ _ _ _, key _ _ _ _ _, key _ _ _ _ _⟩

/-! ## The winding a clip returns -/

theorem list_eq_range_map (pts : List qvec3d) :
    pts = (List.range pts.length).map (fun i => pts.getD i { x := 0, y := 0, z := 0 }) := by
  apply List.ext_getElem?
  intro i
  rw [List.getElem?_map]
  by_cases hi : i < pts.length
  · rw [List.getElem?_range hi]
    simp [List.getD_eq_getElem?_getD, List.getElem?_eq_getElem hi]
  · rw [List.getElem?_eq_none (not_lt.1 hi), List.getElem?_eq_none (by simpa using hi)]
    rfl

theorem sublist_flatMap_of_filter {α : Type} (f : Nat → α) (q : Nat → Bool)
    (emit : Nat → List α) (l : List Nat) (h : ∀ i ∈ l, q i = true → [f i].Sublist (emit i)) :
    ((l.filter q).map f).Sublist (l.flatMap emit) := by
  induction l with
  | nil => simp
  | cons i rest ih =>
    have ih2 := ih (fun j hj => h j (List.mem_cons_of_mem _ hj))
    rw [List.flatMap_cons]
    by_cases hq : q i = true
    · rw [List.filter_cons_of_pos hq, List.map_cons]
      exact List.Sublist.append (h i (List.mem_cons_self _ _) hq) ih2
    · rw [List.filter_cons_of_neg hq]
      exact List.Sublist.trans ih2 (List.sublist_append_right _ _)

/-- The input vertices that are not classified back, in their order, are among
the points of the clipped polygon, in that order. -/
theorem ClipStackWinding_wanted_keeps (L : vis_limits) (split : qplane3d) (pts : List qvec3d) :
    (pts.filter (fun p => decide (ClipStackWinding_side L (split.distance_to p) ≠ SIDE_BACK))).Sublist
      (ClipStackWinding_wanted L split pts) := by
  have h := sublist_flatMap_of_filter (fun i => pts.getD i { x := 0, y := 0, z := 0 })
    (fun i => decide (ClipStackWinding_side L (split.distance_to
      (pts.getD i { x := 0, y := 0, z := 0 })) ≠ SIDE_BACK))
    (ClipStackWinding_emit split pts (ClipStackWinding_sides L split pts)
      (ClipStackWinding_dists split pts)) (List.range pts.length) ?_
  · unfold ClipStackWinding_wanted
    have e : pts.filter (fun p => decide (ClipStackWinding_side L (split.distance_to p) ≠
        SIDE_BACK)) =
        ((List.range pts.length).filter (fun i => decide (ClipStackWinding_side L
          (split.distance_to (pts.getD i { x := 0, y := 0, z := 0 })) ≠ SIDE_BACK))).map
          (fun i => pts.getD i { x := 0, y := 0, z := 0 }) := by
      conv_lhs => rw [list_eq_range_map pts]
      rw [List.filter_map]
      rfl
    rw [e]
    exact h
  · intro i hi hq
    rw [List.mem_range] at hi
    simp only [decide_eq_true_eq] at hq
    unfold ClipStackWinding_emit
    simp only
    rw [ClipStackWinding_sides_getD L split pts i hi]
    by_cases hon : ClipStackWinding_side L (split.distance_to
        (pts.getD i { x := 0, y := 0, z := 0 })) = SIDE_ON
    · rw [if_pos hon]
    · rw [if_neg hon]
      have hfr : ClipStackWinding_side L (split.distance_to
          (pts.getD i { x := 0, y := 0, z := 0 })) = SIDE_FRONT := by
        rcases ClipStackWinding_side_cases L (split.distance_to
          (pts.getD i { x := 0, y := 0, z := 0 })) with a | a | a
        · exact a
        · exact absurd a hq
        · exact absurd a hon
      rw [if_pos hfr]
      exact List.sublist_append_left _ _

/-- Every point of the clipped polygon is an input vertex that is not classified
back, or the split point of an edge at which the loop body generates one. -/
theorem ClipStackWinding_wanted_origin (L : vis_limits) (split : qplane3d) (pts : List qvec3d)
    (p : qvec3d) (hp : p ∈ ClipStackWinding_wanted L split pts) :
    ∃ i, i < pts.length ∧
      ((p = pts.getD i { x := 0, y := 0, z := 0 } ∧
          ClipStackWinding_side L (split.distance_to p) ≠ SIDE_BACK) ∨
        ((ClipStackWinding_sides L split pts).getD i SIDE_ON ≠ SIDE_ON ∧
          ¬ ((ClipStackWinding_sides L split pts).getD (i + 1) SIDE_ON = SIDE_ON ∨
            (ClipStackWinding_sides L split pts).getD (i + 1) SIDE_ON =
              (ClipStackWinding_sides L split pts).getD i SIDE_ON) ∧
          p = ClipStackWinding_mid split (pts.getD i { x := 0, y := 0, z := 0 })
            (pts.getD ((i + 1) % pts.length) { x := 0, y := 0, z := 0 })
            ((ClipStackWinding_dists split pts).getD i 0)
            ((ClipStackWinding_dists split pts).getD (i + 1) 0))) := by
  unfold ClipStackWinding_wanted at hp
  rw [List.mem_flatMap] at hp
  obtain ⟨i, hi, hmem⟩ := hp
  rw [List.mem_range] at hi
  refine ⟨i, hi, ?_⟩
  unfold ClipStackWinding_emit at hmem
  simp only at hmem
  have hsd := ClipStackWinding_sides_getD L split pts i hi
  by_cases hon : (ClipStackWinding_sides L split pts).getD i SIDE_ON = SIDE_ON
  · rw [if_pos hon, List.mem_singleton] at hmem
    left
    refine ⟨hmem, ?_⟩
    rw [hmem, ← hsd, hon]
    decide
  · rw [if_neg hon, List.mem_append] at hmem
    rcases hmem with h1 | h2
    · by_cases hfr : (ClipStackWinding_sides L split pts).getD i SIDE_ON = SIDE_FRONT
      · rw [if_pos hfr, List.mem_singleton] at h1
        left
        refine ⟨h1, ?_⟩
        rw [h1, ← hsd, hfr]
        decide
      · rw [if_neg hfr] at h1
        simp at h1
    · by_cases hg : (ClipStackWinding_sides L split pts).getD (i + 1) SIDE_ON = SIDE_ON ∨
          (ClipStackWinding_sides L split pts).getD (i + 1) SIDE_ON =
            (ClipStackWinding_sides L split pts).getD i SIDE_ON
      · rw [if_pos hg] at h2
        simp at h2
      · rw [if_neg hg, List.mem_singleton] at h2
        exact Or.inr ⟨hon, hg, h2⟩

/-- C27: the winding `ClipStackWinding` returns when the result is not the input
(for a pool of `STACK_WINDINGS` windings and an input whose slot, if it has one, is in
use). It is a slot of the pool; it
has at most `MAX_WINDING_FIXED` points; each of them is an input vertex that is
not classified back or a split point the loop body generates; the input vertices
classified front or on are among them, in their order; and it carries the
origin and the radius of the input. -/
theorem C27_clipped_winding (L : vis_limits) (inp : winding_ptr) (stack : pstack_t)
    (split : qplane3d) (c_noclip : Int) (r : winding_ptr) (st : pstack_t) (c2 : Int)
    (hlen : stack.windings.length = L.STACK_WINDINGS)
    (hin : ∀ i, inp = .slot i → stack.windings_used[i]? = some true)
    (h : ClipStackWinding L inp stack split c_noclip = .ok (some r, st, c2))
    (hnew : r ≠ inp) :
    (∃ k, r = .slot k ∧ k < L.STACK_WINDINGS) ∧
    (winding_at st r).points = ClipStackWinding_wanted L split (winding_at stack inp).points ∧
    (winding_at st r).points.length ≤ L.MAX_WINDING_FIXED ∧
    (∀ p ∈ (winding_at st r).points, ∃ i, i < (winding_at stack inp).points.length ∧
      ((p = (winding_at stack inp).points.getD i { x := 0, y := 0, z := 0 } ∧
          ClipStackWinding_side L (split.distance_to p) ≠ SIDE_BACK) ∨
        ((ClipStackWinding_sides L split (winding_at stack inp).points).getD i SIDE_ON ≠
            SIDE_ON ∧
          ¬ ((ClipStackWinding_sides L split (winding_at stack inp).points).getD (i + 1)
                SIDE_ON = SIDE_ON ∨
            (ClipStackWinding_sides L split (winding_at stack inp).points).getD (i + 1)
                SIDE_ON =
              (ClipStackWinding_sides L split (winding_at stack inp).points).getD i SIDE_ON) ∧
          p = ClipStackWinding_mid split
            ((winding_at stack inp).points.getD i { x := 0, y := 0, z := 0 })
            ((winding_at stack inp).points.getD ((i + 1) % (winding_at stack inp).points.length)
              { x := 0, y := 0, z := 0 })
            ((ClipStackWinding_dists split (winding_at stack inp).points).getD i 0)
            ((ClipStackWinding_dists split (winding_at stack inp).points).getD (i + 1) 0)))) ∧
    ((winding_at stack inp).points.filter
        (fun p => decide (ClipStackWinding_side L (split.distance_to p) ≠ SIDE_BACK))).Sublist
      (winding_at st r).points ∧
    (winding_at st r).origin = (winding_at stack inp).origin ∧
    (winding_at st r).radius = (winding_at stack inp).radius := by
  have hsame : ∀ (s2 : pstack_t), (Except.ok (some inp, s2, c_noclip) : Except String _) ≠
      .ok (some r, st, c2) := by
    intro s2 e
    simp only [Except.ok.injEq, Prod.mk.injEq, Option.some.injEq] at e
    exact hnew e.1.symm
  have hnull : ∀ (s2 : pstack_t), (Except.ok (none, s2, c_noclip) : Except String _) ≠
      .ok (some r, st, c2) := by
    intro s2 e
    simp only [Except.ok.injEq, Prod.mk.injEq] at e
    cases e.1
  unfold ClipStackWinding at h
  simp only at h
  split at h
  · exact absurd h (hnull _)
  split at h
  · exact absurd h (hsame _)
  split at h
  · cases h
  split at h
  · exact absurd h (hsame _)
  split at h
  · exact absurd h (hnull _)
  split at h
  · exact absurd h (hsame _)
  cases halloc : AllocStackWinding L stack with
  | error e =>
    unfold ClipStackWinding_clip at h
    rw [halloc] at h
    cases h
  | ok p =>
    obtain ⟨k, stack1⟩ := p
    obtain ⟨hne, hw, hclip⟩ := ClipStackWinding_clip_spec L inp stack split c_noclip hin k
      stack1 halloc
    obtain ⟨hk, hkfree, hs1⟩ := AllocStackWinding_ok L stack k stack1 halloc
    rw [hclip] at h
    split at h
    · rename_i hfit
      simp only [Except.ok.injEq, Prod.mk.injEq, Option.some.injEq] at h
      obtain ⟨e1, e2, _⟩ := h
      subst e1
      have hkw : k < stack.windings.length := by rw [hlen]; exact hk
      have hwst : winding_at st (.slot k) =
          { origin := (winding_at stack inp).origin, radius := (winding_at stack inp).radius,
            points := ClipStackWinding_wanted L split (winding_at stack inp).points } := by
        rw [← e2]
        have hfw : ∀ (s1 : pstack_t), (FreeStackWinding L inp s1).2.windings = s1.windings := by
          intro s1
          unfold FreeStackWinding
          cases inp with
          | slot i => simp only; split <;> rfl
          | other w => rfl
        unfold winding_at
        rw [hfw, hs1]
        simp [List.getD_eq_getElem?_getD, List.getElem?_set, hkw]
      rw [hwst]
      refine ⟨⟨k, rfl, hk⟩, rfl, hfit, ?_, ClipStackWinding_wanted_keeps L split _, rfl, rfl⟩
      intro p hp
      exact ClipStackWinding_wanted_origin L split _ p hp
    · simp only [Except.ok.injEq, Prod.mk.injEq, Option.some.injEq] at h
      exact absurd h.1.symm hnew

/-! ## FreeStackWinding, and the clipper claims on the square -/

/-- What `FreeStackWinding` does, by the position of the pointer: the flag of a
slot `i ≤ STACK_WINDINGS` is cleared and the pointer nulled, the write being
outside the flag array when `i` is not below its length; a slot beyond and a
winding outside the array are left alone. -/
theorem FreeStackWinding_spec (L : vis_limits) (stack : pstack_t) :
    (∀ i, i ≤ L.STACK_WINDINGS → FreeStackWinding L (.slot i) stack =
      (none, { stack with
        windings_used := stack.windings_used.set i false,
        overrun := stack.overrun || decide (stack.windings_used.length ≤ i) })) ∧
    (∀ i, L.STACK_WINDINGS < i →
      FreeStackWinding L (.slot i) stack = (some (.slot i), stack)) ∧
    (∀ w, FreeStackWinding L (.other w) stack = (some (.other w), stack)) := by
  refine ⟨?_, ?_, fun _ => rfl⟩
  · intro i hi
    unfold FreeStackWinding
    simp only [hi, if_true]
  · intro i hi
    unfold FreeStackWinding
    simp only [Nat.not_le.2 hi, if_false]

/-- C26, witness: a split point on the plane `x = 1` has first coordinate 1, and on
the opposite plane, whose normal has first component -1 and distance -1, also 1;
its second coordinate is interpolated. -/
theorem C26_witness :
    (ClipStackWinding_mid (plane_x 1) { x := 0, y := 0, z := 0 } { x := 2, y := 4, z := 0 }
      (-1) 1).x = 1 ∧
    (ClipStackWinding_mid (plane_x 1).neg { x := 0, y := 0, z := 0 } { x := 2, y := 4, z := 0 }
      1 (-1)).x = -(plane_x 1).neg.dist ∧
    (ClipStackWinding_mid (plane_x 1) { x := 0, y := 0, z := 0 } { x := 2, y := 4, z := 0 }
      (-1) 1).y = 0 + (-1) / (-1 - 1) * (4 - 0) :=
  ⟨(C26_axis_coordinates (plane_x 1) { x := 0, y := 0, z := 0 } { x := 2, y := 4, z := 0 }
      (-1) 1).1.1 rfl,
    (C26_axis_coordinates (plane_x 1).neg { x := 0, y := 0, z := 0 } { x := 2, y := 4, z := 0 }
      1 (-1)).1.2.1 (by norm_num [plane_x, qplane3d.neg]),
    (C26_axis_coordinates (plane_x 1) { x := 0, y := 0, z := 0 } { x := 2, y := 4, z := 0 }
      (-1) 1).2.1.2.2 (by norm_num [plane_x]) (by norm_num [plane_x])⟩

/-- C27, witness: the square of slot 0 clipped to the plane `x = 1`; the new
winding is slot 1 and holds the half square. -/
theorem C27_witness :
    ClipStackWinding demo_limits (.slot 0) demo_stack (plane_x 1) 0 =
        .ok (some (.slot 1), demo_clipped, 0) ∧
    (winding_at demo_clipped (.slot 1)).points = demo_half ∧
    (winding_at demo_clipped (.slot 1)).points =
      ClipStackWinding_wanted demo_limits (plane_x 1) (winding_at demo_stack (.slot 0)).points ∧
    (winding_at demo_clipped (.slot 1)).points.length ≤ demo_limits.MAX_WINDING_FIXED ∧
    ((winding_at demo_stack (.slot 0)).points.filter
        (fun p => decide (ClipStackWinding_side demo_limits ((plane_x 1).distance_to p) ≠
          SIDE_BACK))).Sublist (winding_at demo_clipped (.slot 1)).points ∧
    (winding_at demo_clipped (.slot 1)).origin = (winding_at demo_stack (.slot 0)).origin ∧
    (winding_at demo_clipped (.slot 1)).radius = (winding_at demo_stack (.slot 0)).radius :=
  have h := C27_clipped_winding demo_limits (.slot 0) demo_stack (plane_x 1) 0 (.slot 1)
    demo_clipped 0 rfl demo_in_use demo_clip (by intro e; cases e)
  ⟨demo_clip, rfl, h.2.1, h.2.2.1, h.2.2.2.2.1, h.2.2.2.2.2.1, h.2.2.2.2.2.2⟩

/-! ## The exact effect of UpdateMightsee -/

theorem countP_range_split (p : Nat → Bool) (d : Nat) (N : Nat) :
    ((List.range N).countP (fun i => p i && decide (i ≠ d))) +
        (if d < N ∧ p d = true then 1 else 0) =
      (List.range N).countP p := by
  induction N with
  | zero => simp
  | succ N ih =>
    rw [List.range_succ, List.countP_append, List.countP_append, ← ih]
    simp only [List.countP_cons, List.countP_nil, Nat.zero_add]
    by_cases hd : d < N
    · have hne : N ≠ d := by omega
      by_cases hp : p d = true
      · simp [hd, hp, hne, Nat.lt_succ_of_lt hd]
        omega
      · simp [hd, hp, hne]
    · by_cases hN : N = d
      · subst hN
        by_cases hp : p N = true
        · simp [hp]
        · simp [hp]
      · have : ¬ d < N + 1 := by omega
        simp [hd, this, hN]

/-- Clearing a bit that is set lowers the number of set bits by exactly one. -/
theorem popcount_setLeafBit_false (bits : leafbits_t) (d : Nat)
    (h : testLeafBit bits d = true) :
    popcount (setLeafBit bits d false) + 1 = popcount bits := by
  have hlen : d < 32 * bits.length := by
    by_contra hc
    rw [testLeafBit_eq, getBlock_of_le bits (d / 32) (by omega)] at h
    simp at h
  unfold popcount
  rw [length_setLeafBit]
  have e : (fun i => testLeafBit (setLeafBit bits d false) i) =
      fun i => testLeafBit bits i && decide (i ≠ d) := by
    funext i
    exact testLeafBit_setLeafBit_false bits d i
  rw [e, ← countP_range_split (fun i => testLeafBit bits i) d (32 * bits.length),
    if_pos ⟨hlen, h⟩]

theorem UpdateMightsee_portal_getElem? (dest : Nat) (s : State) (p r : Nat) :
    (UpdateMightsee_portal dest s p).portals[r]? = (s.portals[r]?).map (fun q =>
      if r = p ∧ q.status = pstat_none ∧ testLeafBit q.mightsee dest = true
      then UpdateMightsee_cleared dest q else q) := by
  unfold UpdateMightsee_portal
  cases hq : s.portals[p]? with
  | none =>
    simp only
    by_cases hr : r = p
    · subst hr; rw [hq]; rfl
    · cases h2 : s.portals[r]? with
      | none => rfl
      | some q2 => simp [hr]
  | some q =>
    simp only
    by_cases hst : q.status = pstat_none
    · by_cases hb : testLeafBit q.mightsee dest = true
      · rw [if_neg (not_not.2 hst), if_pos hb]
        simp only [List.getElem?_set]
        by_cases hr : r = p
        · subst hr
          have hlt := getElem?_lt hq
          simp [hlt, hq, hst, hb, UpdateMightsee_cleared]
        · have hpr : ¬ p = r := fun e => hr e.symm
          simp only [hpr, if_false]
          cases h2 : s.portals[r]? with
          | none => rfl
          | some q2 => simp [hr]
      · rw [if_neg (not_not.2 hst), if_neg hb]
        by_cases hr : r = p
        · subst hr; rw [hq]; simp [hb]
        · cases h2 : s.portals[r]? with
          | none => rfl
          | some q2 => simp [hr]
    · rw [if_pos hst]
      by_cases hr : r = p
      · subst hr; rw [hq]; simp [hst]
      · cases h2 : s.portals[r]? with
        | none => rfl
        | some q2 => simp [hr]

theorem UpdateMightsee_portal_frame (dest : Nat) (s : State) (p : Nat) :
    (UpdateMightsee_portal dest s p).leafs = s.leafs ∧
    (UpdateMightsee_portal dest s p).numportals = s.numportals ∧
    (UpdateMightsee_portal dest s p).portalleafs = s.portalleafs := by
  unfold UpdateMightsee_portal
  split
  · exact ⟨rfl, rfl, rfl⟩
  · split
    · exact ⟨rfl, rfl, rfl⟩
    · split <;> exact ⟨rfl, rfl, rfl⟩

theorem UpdateMightsee_cleared_idem (dest : Nat) (q : visportal_t) :
    ¬ ((UpdateMightsee_cleared dest q).status = pstat_none ∧
      testLeafBit (UpdateMightsee_cleared dest q).mightsee dest = true) := by
  rintro ⟨_, h⟩
  simp [UpdateMightsee_cleared, testLeafBit_setLeafBit_false] at h

/-- The loop of `UpdateMightsee` over a list of entries of the source leaf: the
portals of these entries that are unprocessed and have the bit set get it
cleared and their count lowered by one, once; every other portal is as it was. -/
theorem UpdateMightsee_fold (dest : Nat) (src : leaf_t) (is : List Nat) :
    ∀ (s : State),
      let t := is.foldl (fun st i =>
        match src.portals[i]? with
        | some p => UpdateMightsee_portal dest st p
        | none => st) s
      t.leafs = s.leafs ∧ t.numportals = s.numportals ∧ t.portalleafs = s.portalleafs ∧
      ∀ r, t.portals[r]? = (s.portals[r]?).map (fun q =>
        if r ∈ is.filterMap (fun i => src.portals[i]?) ∧ q.status = pstat_none ∧
            testLeafBit q.mightsee dest = true
        then UpdateMightsee_cleared dest q else q) := by
  induction is with
  | nil =>
    intro s
    refine ⟨rfl, rfl, rfl, ?_⟩
    intro r
    simp only [List.foldl_nil, List.filterMap_nil, List.not_mem_nil, false_and, if_false]
    cases hq : s.portals[r]? <;> rfl
  | cons i rest ih =>
    intro s
    simp only [List.foldl_cons]
    cases hp : src.portals[i]? with
    | none =>
      simp only
      obtain ⟨a, b, c, d⟩ := ih s
      refine ⟨a, b, c, ?_⟩
      intro r
      rw [d r, List.filterMap_cons, hp]
    | some p =>
      simp only
      obtain ⟨a, b, c, d⟩ := ih (UpdateMightsee_portal dest s p)
      obtain ⟨f1, f2, f3⟩ := UpdateMightsee_portal_frame dest s p
      refine ⟨a.trans f1, b.trans f2, c.trans f3, ?_⟩
      intro r
      rw [d r, UpdateMightsee_portal_getElem?, List.filterMap_cons, hp]
      cases hq : s.portals[r]? with
      | none => rfl
      | some q =>
        simp only [Option.map_some', Option.some.injEq, List.mem_cons]
        by_cases hc : q.status = pstat_none ∧ testLeafBit q.mightsee dest = true
        · by_cases hr : r = p
          · have e1 : (if r = p ∧ q.status = pstat_none ∧ testLeafBit q.mightsee dest = true
                then UpdateMightsee_cleared dest q else q) = UpdateMightsee_cleared dest q :=
              if_pos ⟨hr, hc⟩
            rw [e1, if_neg (fun h => UpdateMightsee_cleared_idem dest q h.2),
              if_pos ⟨Or.inl hr, hc⟩]
          · have e1 : (if r = p ∧ q.status = pstat_none ∧ testLeafBit q.mightsee dest = true
                then UpdateMightsee_cleared dest q else q) = q :=
              if_neg (fun h => hr h.1)
            rw [e1]
            by_cases hm : r ∈ rest.filterMap (fun i => src.portals[i]?)
            · rw [if_pos ⟨hm, hc⟩, if_pos ⟨Or.inr hm, hc⟩]
            · rw [if_neg (fun h => hm h.1), if_neg (fun h => h.1.elim hr hm)]
        · have e1 : (if r = p ∧ q.status = pstat_none ∧ testLeafBit q.mightsee dest = true
              then UpdateMightsee_cleared dest q else q) = q :=
            if_neg (fun h => hc h.2)
          rw [e1, if_neg (fun h => hc h.2), if_neg (fun h => hc h.2)]

theorem mem_entries_iff_onLeaf (s : State) (source r : Nat) :
    r ∈ (List.range (leafAt s source).numportals).filterMap
        (fun i => (leafAt s source).portals[i]?) ↔ onLeaf s source r := by
  unfold onLeaf
  rw [List.mem_filterMap]
  constructor
  · rintro ⟨i, hi, h⟩
    exact ⟨i, List.mem_range.1 hi, h⟩
  · rintro ⟨i, hi, h⟩
    exact ⟨i, List.mem_range.2 hi, h⟩

/-- C23: the effect of `UpdateMightsee(source, dest)`. A portal that is entered in
the portal list of `source`, is unprocessed and has the bit of `dest` in
`mightsee` comes out with exactly that bit cleared and `nummightsee` lowered by
one, all its other fields and bits as before, so that a count equal to the
number of set bits stays equal; every other portal (in progress, done, without
the bit, or of another leaf) is as it was, and so are the leaves. -/
theorem C23_update_mightsee (s : State) (source dest : Nat) :
    (UpdateMightsee s source dest).leafs = s.leafs ∧
    (UpdateMightsee s source dest).portals.length = s.portals.length ∧
    (∀ (r : Nat) (q : visportal_t), s.portals[r]? = some q →
      ((onLeaf s source r ∧ q.status = pstat_none ∧ testLeafBit q.mightsee dest = true) →
        (UpdateMightsee s source dest).portals[r]? = some (UpdateMightsee_cleared dest q)) ∧
      (¬ (onLeaf s source r ∧ q.status = pstat_none ∧ testLeafBit q.mightsee dest = true) →
        (UpdateMightsee s source dest).portals[r]? = some q)) ∧
    ∀ (q : visportal_t),
      (UpdateMightsee_cleared dest q).visbits = q.visbits ∧
      (UpdateMightsee_cleared dest q).status = q.status ∧
      (UpdateMightsee_cleared dest q).leaf = q.leaf ∧
      (UpdateMightsee_cleared dest q).nummightsee = q.nummightsee - 1 ∧
      (UpdateMightsee_cleared dest q).mightsee.length = q.mightsee.length ∧
      (∀ k, testLeafBit (UpdateMightsee_cleared dest q).mightsee k =
        (testLeafBit q.mightsee k && decide (k ≠ dest))) ∧
      (testLeafBit q.mightsee dest = true → q.nummightsee = (popcount q.mightsee : Int) →
        (UpdateMightsee_cleared dest q).nummightsee =
          (popcount (UpdateMightsee_cleared dest q).mightsee : Int)) := by
  obtain ⟨a, _, _, d⟩ := UpdateMightsee_fold dest (leafAt s source)
    (List.range (leafAt s source).numportals) s
  have hd : ∀ r, (UpdateMightsee s source dest).portals[r]? = (s.portals[r]?).map (fun q =>
      if r ∈ (List.range (leafAt s source).numportals).filterMap
          (fun i => (leafAt s source).portals[i]?) ∧ q.status = pstat_none ∧
          testLeafBit q.mightsee dest = true
      then UpdateMightsee_cleared dest q else q) := d
  refine ⟨a, ?_, ?_, ?_⟩
  · by_contra hne
    rcases Nat.lt_or_gt_of_ne hne with h | h
    · have h1 := hd (UpdateMightsee s source dest).portals.length
      rw [List.getElem?_eq_none (le_refl _), List.getElem?_eq_getElem h] at h1
      simp at h1
    · have h1 := hd s.portals.length
      rw [List.getElem?_eq_none (le_refl _), List.getElem?_eq_getElem h] at h1
      simp at h1
  · intro r q hq
    have h1 := hd r
    have hm := mem_entries_iff_onLeaf s source r
    rw [hq] at h1
    simp only [Option.map_some'] at h1
    refine ⟨fun h => ?_, fun h => ?_⟩
    · rw [h1, if_pos ⟨hm.2 h.1, h.2⟩]
    · rw [h1, if_neg (fun h2 => h ⟨hm.1 h2.1, h2.2⟩)]
  · intro q
    refine ⟨rfl, rfl, rfl, rfl, length_setLeafBit q.mightsee dest false,
      fun k => testLeafBit_setLeafBit_false q.mightsee dest k, ?_⟩
    intro hb hn
    have := popcount_setLeafBit_false q.mightsee dest hb
    simp only [UpdateMightsee_cleared]
    rw [hn]
    omega

/-- C23, witness: on the chain, `UpdateMightsee` for source leaf 2 and dest leaf 0
clears bit 0 of the unprocessed portal 3 of leaf 2 and lowers its count from 2 to
1; portal 2, of another leaf, is as it was. -/
theorem C23_witness :
    (UpdateMightsee chain_state 2 0).portals[3]? =
      some { chain_portal3 with mightsee := [2], nummightsee := 1 } ∧
    (UpdateMightsee chain_state 2 0).portals[2]? = some chain_portal2 ∧
    (chain_portal3.nummightsee = (popcount chain_portal3.mightsee : Int) →
      (UpdateMightsee_cleared 0 chain_portal3).nummightsee =
        (popcount (UpdateMightsee_cleared 0 chain_portal3).mightsee : Int)) :=
  ⟨((C23_update_mightsee chain_state 2 0).2.2.1 3 chain_portal3 rfl).1
      ⟨⟨0, by decide, rfl⟩, rfl, rfl⟩,
    ((C23_update_mightsee chain_state 2 0).2.2.1 2 chain_portal2 rfl).2
      (by
        rintro ⟨⟨k, hk, h⟩, -⟩
        have hk0 : k = 0 := Nat.lt_one_iff.1 hk
        subst hk0
        simp [leafAt, chain_state, chain_leafs] at h),
    ((C23_update_mightsee chain_state 2 0).2.2.2 chain_portal3).2.2.2.2.2.2 rfl⟩

/-! ## Symmetry of the merged rows -/

/-- The row of cluster `A`, all portals done: `ClusterFlow` succeeds, and bit `B` of
the row is set exactly when `B` is `A` or a portal of `A` sees `B`. -/
theorem CalcVis_row_spec (s : State) (hdone : ∀ q ∈ s.portals, q.status = pstat_done)
    (A : Nat) (hA : A < s.portalleafs) :
    ClusterFlow_accumulate s A (leafbits_zero s.portalleafs) = .ok (CalcVis_row s A) ∧
    ∀ B, B < s.portalleafs →
      (testLeafBit (CalcVis_row s A) B = true ↔ B = A ∨ leaf_sees s A B) := by
  have hzlen : (leafbits_zero s.portalleafs).length = numblocks s := by
    simp [leafbits_zero, numblocks]
  obtain ⟨row, h1, h2, h3⟩ := ClusterFlow_collect_spec s (leafAt s A)
    (List.range (leafAt s A).numportals) (leafbits_zero s.portalleafs) hzlen
    (fun i p q _ _ hq => hdone q (List.getElem?_mem hq))
  have hacc : ClusterFlow_accumulate s A (leafbits_zero s.portalleafs) =
      .ok (setLeafBit row A true) := by
    unfold ClusterFlow_accumulate
    rw [h1]
  have hrow : CalcVis_row s A = setLeafBit row A true := by
    unfold CalcVis_row
    rw [hacc]
  rw [hrow]
  refine ⟨hacc, ?_⟩
  intro B hB
  rw [testLeafBit_setLeafBit_true _ _ _ (by rw [h2]; exact div32_lt_numblocks s A hA)]
  simp only [Bool.or_eq_true, decide_eq_true_eq]
  rw [h3 B (div32_lt_numblocks s B hB), testLeafBit_of_zero _ (by simp [leafbits_zero])]
  unfold leaf_sees
  constructor
  · rintro ((h | ⟨i, p, q, hi, a, d, e⟩) | h)
    · exact absurd h (by simp)
    · exact Or.inr ⟨i, p, q, List.mem_range.1 hi, a, d, e⟩
    · exact Or.inl h
  · rintro (h | ⟨i, p, q, hi, a, d, e⟩)
    · exact Or.inr h
    · exact Or.inl (Or.inr ⟨i, p, q, List.mem_range.2 hi, a, d, e⟩)

/-- With all portals done, the row `ClusterFlow` accumulates for `A` has bit `B` set
exactly when `B` is `A` or some portal in the list of `A` has `B` in its
`visbits`; the rows are symmetric if and only if the portals are: for all
different `A` and `B`, some portal of `A` sees `B` exactly when some portal of
`B` sees `A`. -/
theorem CalcVis_rows_symmetric_iff (s : State) (hdone : ∀ q ∈ s.portals, q.status = pstat_done) :
    (∀ A, A < s.portalleafs →
      ClusterFlow_accumulate s A (leafbits_zero s.portalleafs) = .ok (CalcVis_row s A)) ∧
    (∀ A B, A < s.portalleafs → B < s.portalleafs →
      (testLeafBit (CalcVis_row s A) B = true ↔ B = A ∨ leaf_sees s A B)) ∧
    ((∀ A B, A < s.portalleafs → B < s.portalleafs →
        (testLeafBit (CalcVis_row s A) B = true ↔ testLeafBit (CalcVis_row s B) A = true)) ↔
      (∀ A B, A < s.portalleafs → B < s.portalleafs → A ≠ B →
        (leaf_sees s A B ↔ leaf_sees s B A))) := by
  have hbit : ∀ A B, A < s.portalleafs → B < s.portalleafs →
      (testLeafBit (CalcVis_row s A) B = true ↔ B = A ∨ leaf_sees s A B) :=
    fun A B hA hB => (CalcVis_row_spec s hdone A hA).2 B hB
  refine ⟨fun A hA => (CalcVis_row_spec s hdone A hA).1, hbit, ?_⟩
  constructor
  · intro hsym A B hA hB hne
    have h1 := hbit A B hA hB
    have h2 := hbit B A hB hA
    have h3 := hsym A B hA hB
    constructor
    · intro h
      rcases h2.1 (h3.1 (h1.2 (Or.inr h))) with e | e
      · exact absurd e hne
      · exact e
    · intro h
      rcases h1.1 (h3.2 (h2.2 (Or.inr h))) with e | e
      · exact absurd e.symm hne
      · exact e
  · intro hsym A B hA hB
    rw [hbit A B hA hB, hbit B A hB hA]
    by_cases hne : A = B
    · subst hne
      exact Iff.rfl
    · have := hsym A B hA hB hne
      constructor
      · rintro (e | e)
        · exact absurd e.symm hne
        · exact Or.inr (this.1 e)
      · rintro (e | e)
        · exact absurd e hne
        · exact Or.inr (this.2 e)

/-! ## Every unit of work resolves one portal -/

theorem counts_exact_setStatus (s : State) (p : Nat) (st : pstatus_t) (hst : st ≠ pstat_none)
    (h : counts_exact s) : counts_exact (setStatus s p st) := by
  intro r q hq hnone
  rw [setStatus_getElem?] at hq
  by_cases hr : r = p
  · rw [if_pos hr] at hq
    cases hq0 : s.portals[p]? with
    | none => rw [hq0] at hq; cases hq
    | some q0 =>
      rw [hq0] at hq
      simp only [Option.map_some', Option.some.injEq] at hq
      subst hq
      exact absurd hnone hst
  · rw [if_neg hr] at hq
    exact h r q hq hnone

theorem counts_exact_PortalFlow (flow : State → Nat → leafbits_t) (s : State) (p : Nat)
    (h : counts_exact s) : counts_exact (PortalFlow flow s p) := by
  intro r q hq hnone
  rw [PortalFlow_getElem?] at hq
  by_cases hr : r = p
  · rw [if_pos hr] at hq
    cases hq0 : s.portals[p]? with
    | none => rw [hq0] at hq; cases hq
    | some q0 =>
      rw [hq0] at hq
      simp only [Option.map_some', Option.some.injEq] at hq
      subst hq
      exact h p q0 hq0 hnone
  · rw [if_neg hr] at hq
    exact h r q hq hnone

theorem counts_exact_UpdateMightsee_portal (dest : Nat) (s : State) (p : Nat)
    (h : counts_exact s) : counts_exact (UpdateMightsee_portal dest s p) := by
  intro r q hq hnone
  rw [UpdateMightsee_portal_getElem?] at hq
  cases hq0 : s.portals[r]? with
  | none => rw [hq0] at hq; cases hq
  | some q0 =>
    rw [hq0] at hq
    simp only [Option.map_some', Option.some.injEq] at hq
    by_cases hc : r = p ∧ q0.status = pstat_none ∧ testLeafBit q0.mightsee dest = true
    · rw [if_pos hc] at hq
      subst hq
      obtain ⟨h1, h2⟩ := h r q0 hq0 hc.2.1
      have hp := popcount_setLeafBit_false q0.mightsee dest hc.2.2
      simp only [UpdateMightsee_cleared]
      constructor
      · rw [h1]; omega
      · omega
    · rw [if_neg hc] at hq
      rw [← hq] at hnone ⊢
      exact h r q0 hq0 hnone

theorem counts_exact_UpdateMightsee (s : State) (source dest : Nat) (h : counts_exact s) :
    counts_exact (UpdateMightsee s source dest) := by
  unfold UpdateMightsee
  apply foldl_inv counts_exact _ _ _ s h
  intro st i _ hst
  split
  · exact counts_exact_UpdateMightsee_portal dest st _ hst
  · exact hst

theorem counts_exact_PortalCompleted_update (L j : Nat) (fuel changed : Nat) (s : State)
    (h : counts_exact s) : counts_exact (PortalCompleted_update L j fuel changed s) := by
  induction fuel generalizing changed s with
  | zero => exact h
  | succ n ih =>
    unfold PortalCompleted_update
    split
    · exact h
    · exact ih _ _ (counts_exact_UpdateMightsee s _ L h)

theorem counts_exact_PortalCompleted_block (myleaf : leaf_t) (L i p : Nat) (s : State) (j : Nat)
    (h : counts_exact s) : counts_exact (PortalCompleted_block myleaf L i p s j) := by
  unfold PortalCompleted_block
  split
  · exact h
  · dsimp only
    split
    · exact h
    · exact counts_exact_PortalCompleted_update L j 32 _ s h

theorem counts_exact_PortalCompleted_portal (myleaf : leaf_t) (L : Nat) (s : State) (i : Nat)
    (h : counts_exact s) : counts_exact (PortalCompleted_portal myleaf L s i) := by
  unfold PortalCompleted_portal
  split
  · exact h
  · split
    · exact h
    · split
      · exact h
      · exact foldl_inv counts_exact _ _
          (fun st j _ hst => counts_exact_PortalCompleted_block myleaf L i _ st j hst) s h

theorem counts_exact_PortalCompleted (s : State) (completed : Nat) (h : counts_exact s) :
    counts_exact (PortalCompleted s completed) := by
  unfold PortalCompleted
  exact foldl_inv counts_exact _ _
    (fun st i _ hst => counts_exact_PortalCompleted_portal _ _ st i hst) _
    (counts_exact_setStatus s completed pstat_done (by decide) h)

/-- With exact counts, `GetNextPortal` finds a portal whenever one is unprocessed. -/
theorem GetNextPortal_finds (s : State) (h : counts_exact s) (r : Nat)
    (hr : statusAt s r = some pstat_none) : ∃ p, (GetNextPortal s).1 = some p := by
  unfold statusAt at hr
  cases hq : s.portals[r]? with
  | none => rw [hq] at hr; cases hr
  | some q =>
    rw [hq] at hr
    simp only [Option.map_some', Option.some.injEq] at hr
    obtain ⟨h1, h2⟩ := h r q hq hr
    unfold GetNextPortal
    rcases GetNextPortal_scan_spec s.portals 0 none INT_MAX with ⟨_, hall⟩ | ⟨k, q2, _, e, _⟩
    · exfalso
      have h3 := hall q (List.getElem?_mem hq) hr
      have h4 := toU32_of_range q.nummightsee (by rw [h1]; omega)
        (by rw [h1]; unfold INT_MAX at h2; omega)
      unfold INT_MAX at h3 h2
      omega
    · rw [e]
      exact ⟨_, rfl⟩

theorem counts_exact_LeafThread (flow : State → Nat → leafbits_t) (s : State)
    (h : counts_exact s) : counts_exact (LeafThread flow s).2 := by
  unfold LeafThread
  rcases hg : GetNextPortal s with ⟨_ | p, s1⟩
  · have := GetNextPortal_none s (by rw [hg])
    rw [hg] at this
    simp only at this ⊢
    rw [this]
    exact h
  · have := (GetNextPortal_some s p (by rw [hg])).2
    rw [hg] at this
    simp only at this ⊢
    rw [this]
    exact counts_exact_PortalCompleted _ p
      (counts_exact_PortalFlow flow _ p (counts_exact_setStatus s p _ (by decide) h))

theorem countP_range_flip (f g : Nat → Bool) (p N : Nat) (hp : p < N)
    (hf : f p = true) (hg : g p = false) (hother : ∀ r, r ≠ p → g r = f r) :
    (List.range N).countP g + 1 = (List.range N).countP f := by
  have e : g = fun i => f i && decide (i ≠ p) := by
    funext i
    by_cases hi : i = p
    · subst hi; simp [hg]
    · simp [hi, hother i hi]
  rw [e, ← countP_range_split f p N, if_pos ⟨hp, hf⟩]

/-- A unit of work that selects a portal leaves one unprocessed portal fewer. -/
theorem unprocessed_count_LeafThread (flow : State → Nat → leafbits_t) (s : State) (p : Nat)
    (h : (LeafThread flow s).1 = some p) :
    unprocessed_count (LeafThread flow s).2 + 1 = unprocessed_count s := by
  obtain ⟨h0, h1⟩ := statusAt_LeafThread flow s p h
  have hlen : (LeafThread flow s).2.portals.length = s.portals.length :=
    (Mono_LeafThread flow s).1
  have hp : p < s.portals.length := by
    unfold statusAt at h0
    cases hq : s.portals[p]? with
    | none => rw [hq] at h0; cases h0
    | some q => exact getElem?_lt hq
  unfold unprocessed_count
  rw [hlen]
  apply countP_range_flip _ _ p _ hp
  · simp [h0]
  · rw [h1 p]; simp
  · intro r hr
    rw [h1 r, if_neg hr]

/-- With exact counts and at least `n` unprocessed portals, each of `n` units of
work selects a portal. -/
theorem LeafThread_run_length (flow : State → Nat → leafbits_t) (n : Nat) :
    ∀ (s : State), counts_exact s → n ≤ unprocessed_count s →
      (LeafThread_run flow n s).1.length = n := by
  induction n with
  | zero => intro s _ _; rfl
  | succ n ih =>
    intro s hc hn
    have hex : ∃ r, statusAt s r = some pstat_none := by
      by_contra hno
      have : unprocessed_count s = 0 := by
        unfold unprocessed_count
        rw [List.countP_eq_zero]
        intro r _
        simp only [decide_eq_true_eq]
        exact fun e => hno ⟨r, e⟩
      omega
    obtain ⟨r, hr⟩ := hex
    obtain ⟨p, hp⟩ := GetNextPortal_finds s hc r hr
    have hsel : (LeafThread flow s).1 = some p := by
      unfold LeafThread
      rcases hg : GetNextPortal s with ⟨_ | p2, s1⟩
      · rw [hg] at hp; cases hp
      · rw [hg] at hp
        simp only [Option.some.injEq] at hp
        subst hp
        rfl
    have hcnt := unprocessed_count_LeafThread flow s p hsel
    have hc1 := counts_exact_LeafThread flow s hc
    unfold LeafThread_run
    rcases hg : LeafThread flow s with ⟨_ | p2, s1⟩
    · rw [hg] at hsel; cases hsel
    · rw [hg] at hcnt hc1
      simp only at hcnt hc1 ⊢
      rw [List.length_cons, ih s1 hc1 (by omega)]

/-- The assembling loop of `CalcVis` succeeds when every portal is done. -/
theorem CalcVis_assemble_succeeds (compress : List Nat → List Nat) (s : State)
    (hdone : ∀ q ∈ s.portals, q.status = pstat_done) (l : List Nat) :
    ∀ (buffer : leafbits_t) (a : Assembler),
      ∃ a2, CalcVis_assemble compress s l buffer a = .ok a2 := by
  induction l with
  | nil => intro buffer a; exact ⟨a, rfl⟩
  | cons c rest ih =>
    intro buffer a
    obtain ⟨buf, a1, h1⟩ := ClusterFlow_succeeds compress s a c buffer
      (fun _ _ q _ _ hq => hdone q (List.getElem?_mem hq))
    obtain ⟨a2, h2⟩ := ih (leafbits_clear buf) a1
    refine ⟨a2, ?_⟩
    unfold CalcVis_assemble
    rw [h1]
    exact h2

theorem perm_range_of_nodup (l : List Nat) (N : Nat) (hnd : l.Nodup) (hlt : ∀ x ∈ l, x < N)
    (hlen : l.length = N) : l.Perm (List.range N) := by
  have hsub : l ⊆ List.range N := fun x hx => List.mem_range.2 (hlt x hx)
  have hsp : l.Subperm (List.range N) := List.subperm_of_subset hnd hsub
  exact hsp.perm_of_length_le (by rw [List.length_range, hlen])

/-- C28: the units of work of `CalcPortalVis`, run one after another from a state
in which every portal is unprocessed, the portal array has `2 * numportals`
entries and every portal carries in `nummightsee` the number of set bits of its
`mightsee` (a number below `INT_MAX`). Each of the `2 * numportals` units selects
a portal, the portals selected are all the directed portals, each once, and
afterwards every portal is done, so that the assembling loop of `CalcVis` does
not meet a portal that is not done and succeeds. In fast mode every portal is
done as well, and the loop succeeds. -/
theorem C28_every_portal_resolved (flow : State → Nat → leafbits_t)
    (compress : List Nat → List Nat) (s : State) (a : Assembler)
    (hnone : ∀ q ∈ s.portals, q.status = pstat_none)
    (hlen : s.portals.length = s.numportals * 2)
    (hcount : ∀ q ∈ s.portals,
      q.nummightsee = (popcount q.mightsee : Int) ∧ popcount q.mightsee < INT_MAX) :
    (LeafThread_run flow (s.numportals * 2) s).1.length = s.numportals * 2 ∧
    (LeafThread_run flow (s.numportals * 2) s).1.Perm (List.range (s.numportals * 2)) ∧
    CalcPortalVis false flow s = (LeafThread_run flow (s.numportals * 2) s).2 ∧
    (∀ q ∈ (CalcPortalVis false flow s).portals, q.status = pstat_done) ∧
    (∃ a2, CalcVis_assemble compress (CalcPortalVis false flow s)
      (List.range (CalcPortalVis false flow s).portalleafs)
      (leafbits_zero (CalcPortalVis false flow s).portalleafs) a = .ok a2) ∧
    (∀ q ∈ (CalcPortalVis true flow s).portals, q.status = pstat_done) ∧
    (∃ a2, CalcVis_assemble compress (CalcPortalVis true flow s)
      (List.range (CalcPortalVis true flow s).portalleafs)
      (leafbits_zero (CalcPortalVis true flow s).portalleafs) a = .ok a2) := by
  have hst : ∀ r, r < s.portals.length → statusAt s r = some pstat_none := by
    intro r hr
    unfold statusAt
    rw [List.getElem?_eq_getElem hr]
    simp only [Option.map_some', Option.some.injEq]
    exact hnone _ (List.getElem_mem _)
  have hc : counts_exact s := fun r q hq _ => hcount q (List.getElem?_mem hq)
  have hun : unprocessed_count s = s.portals.length := by
    unfold unprocessed_count
    have : (List.range s.portals.length).countP
        (fun r => decide (statusAt s r = some pstat_none)) = (List.range s.portals.length).length := by
      rw [List.countP_eq_length]
      intro r hr
      simp only [decide_eq_true_eq]
      exact hst r (List.mem_range.1 hr)
    rw [this, List.length_range]
  have hl := LeafThread_run_length flow (s.numportals * 2) s hc (by rw [hun, hlen])
  obtain ⟨hnd, hsel, _⟩ := LeafThread_run_spec flow (s.numportals * 2) s
  have hlt : ∀ p ∈ (LeafThread_run flow (s.numportals * 2) s).1, p < s.numportals * 2 := by
    intro p hp
    have h0 := (hsel p hp).1
    unfold statusAt at h0
    cases hq : s.portals[p]? with
    | none => rw [hq] at h0; cases h0
    | some q => rw [← hlen]; exact getElem?_lt hq
  have hperm := perm_range_of_nodup _ _ hnd hlt hl
  have hstart : CalcPortalVis_startcount s = 0 := by
    unfold CalcPortalVis_startcount
    rw [List.countP_eq_zero]
    intro q hq
    simp only [decide_eq_true_eq]
    rw [hnone q hq]
    decide
  have hcalc : CalcPortalVis false flow s = (LeafThread_run flow (s.numportals * 2) s).2 := by
    unfold CalcPortalVis
    simp only [Bool.false_eq_true, if_false]
    rw [hstart, Nat.sub_zero]
  have hdone : ∀ q ∈ (LeafThread_run flow (s.numportals * 2) s).2.portals,
      q.status = pstat_done := by
    intro q hq
    obtain ⟨r, hr⟩ := List.mem_iff_getElem?.1 hq
    have hrlt : r < s.numportals * 2 := by
      rw [← hlen, ← (Mono_LeafThread_run flow (s.numportals * 2) s).1]
      exact getElem?_lt hr
    have hmem : r ∈ (LeafThread_run flow (s.numportals * 2) s).1 :=
      hperm.mem_iff.2 (List.mem_range.2 hrlt)
    have h2 := (hsel r hmem).2
    unfold statusAt at h2
    rw [hr] at h2
    simpa using h2
  have hfast : ∀ q ∈ (CalcPortalVis true flow s).portals, q.status = pstat_done := by
    intro q hq
    unfold CalcPortalVis CalcPortalVis_fast at hq
    simp only [if_true, List.mem_map] at hq
    obtain ⟨q0, _, e⟩ := hq
    rw [← e]
  refine ⟨hl, hperm, hcalc, ?_, ?_, hfast, CalcVis_assemble_succeeds compress _ hfast _ _ _⟩
  · rw [hcalc]; exact hdone
  · rw [hcalc]
    exact CalcVis_assemble_succeeds compress _ hdone _ _ _

theorem chain_fresh_counts : ∀ q ∈ chain_fresh.portals,
    q.nummightsee = (popcount q.mightsee : Int) ∧ popcount q.mightsee < INT_MAX := by
  intro q hq
  simp only [chain_fresh, List.mem_cons, List.mem_singleton, List.not_mem_nil, or_false] at hq
  rcases hq with rfl | rfl | rfl | rfl <;> exact ⟨by decide, by decide⟩

theorem chain_fresh_none : ∀ q ∈ chain_fresh.portals, q.status = pstat_none := by
  intro q hq
  simp only [chain_fresh, List.mem_cons, List.mem_singleton, List.not_mem_nil, or_false] at hq
  rcases hq with rfl | rfl | rfl | rfl <;> rfl

/-- C28, witness: the chain of three leaves before the full pass; the four units
select the portals 1, 2, 0 and 3, and all four portals end done. -/
theorem C28_witness :
    (LeafThread_run flow_all 4 chain_fresh).1 = [1, 2, 0, 3] ∧
    (LeafThread_run flow_all (chain_fresh.numportals * 2) chain_fresh).1.length =
      chain_fresh.numportals * 2 ∧
    (LeafThread_run flow_all (chain_fresh.numportals * 2) chain_fresh).1.Perm
      (List.range (chain_fresh.numportals * 2)) ∧
    (∀ q ∈ (CalcPortalVis false flow_all chain_fresh).portals, q.status = pstat_done) ∧
    (∃ a2, CalcVis_assemble CompressRow (CalcPortalVis false flow_all chain_fresh)
      (List.range (CalcPortalVis false flow_all chain_fresh).portalleafs)
      (leafbits_zero (CalcPortalVis false flow_all chain_fresh).portalleafs) chain_assembler =
        .ok a2) :=
  have h := C28_every_portal_resolved flow_all CompressRow chain_fresh chain_assembler
    chain_fresh_none rfl chain_fresh_counts
  ⟨rfl, h.1, h.2.1, h.2.2.2.1, h.2.2.2.2.1⟩

/-! ## qbsp: the Quake II flags of ParseOptions -/

/-- The option string that `InitQBSP` builds from the command line
`qbsp -q2bsp map.map`. -/
theorem q2bsp_tokens :
    Qbsp.GetTok_all "-q2bsp \"map.map\" ".data.length "-q2bsp \"map.map\" ".data =
      ["-q2bsp".data, "map.map".data] := by
  rfl

/-- The token loop on `-q2bsp` and a file name: the target version becomes
`bspver_q2`, nothing else of the options changes. -/
theorem ParseOptions_loop_q2bsp (o : Qbsp.options_t) :
    Qbsp.ParseOptions_loop ["-q2bsp".data, "map.map".data] { options := o } =
      .ok { options := { o with target_version := .bspver_q2 }, NameCount := 1 } := by
  rfl

/-- C29, evaluated on the code: on the option string of the command line
`qbsp -q2bsp map.map`, `ParseOptions` returns with `fNoclip` true only if it was
true before the call or the target game before the call was Quake II; the
target game is set to the game of `bspver_q2` after the test. Started from the
defaults (a target game that is not Quake II), it returns with `fNoclip` false;
started with Quake II as target game, with `fNoclip` true. -/
theorem C29_q2bsp_noclip_depends_on_old_game :
    (∀ (G : Qbsp.gamedefs) (o : Qbsp.options_t),
      Qbsp.ParseOptions G o "-q2bsp \"map.map\" ".data =
        .ok { fNoclip := o.fNoclip || (o.target_game == G.GAME_QUAKE_II),
              fbspx_brushes := o.fbspx_brushes,
              target_version := .bspver_q2,
              target_game := G.game_of .bspver_q2 }) ∧
    Qbsp.ParseOptions Qbsp.demo_games {} "-q2bsp \"map.map\" ".data =
      .ok { fNoclip := false, fbspx_brushes := false, target_version := .bspver_q2,
            target_game := Qbsp.demo_games.GAME_QUAKE_II } ∧
    Qbsp.ParseOptions Qbsp.demo_games { target_game := Qbsp.demo_games.GAME_QUAKE_II }
        "-q2bsp \"map.map\" ".data =
      .ok { fNoclip := true, fbspx_brushes := false, target_version := .bspver_q2,
            target_game := Qbsp.demo_games.GAME_QUAKE_II } := by
  refine ⟨?_, rfl, rfl⟩
  intro G o
  unfold Qbsp.ParseOptions
  rw [q2bsp_tokens, ParseOptions_loop_q2bsp]
  simp only [Qbsp.ParseOptions_finish]
  by_cases hg : o.target_game = G.GAME_QUAKE_II <;> simp [hg]

/-! ## qbsp: the area portals -/

end Vis
